import Mathlib

set_option linter.unusedSectionVars false

/-
Verification development for `insertion_ordered_map.h`: an insertion-ordered
hash map with copy-on-write sharing, escape-flag tracking of handed-out
mutable references, and strong exception safety on mutating operations.

Shallow embedding:

* `MapStruct` embeds `map_structure` (lines 247-298 of the source):
  - `insertions` embeds the `std::list<K> insertions` as a list of
    `(nodeId, key)` pairs; node identity stands in for `std::list` iterator
    stability (a `std::list` iterator is a pointer to a node, unaffected by
    insertions/removals elsewhere).  Fresh node ids come from `nextId`, a
    model-only allocation counter, so node ids in one structure are unique
    by construction.
  - `mappings` embeds the `std::unordered_map<K, mapvaluetype, Hash> mappings`
    as an association list `key ↦ (nodeId, value)`; only lookup, insertion of
    an absent key, keyed removal and per-key update are performed on it, so
    the unspecified bucket order of the real container is irrelevant.
  - `non_const_refs_given` embeds the escape flag.

* `World` embeds the `shared_ptr` topology: a store of structures indexed by
  address, and the live container handles as an association list
  `handleId ↦ address`.  `use_count()` of a structure is the number of handle
  entries bound to its address; the temporary `old_struct` pointer held
  inside `copy_on_write` accounts for the `+1` in the source's
  `use_count() > 2` test, so the model clones exactly when at least two
  handles are bound to the address.

* Failure injection: every fallible primitive of the source (an allocation,
  a hash or an equality evaluation inside `make_shared`, `list::insert`,
  `unordered_map::insert/find/count/at`) consumes one tick of an `Oracle`;
  if the oracle fires at that tick the primitive throws having made no
  change (the strong guarantee each of those STL primitives documents), and
  the embedded `catch` blocks of the source run.  `lookup_error` and these
  propagated failures are the two `Err` constructors.  `size`, `empty`,
  `list::erase`, `unordered_map::erase(iterator)`, `pop_back` and `clear`
  are `noexcept`/no-throw and consume no tick.
-/

namespace IOMap

/-- Embeds `map_structure` (source lines 247-298). -/
structure MapStruct (K V : Type) where
  insertions : List (Nat × K)
  mappings : List (K × Nat × V)
  nextId : Nat
  non_const_refs_given : Bool
deriving DecidableEq

/-- Embeds the default constructor `map_structure()` (lines 280-283). -/
def emptyStruct {K V : Type} : MapStruct K V := ⟨[], [], 0, false⟩

variable {K V : Type} [DecidableEq K]

/-- Embeds `unordered_map` lookup (`find` / `count` / `at`): first entry with
the given key. -/
def mfind : List (K × Nat × V) → K → Option (Nat × V)
  | [], _ => none
  | e :: rest, k => if e.1 = k then some e.2 else mfind rest k

/-- Embeds `insertion_result.first->second.iter = iter` (line 57): overwrite
the stored node id of key `k`, keeping its value. -/
def msetIter (m : List (K × Nat × V)) (k : K) (i : Nat) : List (K × Nat × V) :=
  m.map (fun e => if e.1 = k then (e.1, i, e.2.2) else e)

/-- Embeds `mappings[*it].iter = it` in the `map_structure` copy constructor
(line 291): `operator[]` default-inserts an absent key before the iterator
assignment. -/
def msetIterD [Inhabited V] (m : List (K × Nat × V)) (k : K) (i : Nat) :
    List (K × Nat × V) :=
  if (mfind m k).isSome then msetIter m k i else m ++ [(k, i, default)]

/-- Embeds `insertions.erase(iter)`: remove the node with the given id (node
ids are unique by construction, so at most one node is removed). -/
def listEraseNode : List (Nat × K) → Nat → List (Nat × K)
  | [], _ => []
  | e :: rest, i => if e.1 = i then listEraseNode rest i else e :: listEraseNode rest i

/-- Embeds `mappings.erase(iter)` for the entry of key `k` (keys are unique
in `mappings` by construction). -/
def mErase : List (K × Nat × V) → K → List (K × Nat × V)
  | [], _ => []
  | e :: rest, k => if e.1 = k then mErase rest k else e :: mErase rest k

/-- Embeds the successful path of `private_insert` (lines 39-68) on the
structure the handle owns after `copy_on_write`: append `k` to the end of
`insertions`; `mappings.insert` adds `(k, (iter, v))` when `k` is absent,
otherwise the existing entry keeps its value, the old order node is erased
and the entry's node id is redirected to the appended node; the escape flag
is reset (line 60).  Returns the `insertion_result.second` boolean. -/
def structInsert (σ : MapStruct K V) (k : K) (v : V) : Bool × MapStruct K V :=
  let i := σ.nextId
  let ins1 := σ.insertions ++ [(i, k)]
  match mfind σ.mappings k with
  | none => (true, ⟨ins1, σ.mappings ++ [(k, i, v)], i + 1, false⟩)
  | some (oldi, _) => (false, ⟨listEraseNode ins1 oldi, msetIter σ.mappings k i, i + 1, false⟩)

/-- Embeds the mutation performed by `erase` once the key was found (lines
164-166): remove the key's order node and its index entry, reset the flag. -/
def structErase (σ : MapStruct K V) (k : K) : MapStruct K V :=
  match mfind σ.mappings k with
  | some (i, _) => ⟨listEraseNode σ.insertions i, mErase σ.mappings k, σ.nextId, false⟩
  | none => σ

/-- Embeds the mutation performed by `clear` (lines 236-238). -/
def structClear (σ : MapStruct K V) : MapStruct K V := ⟨[], [], σ.nextId, false⟩

/-- Embeds the rebuild loop of the `map_structure` copy constructor
(lines 290-292). -/
def rebuildIters [Inhabited V] (m : List (K × Nat × V)) :
    List (Nat × K) → List (K × Nat × V)
  | [] => m
  | e :: rest => rebuildIters (msetIterD m e.2 e.1) rest

/-- Embeds the `map_structure` copy constructor (lines 285-293): copy both
containers, reset the escape flag to `false`, and redirect every index
entry's node id through the fresh order sequence. -/
def cloneStruct [Inhabited V] (σ : MapStruct K V) : MapStruct K V :=
  ⟨σ.insertions, rebuildIters σ.mappings σ.insertions, σ.nextId, false⟩

/-- Keys in insertion order (what iterating `begin()`..`end()` visits). -/
def viewKeys (σ : MapStruct K V) : List K := σ.insertions.map Prod.snd

/-- The value stored under `k`, if any. -/
def valueAt (σ : MapStruct K V) (k : K) : Option V := (mfind σ.mappings k).map Prod.snd

/-- The observable contents: iterating yields each key in insertion order
together with the value `at` resolves for it. -/
def view (σ : MapStruct K V) : List (K × Option V) :=
  σ.insertions.map (fun e => (e.2, valueAt σ e.2))

/-- Embeds `size()` (lines 225-227): the length of the order sequence. -/
def sizeS (σ : MapStruct K V) : Nat := σ.insertions.length

/-- Embeds `contains` (lines 241-243). -/
def containsS (σ : MapStruct K V) (k : K) : Bool := (mfind σ.mappings k).isSome

/-- The structural invariant of a Shared State: order node ids are distinct,
index keys are distinct, the two containers have equal size, every index
entry's node id resolves to an order node holding that entry's key, every
order node's key has an index entry pointing back at that node, and all node
ids are below the allocation counter. -/
def Inv (σ : MapStruct K V) : Prop :=
  (σ.insertions.map Prod.fst).Nodup ∧
  (σ.mappings.map Prod.fst).Nodup ∧
  σ.insertions.length = σ.mappings.length ∧
  (∀ e ∈ σ.mappings, (e.2.1, e.1) ∈ σ.insertions) ∧
  (∀ e ∈ σ.insertions, ∃ v, mfind σ.mappings e.2 = some (e.1, v)) ∧
  (∀ e ∈ σ.insertions, e.1 < σ.nextId)

/-- Embeds the `shared_ptr` topology: `store` maps addresses to structures,
`handles` binds each live container handle to the address of the Shared
State its `data` member points to. -/
structure World (K V : Type) where
  store : Nat → MapStruct K V
  nextAddr : Nat
  handles : List (Nat × Nat)

/-- Association-list lookup used for `handles`. -/
def hlookup : List (Nat × Nat) → Nat → Option Nat
  | [], _ => none
  | p :: rest, h => if p.1 = h then some p.2 else hlookup rest h

/-- The address the handle's `data` member points to. -/
def World.addrOf (w : World K V) (h : Nat) : Nat := (hlookup w.handles h).getD 0

/-- The Shared State the handle observes. -/
def World.getH (w : World K V) (h : Nat) : MapStruct K V := w.store (w.addrOf h)

/-- The `use_count()` contributed by container handles: the number of handle
bindings to the address. -/
def useCount (w : World K V) (a : Nat) : Nat :=
  (w.handles.filter (fun p => p.2 == a)).length

/-- Re-point a handle's `data` member (`data = ...`). -/
def setHandle (w : World K V) (h a : Nat) : World K V :=
  { w with handles := w.handles.map (fun p => if p.1 = h then (p.1, a) else p) }

/-- Overwrite the structure stored at an address (an in-place mutation of a
Shared State). -/
def setStoreAt (w : World K V) (a : Nat) (σ : MapStruct K V) : World K V :=
  { w with store := Function.update w.store a σ }

/-- Mutate in place the Shared State the handle points to. -/
def setStructOfHandle (w : World K V) (h : Nat) (σ : MapStruct K V) : World K V :=
  setStoreAt w (w.addrOf h) σ

/-- Embeds `make_shared<map_structure>(σ)`: place `σ` at a fresh address. -/
def allocA (w : World K V) (σ : MapStruct K V) : Nat × World K V :=
  (w.nextAddr,
   { store := Function.update w.store w.nextAddr σ
     nextAddr := w.nextAddr + 1
     handles := w.handles })

/-- Register a freshly constructed handle bound to an address. -/
def addHandle (w : World K V) (h a : Nat) : World K V :=
  { w with handles := w.handles ++ [(h, a)] }

/-- The world of a single default-constructed container (source lines
122-123): one handle, number `0`, exclusively owning an empty Shared State
at address `0`. -/
def soloWorld (σ : MapStruct K V) : World K V :=
  ⟨Function.update (fun _ => emptyStruct) 0 σ, 1, [(0, 0)]⟩

/-- Well-formedness of the handle table: handle ids are distinct and every
bound address was allocated. -/
def WF (w : World K V) : Prop :=
  (w.handles.map Prod.fst).Nodup ∧ ∀ p ∈ w.handles, p.2 < w.nextAddr

/-- The two kinds of failure: `lookup_error` (line 10) and a propagated
failure of an underlying allocation / hash / equality. -/
inductive Err
  | lookup
  | fail
deriving DecidableEq

/-- Failure oracle: `g t = true` makes the `t`-th fallible primitive throw. -/
abbrev Oracle := Nat → Bool

/-- The oracle under which no underlying primitive ever fails. -/
def g0 : Oracle := fun _ => false

/-- Embeds `copy_on_write` (lines 30-37): with `old_struct` holding one extra
reference, `use_count() > 2` holds exactly when at least two handles are
bound to the address, and then `copy()` (lines 26-28) clones into a fresh
Shared State; the old address is returned for the callers' rollback.  The
`make_shared` inside `copy()` consumes a tick; if it throws, `data` is
untouched. -/
def cowOp [Inhabited V] (g : Oracle) (w : World K V) (h : Nat) (t : Nat) :
    Except Err Nat × World K V × Nat :=
  let a := w.addrOf h
  if 2 ≤ useCount w a then
    if g t then (.error .fail, w, t + 1)
    else
      let p := allocA w (cloneStruct (w.store a))
      (.ok a, setHandle p.2 h p.1, t + 1)
  else (.ok a, w, t)

/-- Embeds `private_insert` (lines 39-68).  Tick 1: `insertions.insert`
(throwing leaves the list unchanged; the catch restores `data`).  Tick 2:
`mappings.insert` (throwing leaves the index unchanged; the catch erases the
appended order node and restores `data`; the consumed list node shows up
only in the advanced allocation counter).  On success the combined effect is
`structInsert`. -/
def privateInsertOp [Inhabited V] (g : Oracle) (w : World K V) (h : Nat)
    (k : K) (v : V) (t : Nat) : Except Err Bool × World K V × Nat :=
  match cowOp g w h t with
  | (.error e, w1, t1) => (.error e, w1, t1)
  | (.ok oldA, w1, t1) =>
    if g t1 then (.error .fail, setHandle w1 h oldA, t1 + 1)
    else
      let σ := w1.getH h
      if g (t1 + 1) then
        (.error .fail,
         setHandle (setStructOfHandle w1 h { σ with nextId := σ.nextId + 1 }) h oldA,
         t1 + 2)
      else
        let r := structInsert σ k v
        (.ok r.1, setStructOfHandle w1 h r.2, t1 + 2)

/-- Embeds `insert` (lines 147-149): `private_insert(k, v).second`. -/
def insertOp [Inhabited V] (g : Oracle) (w : World K V) (h : Nat) (k : K) (v : V)
    (t : Nat) : Except Err Bool × World K V × Nat :=
  privateInsertOp g w h k v t

/-- Embeds `contains` (lines 241-243): one hash lookup tick, no state
change on either outcome. -/
def containsOp (g : Oracle) (w : World K V) (h : Nat) (k : K) (t : Nat) :
    Except Err Bool × World K V × Nat :=
  if g t then (.error .fail, w, t + 1)
  else (.ok (containsS (w.getH h) k), w, t + 1)

/-- Embeds `erase` (lines 151-167): `contains` guard raising `lookup_error`
on an absent key, `copy_on_write`, a `find` tick whose failure restores
`data`, then the two no-throw removals and the flag reset. -/
def eraseOp [Inhabited V] (g : Oracle) (w : World K V) (h : Nat) (k : K) (t : Nat) :
    Except Err Unit × World K V × Nat :=
  match containsOp g w h k t with
  | (.error e, w1, t1) => (.error e, w1, t1)
  | (.ok b, w1, t1) =>
    if b = false then (.error .lookup, w1, t1)
    else
      match cowOp g w1 h t1 with
      | (.error e, w2, t2) => (.error e, w2, t2)
      | (.ok oldA, w2, t2) =>
        if g t2 then (.error .fail, setHandle w2 h oldA, t2 + 1)
        else (.ok (), setStructOfHandle w2 h (structErase (w2.getH h) k), t2 + 1)

/-- Embeds the read-only `at` overload (lines 204-208): `contains` guard,
then one `mappings.at` tick; no state change on any outcome. -/
def atConstOp [Inhabited V] (g : Oracle) (w : World K V) (h : Nat) (k : K) (t : Nat) :
    Except Err V × World K V × Nat :=
  match containsOp g w h k t with
  | (.error e, w1, t1) => (.error e, w1, t1)
  | (.ok b, w1, t1) =>
    if b = false then (.error .lookup, w1, t1)
    else if g t1 then (.error .fail, w1, t1 + 1)
    else (.ok ((valueAt (w1.getH h) k).getD default), w1, t1 + 1)

/-- Embeds the mutable `at` overload (lines 188-202): `contains` guard,
`copy_on_write`, set the escape flag, then one `mappings.at` tick whose
failure resets the flag and restores `data`. -/
def atMutOp [Inhabited V] (g : Oracle) (w : World K V) (h : Nat) (k : K) (t : Nat) :
    Except Err V × World K V × Nat :=
  match containsOp g w h k t with
  | (.error e, w1, t1) => (.error e, w1, t1)
  | (.ok b, w1, t1) =>
    if b = false then (.error .lookup, w1, t1)
    else
      match cowOp g w1 h t1 with
      | (.error e, w2, t2) => (.error e, w2, t2)
      | (.ok oldA, w2, t2) =>
        let σ := w2.getH h
        let w3 := setStructOfHandle w2 h { σ with non_const_refs_given := true }
        if g t2 then
          (.error .fail,
           setHandle (setStructOfHandle w3 h { w3.getH h with non_const_refs_given := false }) h oldA,
           t2 + 1)
        else (.ok ((valueAt σ k).getD default), w3, t2 + 1)

/-- Embeds `operator[]` (lines 210-223): `private_insert(k, V())`, then the
mutable `at(k)`; if `at` fails after a fresh insert, the fresh index entry
is erased and the appended order node popped, otherwise the failure
propagates with no further rollback. -/
def idxOp [Inhabited V] (g : Oracle) (w : World K V) (h : Nat) (k : K) (t : Nat) :
    Except Err V × World K V × Nat :=
  match privateInsertOp g w h k default t with
  | (.error e, w1, t1) => (.error e, w1, t1)
  | (.ok inserted, w1, t1) =>
    match atMutOp g w1 h k t1 with
    | (.ok v, w2, t2) => (.ok v, w2, t2)
    | (.error e, w2, t2) =>
      if inserted then
        let σ := w2.getH h
        (.error e,
         setStructOfHandle w2 h
           ⟨σ.insertions.dropLast, mErase σ.mappings k, σ.nextId, σ.non_const_refs_given⟩,
         t2)
      else (.error e, w2, t2)

/-- Embeds `clear` (lines 233-239): `copy_on_write`, then the two no-throw
`clear`s and the flag reset. -/
def clearOp [Inhabited V] (g : Oracle) (w : World K V) (h : Nat) (t : Nat) :
    Except Err Unit × World K V × Nat :=
  match cowOp g w h t with
  | (.error e, w1, t1) => (.error e, w1, t1)
  | (.ok _, w1, t1) => (.ok (), setStructOfHandle w1 h (structClear (w1.getH h)), t1)

/-- Embeds the loop body of `merge` (lines 177-178): for each key of
`other`'s order sequence, `insert(k, other.at(k))` with the read-only `at`
evaluated first. -/
def mergeLoop [Inhabited V] (g : Oracle) (w : World K V) (h hother : Nat) :
    List K → Nat → Except Err Unit × World K V × Nat
  | [], t => (.ok (), w, t)
  | k :: rest, t =>
    match atConstOp g w hother k t with
    | (.error e, w1, t1) => (.error e, w1, t1)
    | (.ok v, w1, t1) =>
      match insertOp g w1 h k v t1 with
      | (.error e, w2, t2) => (.error e, w2, t2)
      | (.ok _, w2, t2) => mergeLoop g w2 h hother rest t2

/-- Embeds `merge` (lines 169-186): no-op on the same object; otherwise
snapshot `data`, eagerly `copy()` (one clone tick), run the insert loop over
`other`'s order sequence, restoring the snapshot on any failure, and reset
the escape flag on success. -/
def mergeOp [Inhabited V] (g : Oracle) (w : World K V) (h hother : Nat) (t : Nat) :
    Except Err Unit × World K V × Nat :=
  if h = hother then (.ok (), w, t)
  else
    let backupA := w.addrOf h
    if g t then (.error .fail, w, t + 1)
    else
      let p := allocA w (cloneStruct (w.getH h))
      let w2 := setHandle p.2 h p.1
      match mergeLoop g w2 h hother (viewKeys (w2.getH hother)) (t + 1) with
      | (.error e, w3, t3) => (.error e, setHandle w3 h backupA, t3)
      | (.ok _, w3, t3) =>
        (.ok (), setStructOfHandle w3 h { w3.getH h with non_const_refs_given := false }, t3)

/-- Embeds the copy constructor (lines 125-130): share the source's Shared
State; if its escape flag is set, `copy()` replaces the share by a fresh
clone (one tick; if the clone throws, the handle is not constructed). -/
def copyCtorOp [Inhabited V] (g : Oracle) (w : World K V) (newh srch : Nat) (t : Nat) :
    Except Err Unit × World K V × Nat :=
  let σ := w.getH srch
  if σ.non_const_refs_given then
    if g t then (.error .fail, w, t + 1)
    else
      let p := allocA w (cloneStruct σ)
      (.ok (), addHandle p.2 newh p.1, t + 1)
  else (.ok (), addHandle w newh (w.addrOf srch), t)

/-- Embeds copy assignment (lines 138-145).  `operator=` takes its argument
by value, so the copy constructor runs first: if the source's escape flag is
set it produces a fresh clone (whose flag is `false`), otherwise the
temporary shares the source's Shared State; the body then finds the
temporary's flag `false` either way and shares it. -/
def assignOp [Inhabited V] (g : Oracle) (w : World K V) (dsth srch : Nat) (t : Nat) :
    Except Err Unit × World K V × Nat :=
  let σ := w.getH srch
  if σ.non_const_refs_given then
    if g t then (.error .fail, w, t + 1)
    else
      let p := allocA w (cloneStruct σ)
      (.ok (), setHandle p.2 dsth p.1, t + 1)
  else (.ok (), setHandle w dsth (w.addrOf srch), t)

/-- Embeds `size()` (lines 225-227): `noexcept`, returns the world as is. -/
def sizeOp (w : World K V) (h : Nat) : Nat × World K V := (sizeS (w.getH h), w)

/-- Embeds `empty()` (lines 229-231): `size() == 0`, `noexcept`. -/
def emptyOp (w : World K V) (h : Nat) : Bool × World K V :=
  (decide (sizeS (w.getH h) = 0), w)

/-- Embeds obtaining and walking `begin()`..`end()` (lines 111-119) and
dereferencing along the way: the (key, value) pairs in insertion order; no
world change. -/
def beginOp (w : World K V) (h : Nat) : List (K × Option V) × World K V :=
  (view (w.getH h), w)

/-- The mutating operations of the public interface. -/
inductive MutOp (K V : Type) where
  | ins (k : K) (v : V)
  | ers (k : K)
  | idx (k : K)
  | atM (k : K)
  | mrg (other : Nat)
  | clr

/-- The world after a mutating operation ran on handle `h` (whether it
succeeded or threw). -/
def applyMut [Inhabited V] (g : Oracle) (w : World K V) (h : Nat)
    (op : MutOp K V) (t : Nat) : World K V :=
  match op with
  | .ins k v => (insertOp g w h k v t).2.1
  | .ers k => (eraseOp g w h k t).2.1
  | .idx k => (idxOp g w h k t).2.1
  | .atM k => (atMutOp g w h k t).2.1
  | .mrg o => (mergeOp g w h o t).2.1
  | .clr => (clearOp g w h t).2.1

/-! Association-list lemmas for the embedded `unordered_map`. -/

theorem mfind_eq_none {m : List (K × Nat × V)} {k : K} :
    mfind m k = none ↔ k ∉ m.map Prod.fst := by
  induction m with
  | nil => simp [mfind]
  | cons e rest ih =>
    simp only [mfind, List.map_cons, List.mem_cons]
    split
    · simp_all
    · simp_all [eq_comm]

theorem mfind_append_left {m m2 : List (K × Nat × V)} {k : K} {p : Nat × V}
    (h : mfind m k = some p) : mfind (m ++ m2) k = some p := by
  induction m with
  | nil => simp [mfind] at h
  | cons e rest ih =>
    simp only [mfind, List.cons_append] at *
    split at h <;> simp_all [mfind]

theorem mfind_append_right {m m2 : List (K × Nat × V)} {k : K}
    (h : mfind m k = none) : mfind (m ++ m2) k = mfind m2 k := by
  induction m with
  | nil => simp
  | cons e rest ih =>
    simp only [mfind, List.cons_append] at *
    split at h <;> simp_all [mfind]

theorem mfind_mem {m : List (K × Nat × V)} {k : K} {p : Nat × V}
    (h : mfind m k = some p) : (k, p) ∈ m := by
  induction m with
  | nil => simp [mfind] at h
  | cons e rest ih =>
    simp only [mfind] at h
    split at h
    · rename_i hek
      have h2 : e.2 = p := by injection h
      have : (k, p) = e := by rw [← hek, ← h2]
      exact List.mem_cons.2 (Or.inl this)
    · exact List.mem_cons_of_mem e (ih h)

theorem mem_mfind {m : List (K × Nat × V)} {k : K} {p : Nat × V}
    (hnd : (m.map Prod.fst).Nodup) (h : (k, p) ∈ m) : mfind m k = some p := by
  induction m with
  | nil => simp at h
  | cons e rest ih =>
    simp only [List.map_cons, List.nodup_cons] at hnd
    rcases List.mem_cons.1 h with h1 | h1
    · simp [mfind, ← h1]
    · have hne : e.1 ≠ k := by
        intro he
        exact hnd.1 (he ▸ (List.mem_map.2 ⟨(k, p), h1, rfl⟩))
      simp [mfind, hne, ih hnd.2 h1]

theorem entry_unique_of_nodup_keys {m : List (K × Nat × V)} {e1 e2 : K × Nat × V}
    (hnd : (m.map Prod.fst).Nodup) (h1 : e1 ∈ m) (h2 : e2 ∈ m) (hk : e1.1 = e2.1) :
    e1 = e2 := by
  have := mem_mfind hnd (show (e1.1, e1.2) ∈ m from h1)
  have := mem_mfind hnd (show (e1.1, e2.2) ∈ m from hk ▸ h2)
  have : e1.2 = e2.2 := by simp_all
  exact Prod.ext hk this

/-! Lemmas about `msetIter`. -/

theorem msetIter_map_fst (m : List (K × Nat × V)) (k : K) (i : Nat) :
    (msetIter m k i).map Prod.fst = m.map Prod.fst := by
  induction m with
  | nil => rfl
  | cons e rest ih =>
    simp only [msetIter, List.map_cons] at *
    split <;> simp_all

theorem msetIter_length (m : List (K × Nat × V)) (k : K) (i : Nat) :
    (msetIter m k i).length = m.length := by
  simpa using congrArg List.length (msetIter_map_fst m k i)

theorem mfind_msetIter_self {m : List (K × Nat × V)} {k : K} {j : Nat} {v : V} (i : Nat)
    (h : mfind m k = some (j, v)) : mfind (msetIter m k i) k = some (i, v) := by
  induction m with
  | nil => simp [mfind] at h
  | cons e rest ih =>
    simp only [mfind, msetIter, List.map_cons] at *
    split at h
    · simp_all [mfind]
    · simp_all [mfind]

theorem mfind_msetIter_ne {m : List (K × Nat × V)} {k k' : K} (i : Nat)
    (h : k' ≠ k) : mfind (msetIter m k i) k' = mfind m k' := by
  induction m with
  | nil => rfl
  | cons e rest ih =>
    by_cases hek : e.1 = k
    · have h1 : ¬e.1 = k' := fun hh => h (by rw [← hh]; exact hek)
      simp only [msetIter, List.map_cons, if_pos hek, mfind, h1, if_false, ite_false]
      exact ih
    · simp only [msetIter, List.map_cons, if_neg hek, mfind]
      by_cases hek' : e.1 = k'
      · simp [hek']
      · simp only [if_neg hek']
        exact ih

theorem mem_msetIter {m : List (K × Nat × V)} {k : K} {i : Nat} {e : K × Nat × V}
    (he : e ∈ msetIter m k i) :
    (e.1 ≠ k ∧ e ∈ m) ∨ (e.1 = k ∧ e.2.1 = i ∧ ∃ j, (k, j, e.2.2) ∈ m) := by
  rcases List.mem_map.1 he with ⟨e0, he0, heq⟩
  by_cases h : e0.1 = k
  · right
    rw [if_pos h] at heq
    subst heq
    exact ⟨h, rfl, e0.2.1, by rw [← h]; exact he0⟩
  · left
    rw [if_neg h] at heq
    subst heq
    exact ⟨h, he0⟩

/-! Lemmas about `mErase`. -/

theorem mem_mErase {m : List (K × Nat × V)} {k : K} {e : K × Nat × V} :
    e ∈ mErase m k ↔ e ∈ m ∧ e.1 ≠ k := by
  induction m with
  | nil => simp [mErase]
  | cons e0 rest ih =>
    simp only [mErase]
    split
    · rename_i h0
      simp only [List.mem_cons, ih]
      constructor
      · rintro ⟨h1, h2⟩
        exact ⟨Or.inr h1, h2⟩
      · rintro ⟨h1 | h1, h2⟩
        · exact absurd (h1 ▸ h0) h2
        · exact ⟨h1, h2⟩
    · rename_i h0
      simp only [List.mem_cons, ih]
      constructor
      · rintro (h1 | ⟨h1, h2⟩)
        · exact ⟨Or.inl h1, h1 ▸ h0⟩
        · exact ⟨Or.inr h1, h2⟩
      · rintro ⟨h1 | h1, h2⟩
        · exact Or.inl h1
        · exact Or.inr ⟨h1, h2⟩

theorem mErase_sublist (m : List (K × Nat × V)) (k : K) : (mErase m k).Sublist m := by
  induction m with
  | nil => simp [mErase]
  | cons e rest ih =>
    simp only [mErase]
    split
    · exact ih.cons e
    · exact ih.cons₂ e

theorem mfind_mErase_self (m : List (K × Nat × V)) (k : K) :
    mfind (mErase m k) k = none := by
  rw [mfind_eq_none]
  intro hk
  rcases List.mem_map.1 hk with ⟨e, he, heq⟩
  exact (mem_mErase.1 he).2 heq

theorem mfind_mErase_ne {m : List (K × Nat × V)} {k k' : K} (h : k' ≠ k) :
    mfind (mErase m k) k' = mfind m k' := by
  induction m with
  | nil => rfl
  | cons e rest ih =>
    simp only [mErase]
    by_cases hek : e.1 = k
    · have h2 : ¬e.1 = k' := fun hh => h (by rw [← hh]; exact hek)
      rw [if_pos hek, ih, mfind, if_neg h2]
    · rw [if_neg hek, mfind, mfind]
      by_cases hek' : e.1 = k'
      · rw [if_pos hek', if_pos hek']
      · rw [if_neg hek', if_neg hek', ih]

theorem mErase_eq_self {m : List (K × Nat × V)} {k : K}
    (h : k ∉ m.map Prod.fst) : mErase m k = m := by
  induction m with
  | nil => rfl
  | cons e rest ih =>
    simp only [List.map_cons, List.mem_cons] at h
    push_neg at h
    simp [mErase, Ne.symm h.1, ih h.2]

theorem mErase_append_singleton {m : List (K × Nat × V)} {k : K} {i : Nat} {v : V}
    (h : k ∉ m.map Prod.fst) : mErase (m ++ [(k, i, v)]) k = m := by
  induction m with
  | nil => simp [mErase]
  | cons e rest ih =>
    simp only [List.map_cons, List.mem_cons] at h
    push_neg at h
    simp [mErase, Ne.symm h.1, ih h.2]

theorem mErase_length {m : List (K × Nat × V)} {k : K}
    (hnd : (m.map Prod.fst).Nodup) (hk : k ∈ m.map Prod.fst) :
    (mErase m k).length + 1 = m.length := by
  induction m with
  | nil => simp at hk
  | cons e rest ih =>
    simp only [List.map_cons, List.nodup_cons] at hnd
    simp only [List.map_cons, List.mem_cons] at hk
    simp only [mErase]
    by_cases hek : e.1 = k
    · rw [if_pos hek, mErase_eq_self (hek ▸ hnd.1), List.length_cons]
    · rcases hk with hk | hk
      · exact absurd hk.symm hek
      · simp only [if_neg hek, List.length_cons]
        rw [← ih hnd.2 hk]

/-! Lemmas about `listEraseNode`. -/

theorem mem_listEraseNode {l : List (Nat × K)} {i : Nat} {e : Nat × K} :
    e ∈ listEraseNode l i ↔ e ∈ l ∧ e.1 ≠ i := by
  induction l with
  | nil => simp [listEraseNode]
  | cons e0 rest ih =>
    simp only [listEraseNode]
    split
    · rename_i h0
      simp only [List.mem_cons, ih]
      constructor
      · rintro ⟨h1, h2⟩
        exact ⟨Or.inr h1, h2⟩
      · rintro ⟨h1 | h1, h2⟩
        · exact absurd (h1 ▸ h0) h2
        · exact ⟨h1, h2⟩
    · rename_i h0
      simp only [List.mem_cons, ih]
      constructor
      · rintro (h1 | ⟨h1, h2⟩)
        · exact ⟨Or.inl h1, h1 ▸ h0⟩
        · exact ⟨Or.inr h1, h2⟩
      · rintro ⟨h1 | h1, h2⟩
        · exact Or.inl h1
        · exact Or.inr ⟨h1, h2⟩

theorem listEraseNode_sublist (l : List (Nat × K)) (i : Nat) :
    (listEraseNode l i).Sublist l := by
  induction l with
  | nil => simp [listEraseNode]
  | cons e rest ih =>
    simp only [listEraseNode]
    split
    · exact ih.cons e
    · exact ih.cons₂ e

theorem listEraseNode_eq_self {l : List (Nat × K)} {i : Nat}
    (h : i ∉ l.map Prod.fst) : listEraseNode l i = l := by
  induction l with
  | nil => rfl
  | cons e rest ih =>
    simp only [List.map_cons, List.mem_cons] at h
    push_neg at h
    simp [listEraseNode, Ne.symm h.1, ih h.2]

theorem listEraseNode_append (l l2 : List (Nat × K)) (i : Nat) :
    listEraseNode (l ++ l2) i = listEraseNode l i ++ listEraseNode l2 i := by
  induction l with
  | nil => rfl
  | cons e rest ih =>
    simp only [listEraseNode, List.cons_append]
    split <;> simp [listEraseNode, ih]

theorem listEraseNode_length {l : List (Nat × K)} {i : Nat}
    (hnd : (l.map Prod.fst).Nodup) (hi : i ∈ l.map Prod.fst) :
    (listEraseNode l i).length + 1 = l.length := by
  induction l with
  | nil => simp at hi
  | cons e rest ih =>
    simp only [List.map_cons, List.nodup_cons] at hnd
    simp only [List.map_cons, List.mem_cons] at hi
    simp only [listEraseNode]
    by_cases hei : e.1 = i
    · rw [if_pos hei, listEraseNode_eq_self (hei ▸ hnd.1), List.length_cons]
    · rcases hi with hi | hi
      · exact absurd hi.symm hei
      · simp only [if_neg hei, List.length_cons]
        rw [← ih hnd.2 hi]

theorem map_snd_listEraseNode_eq_filter {l : List (Nat × K)} {i : Nat} {k : K}
    (h : ∀ e ∈ l, e.2 = k ↔ e.1 = i) :
    (listEraseNode l i).map Prod.snd = (l.map Prod.snd).filter (fun x => x ≠ k) := by
  induction l with
  | nil => rfl
  | cons e rest ih =>
    have he := h e (List.mem_cons_self e rest)
    have hrest : ∀ e' ∈ rest, e'.2 = k ↔ e'.1 = i :=
      fun e' he' => h e' (List.mem_cons_of_mem e he')
    simp only [listEraseNode, List.map_cons, List.filter_cons]
    by_cases hei : e.1 = i
    · have : e.2 = k := he.2 hei
      simp [hei, this, ih hrest]
    · have : e.2 ≠ k := fun hh => hei (he.1 hh)
      simp [hei, this, ih hrest]

/-! Consequences of the structural invariant. -/

theorem node_unique_of_nodup_ids {l : List (Nat × K)} {e1 e2 : Nat × K}
    (hnd : (l.map Prod.fst).Nodup) (h1 : e1 ∈ l) (h2 : e2 ∈ l) (hi : e1.1 = e2.1) :
    e1 = e2 := by
  induction l with
  | nil => simp at h1
  | cons e rest ih =>
    simp only [List.map_cons, List.nodup_cons] at hnd
    rcases List.mem_cons.1 h1 with h1 | h1 <;> rcases List.mem_cons.1 h2 with h2 | h2
    · rw [h1, h2]
    · exact absurd (List.mem_map.2 ⟨e2, h2, by rw [← hi, h1]⟩) hnd.1
    · exact absurd (List.mem_map.2 ⟨e1, h1, by rw [hi, h2]⟩) hnd.1
    · exact ih hnd.2 h1 h2

theorem inv_key_unique {σ : MapStruct K V} (h : Inv σ) {j1 j2 : Nat} {k : K}
    (h1 : (j1, k) ∈ σ.insertions) (h2 : (j2, k) ∈ σ.insertions) : j1 = j2 := by
  obtain ⟨-, -, -, -, h5, -⟩ := h
  obtain ⟨v1, hv1⟩ := h5 (j1, k) h1
  obtain ⟨v2, hv2⟩ := h5 (j2, k) h2
  rw [hv1] at hv2
  injection hv2 with hv2
  injection hv2

theorem inv_viewKeys_nodup {σ : MapStruct K V} (h : Inv σ) : (viewKeys σ).Nodup := by
  have hnd : σ.insertions.Nodup := h.1.of_map
  refine List.Nodup.map_on ?_ hnd
  intro e1 h1 e2 h2 hk
  have : (e1.1, e1.2) ∈ σ.insertions := h1
  have h1' : (e1.1, e2.2) ∈ σ.insertions := by rw [← hk]; exact h1
  have := inv_key_unique h h1' h2
  exact Prod.ext this hk

theorem inv_slot_unique {σ : MapStruct K V} (h : Inv σ) {e1 e2 : K × Nat × V}
    (h1 : e1 ∈ σ.mappings) (h2 : e2 ∈ σ.mappings) (hi : e1.2.1 = e2.2.1) : e1 = e2 := by
  have hk1 := h.2.2.2.1 e1 h1
  have hk2 := h.2.2.2.1 e2 h2
  have := node_unique_of_nodup_ids h.1 hk1 hk2 hi
  injection this with _ hkey
  exact entry_unique_of_nodup_keys h.2.1 h1 h2 hkey

theorem inv_containsS_iff {σ : MapStruct K V} (h : Inv σ) {k : K} :
    containsS σ k = true ↔ k ∈ viewKeys σ := by
  constructor
  · intro hc
    rcases Option.isSome_iff_exists.1 hc with ⟨p, hp⟩
    have := h.2.2.2.1 (k, p) (mfind_mem hp)
    exact List.mem_map.2 ⟨(p.1, k), this, rfl⟩
  · intro hk
    rcases List.mem_map.1 hk with ⟨e, he, heq⟩
    obtain ⟨v, hv⟩ := h.2.2.2.2.1 e he
    rw [heq] at hv
    rw [containsS, hv]
    rfl

/-! Functional characterization of `private_insert`'s success path. -/

theorem structInsert_absent {σ : MapStruct K V} {k : K} (v : V)
    (h : mfind σ.mappings k = none) :
    structInsert σ k v =
      (true, ⟨σ.insertions ++ [(σ.nextId, k)], σ.mappings ++ [(k, σ.nextId, v)],
              σ.nextId + 1, false⟩) := by
  simp [structInsert, h]

theorem structInsert_present {σ : MapStruct K V} {k : K} {oldi : Nat} {v0 : V} (v : V)
    (h : mfind σ.mappings k = some (oldi, v0)) :
    structInsert σ k v =
      (false, ⟨listEraseNode (σ.insertions ++ [(σ.nextId, k)]) oldi,
               msetIter σ.mappings k σ.nextId, σ.nextId + 1, false⟩) := by
  simp [structInsert, h]

theorem viewKeys_structInsert_absent {σ : MapStruct K V} {k : K} (v : V)
    (h : mfind σ.mappings k = none) :
    viewKeys (structInsert σ k v).2 = viewKeys σ ++ [k] := by
  rw [structInsert_absent v h]
  simp [viewKeys]

theorem valueAt_structInsert_self {σ : MapStruct K V} {k : K} (v : V) :
    valueAt (structInsert σ k v).2 k =
      some ((valueAt σ k).getD v) := by
  rcases hm : mfind σ.mappings k with - | ⟨oldi, v0⟩
  · rw [structInsert_absent v hm]
    dsimp only [valueAt]
    rw [mfind_append_right hm]
    simp [mfind, valueAt, hm]
  · rw [structInsert_present v hm]
    dsimp only [valueAt]
    rw [mfind_msetIter_self σ.nextId hm]
    simp [valueAt, hm]

theorem valueAt_structInsert_ne {σ : MapStruct K V} {k k' : K} (v : V) (hne : k' ≠ k) :
    valueAt (structInsert σ k v).2 k' = valueAt σ k' := by
  rcases hm : mfind σ.mappings k with - | ⟨oldi, v0⟩
  · rw [structInsert_absent v hm]
    dsimp only [valueAt]
    rcases hm' : mfind σ.mappings k' with - | p
    · rw [mfind_append_right hm', mfind, if_neg (fun hh => hne hh.symm)]
      rfl
    · rw [mfind_append_left hm']
  · rw [structInsert_present v hm]
    dsimp only [valueAt]
    rw [mfind_msetIter_ne σ.nextId hne]

theorem startInsert_node_of_present {σ : MapStruct K V} (h : Inv σ) {k : K} {oldi : Nat}
    {v0 : V} (hm : mfind σ.mappings k = some (oldi, v0)) :
    (oldi, k) ∈ σ.insertions ∧ oldi < σ.nextId := by
  have hmem := mfind_mem hm
  have hn := h.2.2.2.1 (k, oldi, v0) hmem
  exact ⟨hn, h.2.2.2.2.2 (oldi, k) hn⟩

theorem viewKeys_structInsert_present {σ : MapStruct K V} (hInv : Inv σ)
    {k : K} {oldi : Nat} {v0 : V} (v : V)
    (h : mfind σ.mappings k = some (oldi, v0)) :
    viewKeys (structInsert σ k v).2 = (viewKeys σ).filter (fun x => x ≠ k) ++ [k] := by
  obtain ⟨hnode, hlt⟩ := startInsert_node_of_present hInv h
  rw [structInsert_present v h]
  show (listEraseNode (σ.insertions ++ [(σ.nextId, k)]) oldi).map Prod.snd = _
  rw [listEraseNode_append]
  have hne : (σ.nextId : Nat) ≠ oldi := fun hh => absurd (hh ▸ hlt) (lt_irrefl _)
  rw [show listEraseNode [(σ.nextId, k)] oldi = [(σ.nextId, k)] by
        simp [listEraseNode, hne]]
  rw [List.map_append]
  congr 1
  apply map_snd_listEraseNode_eq_filter
  intro e he
  constructor
  · intro hk
    obtain ⟨v', hv'⟩ := hInv.2.2.2.2.1 e he
    rw [hk, h] at hv'
    injection hv' with hv'
    injection hv' with h1 h2
    exact h1.symm
  · intro hi
    have : e = (oldi, k) := node_unique_of_nodup_ids hInv.1 he hnode hi
    rw [this]

theorem sizeS_structInsert_absent {σ : MapStruct K V} {k : K} (v : V)
    (h : mfind σ.mappings k = none) :
    sizeS (structInsert σ k v).2 = sizeS σ + 1 := by
  rw [structInsert_absent v h]
  simp [sizeS]

theorem sizeS_structInsert_present {σ : MapStruct K V} (hInv : Inv σ)
    {k : K} {oldi : Nat} {v0 : V} (v : V)
    (h : mfind σ.mappings k = some (oldi, v0)) :
    sizeS (structInsert σ k v).2 = sizeS σ := by
  obtain ⟨hnode, hlt⟩ := startInsert_node_of_present hInv h
  rw [structInsert_present v h]
  show (listEraseNode (σ.insertions ++ [(σ.nextId, k)]) oldi).length = _
  have hnd : ((σ.insertions ++ [(σ.nextId, k)]).map Prod.fst).Nodup := by
    rw [List.map_append]
    refine hInv.1.append (List.nodup_singleton _) ?_
    intro a ha hb
    simp only [List.map_cons, List.map_nil, List.mem_singleton] at hb
    rcases List.mem_map.1 ha with ⟨e, he, heq⟩
    have := hInv.2.2.2.2.2 e he
    omega
  have hmem : oldi ∈ (σ.insertions ++ [(σ.nextId, k)]).map Prod.fst := by
    rw [List.map_append]
    exact List.mem_append.2 (Or.inl (List.mem_map.2 ⟨(oldi, k), hnode, rfl⟩))
  have := listEraseNode_length hnd hmem
  simp only [List.length_append, List.length_singleton] at this
  simp only [sizeS]
  omega

/-! Preservation of the structural invariant. -/

theorem inv_structInsert {σ : MapStruct K V} (h : Inv σ) (k : K) (v : V) :
    Inv (structInsert σ k v).2 := by
  obtain ⟨h1, h2, h3, h4, h5, h6⟩ := h
  rcases hm : mfind σ.mappings k with - | ⟨oldi, v0⟩
  · rw [structInsert_absent v hm]
    dsimp only
    have hknot : k ∉ σ.mappings.map Prod.fst := mfind_eq_none.1 hm
    refine ⟨?_, ?_, ?_, ?_, ?_, ?_⟩
    · rw [List.map_append]
      refine h1.append (List.nodup_singleton _) ?_
      intro a ha hb
      simp only [List.map_cons, List.map_nil, List.mem_singleton] at hb
      rcases List.mem_map.1 ha with ⟨e, he, heq⟩
      have := h6 e he
      omega
    · rw [List.map_append]
      refine h2.append (List.nodup_singleton _) ?_
      intro a ha hb
      simp only [List.map_cons, List.map_nil, List.mem_singleton] at hb
      exact hknot (hb ▸ ha)
    · simp [h3]
    · intro e he
      rcases List.mem_append.1 he with he | he
      · exact List.mem_append.2 (Or.inl (h4 e he))
      · simp only [List.mem_singleton] at he
        rw [he]
        exact List.mem_append.2 (Or.inr (by simp))
    · intro e he
      rcases List.mem_append.1 he with he | he
      · obtain ⟨v', hv'⟩ := h5 e he
        exact ⟨v', mfind_append_left hv'⟩
      · simp only [List.mem_singleton] at he
        rw [he]
        refine ⟨v, ?_⟩
        rw [mfind_append_right hm]
        simp [mfind]
    · intro e he
      rcases List.mem_append.1 he with he | he
      · exact Nat.lt_succ_of_lt (h6 e he)
      · simp only [List.mem_singleton] at he
        rw [he]
        exact Nat.lt_succ_self _
  · rw [structInsert_present v hm]
    dsimp only
    have hmem := mfind_mem hm
    have hnode : (oldi, k) ∈ σ.insertions := h4 (k, oldi, v0) hmem
    have hlt : oldi < σ.nextId := h6 (oldi, k) hnode
    have hsub : (listEraseNode σ.insertions oldi).Sublist σ.insertions :=
      listEraseNode_sublist σ.insertions oldi
    have hne : (σ.nextId : Nat) ≠ oldi := fun hh => absurd (hh ▸ hlt) (lt_irrefl _)
    have hsplit : listEraseNode (σ.insertions ++ [(σ.nextId, k)]) oldi =
        listEraseNode σ.insertions oldi ++ [(σ.nextId, k)] := by
      rw [listEraseNode_append]
      congr 1
      simp [listEraseNode, hne]
    refine ⟨?_, ?_, ?_, ?_, ?_, ?_⟩
    · rw [hsplit, List.map_append]
      refine ((h1.sublist (hsub.map Prod.fst)).append (List.nodup_singleton _)) ?_
      intro a ha hb
      simp only [List.map_cons, List.map_nil, List.mem_singleton] at hb
      rcases List.mem_map.1 ha with ⟨e, he, heq⟩
      have := h6 e (hsub.mem he)
      omega
    · rw [msetIter_map_fst]
      exact h2
    · rw [hsplit]
      have hidm : oldi ∈ σ.insertions.map Prod.fst := List.mem_map.2 ⟨(oldi, k), hnode, rfl⟩
      have := listEraseNode_length h1 hidm
      rw [List.length_append, List.length_singleton, msetIter_length]
      omega
    · intro e he
      rcases mem_msetIter he with ⟨hek, hem⟩ | ⟨hek, hei, j, hj⟩
      · have hn := h4 e hem
        have : e.2.1 ≠ oldi := by
          intro hh
          have h' : (oldi, e.1) ∈ σ.insertions := by rw [← hh]; exact hn
          have := node_unique_of_nodup_ids h1 h' hnode rfl
          injection this with _ h2
          exact hek h2
        rw [hsplit]
        exact List.mem_append.2 (Or.inl (mem_listEraseNode.2 ⟨hn, this⟩))
      · rw [hsplit, hei, hek]
        exact List.mem_append.2 (Or.inr (by simp))
    · intro e he
      rw [hsplit] at he
      rcases List.mem_append.1 he with he | he
      · have hem := mem_listEraseNode.1 he
        obtain ⟨v', hv'⟩ := h5 e hem.1
        have hek : e.2 ≠ k := by
          intro hh
          rw [hh, hm] at hv'
          injection hv' with hv'
          injection hv' with hv1 _
          exact hem.2 hv1.symm
        exact ⟨v', by rw [mfind_msetIter_ne _ hek]; exact hv'⟩
      · simp only [List.mem_singleton] at he
        rw [he]
        exact ⟨v0, mfind_msetIter_self _ hm⟩
    · intro e he
      rw [hsplit] at he
      rcases List.mem_append.1 he with he | he
      · exact Nat.lt_succ_of_lt (h6 e ((mem_listEraseNode.1 he).1))
      · simp only [List.mem_singleton] at he
        rw [he]
        exact Nat.lt_succ_self _

theorem inv_structErase {σ : MapStruct K V} (h : Inv σ) (k : K) :
    Inv (structErase σ k) := by
  obtain ⟨h1, h2, h3, h4, h5, h6⟩ := h
  rcases hm : mfind σ.mappings k with - | ⟨oldi, v0⟩
  · simpa [structErase, hm] using ⟨h1, h2, h3, h4, h5, h6⟩
  · have hmem := mfind_mem hm
    have hnode : (oldi, k) ∈ σ.insertions := h4 (k, oldi, v0) hmem
    simp only [structErase, hm]
    refine ⟨?_, ?_, ?_, ?_, ?_, ?_⟩
    · exact h1.sublist ((listEraseNode_sublist σ.insertions oldi).map Prod.fst)
    · exact h2.sublist ((mErase_sublist σ.mappings k).map Prod.fst)
    · have hidm : oldi ∈ σ.insertions.map Prod.fst := List.mem_map.2 ⟨(oldi, k), hnode, rfl⟩
      have hkm : k ∈ σ.mappings.map Prod.fst := List.mem_map.2 ⟨(k, oldi, v0), hmem, rfl⟩
      have e1 := listEraseNode_length h1 hidm
      have e2 := mErase_length h2 hkm
      show (listEraseNode σ.insertions oldi).length = (mErase σ.mappings k).length
      omega
    · intro e he
      have hem := mem_mErase.1 he
      have hn := h4 e hem.1
      have : e.2.1 ≠ oldi := by
        intro hh
        have h' : (oldi, e.1) ∈ σ.insertions := by rw [← hh]; exact hn
        have := node_unique_of_nodup_ids h1 h' hnode rfl
        injection this with _ h2
        exact hem.2 h2
      exact mem_listEraseNode.2 ⟨hn, this⟩
    · intro e he
      have hem := mem_listEraseNode.1 he
      obtain ⟨v', hv'⟩ := h5 e hem.1
      have hek : e.2 ≠ k := by
        intro hh
        rw [hh, hm] at hv'
        injection hv' with hv'
        injection hv' with hv1 _
        exact hem.2 hv1.symm
      exact ⟨v', by rw [mfind_mErase_ne hek]; exact hv'⟩
    · intro e he
      exact h6 e ((mem_listEraseNode.1 he).1)

theorem inv_structClear (σ : MapStruct K V) : Inv (structClear σ) := by
  refine ⟨List.nodup_nil, List.nodup_nil, rfl, ?_, ?_, ?_⟩ <;> simp [structClear]

theorem inv_emptyStruct : Inv (emptyStruct : MapStruct K V) := by
  refine ⟨List.nodup_nil, List.nodup_nil, rfl, ?_, ?_, ?_⟩ <;> simp [emptyStruct]

theorem inv_bump {σ : MapStruct K V} (h : Inv σ) :
    Inv { σ with nextId := σ.nextId + 1 } := by
  obtain ⟨h1, h2, h3, h4, h5, h6⟩ := h
  exact ⟨h1, h2, h3, h4, h5, fun e he => Nat.lt_succ_of_lt (h6 e he)⟩

theorem inv_setFlag {σ : MapStruct K V} (h : Inv σ) (b : Bool) :
    Inv { σ with non_const_refs_given := b } := h

/-! The clone rebuild loop is the identity on an invariant-satisfying
structure, so cloning only resets the escape flag. -/

theorem msetIter_eq_self {m : List (K × Nat × V)} {k : K} {i : Nat} {v : V}
    (hnd : (m.map Prod.fst).Nodup) (h : mfind m k = some (i, v)) :
    msetIter m k i = m := by
  have hmem := mfind_mem h
  have : ∀ e ∈ m, (if e.1 = k then (e.1, i, e.2.2) else e) = e := by
    intro e he
    by_cases hek : e.1 = k
    · have : e = (k, i, v) := entry_unique_of_nodup_keys hnd he hmem hek
      rw [if_pos hek, this]
    · rw [if_neg hek]
  exact (List.map_congr_left this).trans (List.map_id m)

theorem rebuildIters_eq {m : List (K × Nat × V)} [Inhabited V] :
    ∀ {l : List (Nat × K)}, (m.map Prod.fst).Nodup →
      (∀ e ∈ l, ∃ v, mfind m e.2 = some (e.1, v)) →
      rebuildIters m l = m
  | [], _, _ => rfl
  | e :: rest, hnd, hall => by
    obtain ⟨v, hv⟩ := hall e (List.mem_cons_self e rest)
    have hD : msetIterD m e.2 e.1 = m := by
      rw [msetIterD, if_pos (by rw [hv]; rfl), msetIter_eq_self hnd hv]
    rw [rebuildIters, hD]
    exact rebuildIters_eq hnd (fun e' he' => hall e' (List.mem_cons_of_mem e he'))

theorem cloneStruct_eq [Inhabited V] {σ : MapStruct K V} (h : Inv σ) :
    cloneStruct σ = ⟨σ.insertions, σ.mappings, σ.nextId, false⟩ := by
  rw [cloneStruct, rebuildIters_eq h.2.1 h.2.2.2.2.1]

theorem inv_cloneStruct [Inhabited V] {σ : MapStruct K V} (h : Inv σ) :
    Inv (cloneStruct σ) := by
  rw [cloneStruct_eq h]
  exact inv_setFlag h false

theorem view_cloneStruct [Inhabited V] {σ : MapStruct K V} (h : Inv σ) :
    view (cloneStruct σ) = view σ := by
  rw [cloneStruct_eq h]
  rfl

/-! World-level primitive lemmas. -/

/-- The list of live handle ids. -/
def ids (w : World K V) : List Nat := w.handles.map Prod.fst

/-- Handle `h` is the only live handle bound to its address. -/
def Excl (w : World K V) (h : Nat) : Prop :=
  ∀ h', h' ≠ h → h' ∈ ids w → w.addrOf h' ≠ w.addrOf h

theorem hlookup_map_ne {l : List (Nat × Nat)} {h h' a : Nat} (hne : h' ≠ h) :
    hlookup (l.map (fun p => if p.1 = h then (p.1, a) else p)) h' = hlookup l h' := by
  induction l with
  | nil => rfl
  | cons p rest ih =>
    by_cases hp : p.1 = h
    · simp only [List.map_cons, if_pos hp, hlookup]
      rw [if_neg (fun hh => hne (by rw [← hh, hp])), if_neg (fun hh => hne (by rw [← hh, hp]))]
      exact ih
    · simp only [List.map_cons, if_neg hp, hlookup]
      by_cases hp' : p.1 = h'
      · rw [if_pos hp', if_pos hp']
      · rw [if_neg hp', if_neg hp']
        exact ih

theorem hlookup_map_self {l : List (Nat × Nat)} {h a : Nat} (hmem : h ∈ l.map Prod.fst) :
    hlookup (l.map (fun p => if p.1 = h then (p.1, a) else p)) h = some a := by
  induction l with
  | nil => simp at hmem
  | cons p rest ih =>
    by_cases hp : p.1 = h
    · simp [List.map_cons, if_pos hp, hlookup, hp]
    · simp only [List.map_cons, List.mem_cons] at hmem
      rcases hmem with hmem | hmem
      · exact absurd hmem.symm hp
      · simp only [List.map_cons, if_neg hp, hlookup, if_neg hp]
        exact ih hmem

theorem hlookup_mem {l : List (Nat × Nat)} {h a : Nat} (hl : hlookup l h = some a) :
    (h, a) ∈ l := by
  induction l with
  | nil => simp [hlookup] at hl
  | cons p rest ih =>
    simp only [hlookup] at hl
    split at hl
    · rename_i hp
      have : (h, a) = p := by
        injection hl with hl
        rw [← hp, ← hl]
      exact this ▸ List.mem_cons_self p rest
    · exact List.mem_cons_of_mem p (ih hl)

theorem hlookup_isSome_of_mem {l : List (Nat × Nat)} {h : Nat}
    (hmem : h ∈ l.map Prod.fst) : (hlookup l h).isSome := by
  induction l with
  | nil => simp at hmem
  | cons p rest ih =>
    simp only [List.map_cons, List.mem_cons] at hmem
    by_cases hp : p.1 = h
    · simp [hlookup, hp]
    · rcases hmem with hmem | hmem
      · exact absurd hmem.symm hp
      · simp only [hlookup, if_neg hp]
        exact ih hmem

theorem handle_binding_mem {w : World K V} {h : Nat} (hmem : h ∈ ids w) :
    (h, w.addrOf h) ∈ w.handles := by
  rcases Option.isSome_iff_exists.1 (hlookup_isSome_of_mem hmem) with ⟨a, ha⟩
  have : w.addrOf h = a := by rw [World.addrOf, ha]; rfl
  rw [this]
  exact hlookup_mem ha

theorem addrOf_lt_nextAddr {w : World K V} (hwf : WF w) {h : Nat} (hmem : h ∈ ids w) :
    w.addrOf h < w.nextAddr :=
  hwf.2 (h, w.addrOf h) (handle_binding_mem hmem)

theorem two_le_length_of_two_mem {α : Type} {l : List α} {x y : α}
    (hx : x ∈ l) (hy : y ∈ l) (hne : x ≠ y) : 2 ≤ l.length := by
  induction l with
  | nil => simp at hx
  | cons e rest ih =>
    rcases List.mem_cons.1 hx with hx1 | hx1 <;> rcases List.mem_cons.1 hy with hy1 | hy1
    · exact absurd (hx1.trans hy1.symm) hne
    · have : 1 ≤ rest.length := List.length_pos.2 (List.ne_nil_of_mem hy1)
      simp only [List.length_cons]
      omega
    · have : 1 ≤ rest.length := List.length_pos.2 (List.ne_nil_of_mem hx1)
      simp only [List.length_cons]
      omega
    · have := ih hx1 hy1
      simp only [List.length_cons]
      omega

theorem one_le_useCount {w : World K V} {h : Nat} (hmem : h ∈ ids w) :
    1 ≤ useCount w (w.addrOf h) := by
  have hb := handle_binding_mem hmem
  have : (h, w.addrOf h) ∈ w.handles.filter (fun p => p.2 == w.addrOf h) :=
    List.mem_filter.2 ⟨hb, by simp⟩
  have := List.length_pos.2 (List.ne_nil_of_mem this)
  show 1 ≤ (w.handles.filter (fun p => p.2 == w.addrOf h)).length
  omega

theorem excl_of_useCount_le_one {w : World K V} {h : Nat}
    (hmem : h ∈ ids w) (huc : useCount w (w.addrOf h) ≤ 1) : Excl w h := by
  intro h' hne hmem' heq
  have hb : (h, w.addrOf h) ∈ w.handles.filter (fun p => p.2 == w.addrOf h) :=
    List.mem_filter.2 ⟨handle_binding_mem hmem, by simp⟩
  have hb' : (h', w.addrOf h) ∈ w.handles.filter (fun p => p.2 == w.addrOf h) := by
    refine List.mem_filter.2 ⟨?_, by simp⟩
    have := handle_binding_mem hmem'
    rw [heq] at this
    exact this
  have : 2 ≤ useCount w (w.addrOf h) :=
    two_le_length_of_two_mem hb' hb (by simp [hne])
  omega

/-! `setHandle` lemmas. -/

theorem store_setHandle (w : World K V) (h a : Nat) : (setHandle w h a).store = w.store := rfl

theorem nextAddr_setHandle (w : World K V) (h a : Nat) :
    (setHandle w h a).nextAddr = w.nextAddr := rfl

theorem ids_setHandle (w : World K V) (h a : Nat) : ids (setHandle w h a) = ids w := by
  show (w.handles.map _).map Prod.fst = w.handles.map Prod.fst
  rw [List.map_map]
  apply List.map_congr_left
  intro p _
  by_cases hp : p.1 = h <;> simp [Function.comp, hp]

theorem addrOf_setHandle_ne {w : World K V} {h h' : Nat} (a : Nat) (hne : h' ≠ h) :
    (setHandle w h a).addrOf h' = w.addrOf h' := by
  show (hlookup (w.handles.map (fun p => if p.1 = h then (p.1, a) else p)) h').getD 0 = _
  rw [hlookup_map_ne hne]
  rfl

theorem addrOf_setHandle_self {w : World K V} {h : Nat} (a : Nat) (hmem : h ∈ ids w) :
    (setHandle w h a).addrOf h = a := by
  show (hlookup (w.handles.map (fun p => if p.1 = h then (p.1, a) else p)) h).getD 0 = _
  rw [hlookup_map_self hmem]
  rfl

theorem getH_setHandle_ne {w : World K V} {h h' : Nat} (a : Nat) (hne : h' ≠ h) :
    (setHandle w h a).getH h' = w.getH h' := by
  rw [World.getH, store_setHandle, addrOf_setHandle_ne a hne]
  rfl

theorem getH_setHandle_self {w : World K V} {h : Nat} (a : Nat) (hmem : h ∈ ids w) :
    (setHandle w h a).getH h = w.store a := by
  rw [World.getH, store_setHandle, addrOf_setHandle_self a hmem]

theorem wf_setHandle {w : World K V} (hwf : WF w) {h a : Nat} (ha : a < w.nextAddr) :
    WF (setHandle w h a) := by
  constructor
  · rw [show (setHandle w h a).handles.map Prod.fst = ids w from ids_setHandle w h a]
    exact hwf.1
  · intro p hp
    rcases List.mem_map.1 hp with ⟨p0, hp0, heq⟩
    by_cases hp1 : p0.1 = h
    · rw [if_pos hp1] at heq
      rw [← heq]
      exact ha
    · rw [if_neg hp1] at heq
      rw [← heq]
      exact hwf.2 p0 hp0

theorem setHandle_self_eq {w : World K V} (hwf : WF w) {h : Nat} (hmem : h ∈ ids w) :
    setHandle w h (w.addrOf h) = w := by
  have : ∀ p ∈ w.handles, (if p.1 = h then (p.1, w.addrOf h) else p) = p := by
    intro p hp
    by_cases hp1 : p.1 = h
    · rw [if_pos hp1]
      have hb := handle_binding_mem hmem
      have : p = (h, w.addrOf h) := by
        refine node_unique_of_nodup_ids hwf.1 hp hb hp1
      rw [this]
    · rw [if_neg hp1]
  show { w with handles := _ } = w
  rw [(List.map_congr_left this).trans (List.map_id w.handles)]

/-! `setStoreAt` / `setStructOfHandle` / `allocA` / `addHandle` lemmas. -/

theorem addrOf_setStoreAt (w : World K V) (a : Nat) (σ : MapStruct K V) (h : Nat) :
    (setStoreAt w a σ).addrOf h = w.addrOf h := rfl

theorem ids_setStoreAt (w : World K V) (a : Nat) (σ : MapStruct K V) :
    ids (setStoreAt w a σ) = ids w := rfl

theorem nextAddr_setStoreAt (w : World K V) (a : Nat) (σ : MapStruct K V) :
    (setStoreAt w a σ).nextAddr = w.nextAddr := rfl

theorem store_setStoreAt_ne {w : World K V} {a a' : Nat} (σ : MapStruct K V)
    (hne : a' ≠ a) : (setStoreAt w a σ).store a' = w.store a' := by
  show Function.update w.store a σ a' = w.store a'
  exact Function.update_noteq hne σ w.store

theorem store_setStoreAt_self (w : World K V) (a : Nat) (σ : MapStruct K V) :
    (setStoreAt w a σ).store a = σ := by
  show Function.update w.store a σ a = σ
  exact Function.update_same a σ w.store

theorem wf_setStoreAt {w : World K V} (hwf : WF w) (a : Nat) (σ : MapStruct K V) :
    WF (setStoreAt w a σ) := hwf

theorem getH_setStructOfHandle_self (w : World K V) (h : Nat) (σ : MapStruct K V) :
    (setStructOfHandle w h σ).getH h = σ := by
  rw [setStructOfHandle, World.getH, addrOf_setStoreAt]
  exact store_setStoreAt_self w _ σ

theorem getH_setStructOfHandle_ne {w : World K V} {h h' : Nat} (σ : MapStruct K V)
    (hne : w.addrOf h' ≠ w.addrOf h) : (setStructOfHandle w h σ).getH h' = w.getH h' := by
  rw [setStructOfHandle, World.getH, addrOf_setStoreAt]
  exact store_setStoreAt_ne σ hne

theorem excl_setStructOfHandle {w : World K V} {h : Nat} (σ : MapStruct K V)
    (he : Excl w h) : Excl (setStructOfHandle w h σ) h := he

theorem addrOf_allocA (w : World K V) (σ : MapStruct K V) (h : Nat) :
    (allocA w σ).2.addrOf h = w.addrOf h := rfl

theorem ids_allocA (w : World K V) (σ : MapStruct K V) : ids (allocA w σ).2 = ids w := rfl

theorem store_allocA_ne {w : World K V} {a : Nat} (σ : MapStruct K V)
    (hne : a ≠ w.nextAddr) : (allocA w σ).2.store a = w.store a := by
  show Function.update w.store w.nextAddr σ a = w.store a
  exact Function.update_noteq hne σ w.store

theorem store_allocA_self (w : World K V) (σ : MapStruct K V) :
    (allocA w σ).2.store w.nextAddr = σ := by
  show Function.update w.store w.nextAddr σ w.nextAddr = σ
  exact Function.update_same w.nextAddr σ w.store

theorem wf_allocA {w : World K V} (hwf : WF w) (σ : MapStruct K V) :
    WF (allocA w σ).2 := by
  refine ⟨hwf.1, fun p hp => Nat.lt_succ_of_lt (hwf.2 p hp)⟩

/-! Exclusivity and `copy_on_write` specification. -/

theorem addrOf_eq_of_mem {w : World K V} (hwf : WF w) {h a : Nat}
    (hmem : (h, a) ∈ w.handles) : w.addrOf h = a := by
  have h1 : h ∈ ids w := List.mem_map.2 ⟨(h, a), hmem, rfl⟩
  have hb := handle_binding_mem h1
  have := node_unique_of_nodup_ids hwf.1 hb hmem rfl
  exact congrArg Prod.snd this

theorem useCount_le_one_of_excl {w : World K V} {h : Nat} (hwf : WF w)
    (hmem : h ∈ ids w) (hex : Excl w h) : useCount w (w.addrOf h) ≤ 1 := by
  by_contra huc
  push_neg at huc
  have huc2 : 1 < (w.handles.filter (fun p => p.2 == w.addrOf h)).length := huc
  rcases hf : w.handles.filter (fun p => p.2 == w.addrOf h) with - | ⟨p1, l1⟩
  · rw [hf] at huc2
    simp at huc2
  rcases hl1 : l1 with - | ⟨p2, l2⟩
  · rw [hf, hl1] at huc2
    simp at huc2
  have hnodup : (w.handles.filter (fun p => p.2 == w.addrOf h)).Nodup :=
    (hwf.1.of_map).filter _
  rw [hf, hl1] at hnodup
  have hp1f : p1 ∈ w.handles.filter (fun p => p.2 == w.addrOf h) := by rw [hf]; simp
  have hp2f : p2 ∈ w.handles.filter (fun p => p.2 == w.addrOf h) := by
    rw [hf, hl1]
    simp
  have hp1 := List.mem_filter.1 hp1f
  have hp2 := List.mem_filter.1 hp2f
  have hp1a : p1.2 = w.addrOf h := by simpa using hp1.2
  have hp2a : p2.2 = w.addrOf h := by simpa using hp2.2
  have hp12 : p1 ≠ p2 := by
    simp only [List.nodup_cons, List.mem_cons] at hnodup
    exact fun hh => hnodup.1 (Or.inl hh)
  have hfst : p1.1 ≠ p2.1 := by
    intro hh
    exact hp12 (node_unique_of_nodup_ids hwf.1 hp1.1 hp2.1 hh)
  have haddr1 : w.addrOf p1.1 = w.addrOf h := by
    rw [addrOf_eq_of_mem hwf (show (p1.1, p1.2) ∈ w.handles from hp1.1)]
    exact hp1a
  have haddr2 : w.addrOf p2.1 = w.addrOf h := by
    rw [addrOf_eq_of_mem hwf (show (p2.1, p2.2) ∈ w.handles from hp2.1)]
    exact hp2a
  by_cases h1 : p1.1 = h
  · exact hex p2.1 (fun hh => hfst (h1.trans hh.symm))
      (List.mem_map.2 ⟨p2, hp2.1, rfl⟩) haddr2
  · exact hex p1.1 h1 (List.mem_map.2 ⟨p1, hp1.1, rfl⟩) haddr1

theorem cowOp_excl [Inhabited V] (g : Oracle) (w : World K V) (h t : Nat)
    (hwf : WF w) (hmem : h ∈ ids w) (hex : Excl w h) :
    cowOp g w h t = (.ok (w.addrOf h), w, t) := by
  have := useCount_le_one_of_excl hwf hmem hex
  rw [cowOp, if_neg (by omega)]

theorem cowOp_err_fail [Inhabited V] {g : Oracle} {w : World K V} {h t : Nat} {e : Err}
    (he : (cowOp g w h t).1 = .error e) : e = .fail := by
  rw [cowOp] at he
  split at he
  · split at he
    · injection he with he
      exact he.symm
    · simp at he
  · simp at he

theorem setStructOfHandle_idem (w : World K V) (h : Nat) (σ1 σ2 : MapStruct K V) :
    setStructOfHandle (setStructOfHandle w h σ1) h σ2 = setStructOfHandle w h σ2 := by
  show (⟨Function.update (Function.update w.store (w.addrOf h) σ1) (w.addrOf h) σ2,
         w.nextAddr, w.handles⟩ : World K V) =
       ⟨Function.update w.store (w.addrOf h) σ2, w.nextAddr, w.handles⟩
  rw [Function.update_idem]

theorem wf_setStructOfHandle {w : World K V} (hwf : WF w) (h : Nat) (σ : MapStruct K V) :
    WF (setStructOfHandle w h σ) := hwf

theorem addrOf_setStructOfHandle (w : World K V) (h : Nat) (σ : MapStruct K V) (h' : Nat) :
    (setStructOfHandle w h σ).addrOf h' = w.addrOf h' := rfl

theorem ids_setStructOfHandle (w : World K V) (h : Nat) (σ : MapStruct K V) :
    ids (setStructOfHandle w h σ) = ids w := rfl

theorem store_setStructOfHandle_ne {w : World K V} {h : Nat} (σ : MapStruct K V)
    {a : Nat} (hne : a ≠ w.addrOf h) : (setStructOfHandle w h σ).store a = w.store a :=
  store_setStoreAt_ne σ hne

theorem nextAddr_setStructOfHandle (w : World K V) (h : Nat) (σ : MapStruct K V) :
    (setStructOfHandle w h σ).nextAddr = w.nextAddr := rfl

/-- Full specification of `copy_on_write` at the world level. -/
theorem cowOp_spec [Inhabited V] (g : Oracle) (w : World K V) (h t : Nat)
    (hwf : WF w) (hmem : h ∈ ids w) :
    (∀ e, (cowOp g w h t).1 = .error e → (cowOp g w h t).2.1 = w) ∧
    (∀ oldA, (cowOp g w h t).1 = .ok oldA →
      oldA = w.addrOf h ∧
      WF (cowOp g w h t).2.1 ∧
      ids (cowOp g w h t).2.1 = ids w ∧
      w.nextAddr ≤ (cowOp g w h t).2.1.nextAddr ∧
      (∀ h', h' ≠ h → (cowOp g w h t).2.1.addrOf h' = w.addrOf h') ∧
      (∀ a, a ≠ (cowOp g w h t).2.1.addrOf h → (cowOp g w h t).2.1.store a = w.store a) ∧
      (cowOp g w h t).2.1.store (w.addrOf h) = w.store (w.addrOf h) ∧
      (cowOp g w h t).2.1.addrOf h < (cowOp g w h t).2.1.nextAddr ∧
      Excl (cowOp g w h t).2.1 h ∧
      ((cowOp g w h t).2.1 = w ∨
        ((cowOp g w h t).2.1.addrOf h ≠ w.addrOf h ∧
         (cowOp g w h t).2.1.getH h = cloneStruct (w.getH h))) ∧
      ((∀ a, Inv (w.store a)) → ∀ a', Inv ((cowOp g w h t).2.1.store a')) ∧
      (∀ h', h' ≠ h → h' ∈ ids w → (cowOp g w h t).2.1.getH h' = w.getH h')) := by
  by_cases huc : 2 ≤ useCount w (w.addrOf h)
  · by_cases hg : g t
    · rw [cowOp, if_pos huc, if_pos hg]
      exact ⟨fun e _ => rfl, fun oldA hok => by simp at hok⟩
    · rw [cowOp, if_pos huc, if_neg hg]
      dsimp only
      simp only [show (allocA w (cloneStruct (w.store (w.addrOf h)))).1 = w.nextAddr from rfl]
      constructor
      · intro e he
        simp at he
      intro oldA hok
      have hoa : oldA = w.addrOf h := by
        injection hok with hok
        exact hok.symm
      have hids1 : ids (allocA w (cloneStruct (w.store (w.addrOf h)))).2 = ids w := rfl
      have hmem1 : h ∈ ids (allocA w (cloneStruct (w.store (w.addrOf h)))).2 := hmem
      have hwf1 : WF (allocA w (cloneStruct (w.store (w.addrOf h)))).2 :=
        wf_allocA hwf _
      have haddr : (setHandle (allocA w (cloneStruct (w.store (w.addrOf h)))).2 h
          w.nextAddr).addrOf h = w.nextAddr := addrOf_setHandle_self w.nextAddr hmem1
      refine ⟨hoa, ?_, ?_, ?_, ?_, ?_, ?_, ?_, ?_, ?_, ?_, ?_⟩
      · exact wf_setHandle hwf1 (Nat.lt_succ_self _)
      · rw [ids_setHandle]
        exact hids1
      · exact Nat.le_succ _
      · intro h' hne
        rw [addrOf_setHandle_ne _ hne]
        rfl
      · intro a ha
        rw [haddr] at ha
        rw [store_setHandle]
        exact store_allocA_ne _ ha
      · rw [store_setHandle]
        refine store_allocA_ne _ ?_
        have := addrOf_lt_nextAddr hwf hmem
        omega
      · rw [haddr]
        show w.nextAddr < w.nextAddr + 1
        exact Nat.lt_succ_self _
      · intro h' hne hmem' heq
        rw [haddr] at heq
        rw [ids_setHandle, hids1] at hmem'
        rw [addrOf_setHandle_ne _ hne] at heq
        have : w.addrOf h' < w.nextAddr := addrOf_lt_nextAddr hwf hmem'
        rw [show (allocA w (cloneStruct (w.store (w.addrOf h)))).2.addrOf h' = w.addrOf h'
              from rfl] at heq
        omega
      · right
        constructor
        · rw [haddr]
          have := addrOf_lt_nextAddr hwf hmem
          omega
        · rw [World.getH, haddr, store_setHandle]
          exact store_allocA_self w _
      · intro hinv a'
        rw [store_setHandle]
        by_cases ha' : a' = w.nextAddr
        · rw [ha', store_allocA_self]
          exact inv_cloneStruct (hinv _)
        · rw [store_allocA_ne _ ha']
          exact hinv a'
      · intro h' hne hm'
        rw [World.getH, World.getH, addrOf_setHandle_ne _ hne]
        rw [show (allocA w (cloneStruct (w.store (w.addrOf h)))).2.addrOf h' = w.addrOf h'
              from rfl]
        rw [store_setHandle]
        refine store_allocA_ne _ ?_
        have := addrOf_lt_nextAddr hwf hm'
        omega
  · rw [cowOp, if_neg huc]
    dsimp only
    constructor
    · intro e he
      simp at he
    intro oldA hok
    have hoa : oldA = w.addrOf h := by
      injection hok with hok
      exact hok.symm
    refine ⟨hoa, hwf, rfl, le_refl _, fun h' _ => rfl, fun a _ => rfl, rfl,
            addrOf_lt_nextAddr hwf hmem, ?_, Or.inl rfl, fun hinv a' => hinv a',
            fun h' _ _ => rfl⟩
    exact excl_of_useCount_le_one hmem (by omega)

/-! Specification of `insert` / `private_insert` at the world level. -/

theorem view_bump (σ : MapStruct K V) (n : Nat) :
    view { σ with nextId := n } = view σ := rfl

theorem structInsert_flagReset (σ : MapStruct K V) (b : Bool) (k : K) (v : V) :
    structInsert { σ with non_const_refs_given := b } k v = structInsert σ k v := by
  rcases hm : mfind σ.mappings k with - | ⟨i, v0⟩ <;>
    simp [structInsert, hm]

theorem structInsert_flag (σ : MapStruct K V) (k : K) (v : V) :
    (structInsert σ k v).2.non_const_refs_given = false := by
  rcases hm : mfind σ.mappings k with - | ⟨i, v0⟩ <;>
    simp [structInsert, hm]

theorem insertOp_spec [Inhabited V] (g : Oracle) (w : World K V) (h : Nat) (k : K) (v : V)
    (t : Nat) (hwf : WF w) (hmem : h ∈ ids w) :
    WF (insertOp g w h k v t).2.1 ∧
    ids (insertOp g w h k v t).2.1 = ids w ∧
    w.nextAddr ≤ (insertOp g w h k v t).2.1.nextAddr ∧
    (∀ h', h' ≠ h → h' ∈ ids w →
      (insertOp g w h k v t).2.1.addrOf h' = w.addrOf h' ∧
      (insertOp g w h k v t).2.1.getH h' = w.getH h') ∧
    ((∀ a, Inv (w.store a)) → ∀ a, Inv ((insertOp g w h k v t).2.1.store a)) ∧
    (∀ e, (insertOp g w h k v t).1 = .error e →
      view ((insertOp g w h k v t).2.1.getH h) = view (w.getH h)) ∧
    (∀ b, (insertOp g w h k v t).1 = .ok b →
      Excl (insertOp g w h k v t).2.1 h ∧
      (insertOp g w h k v t).2.1.addrOf h < (insertOp g w h k v t).2.1.nextAddr ∧
      h ∈ ids (insertOp g w h k v t).2.1 ∧
      (Inv (w.getH h) →
        b = (structInsert (w.getH h) k v).1 ∧
        (insertOp g w h k v t).2.1.getH h = (structInsert (w.getH h) k v).2)) := by
  have hs := cowOp_spec g w h t hwf hmem
  rcases hc : cowOp g w h t with ⟨cr, w1, t1⟩
  rw [hc] at hs
  dsimp only at hs
  rcases cr with e0 | oldA
  · have hw1 : w1 = w := hs.1 e0 rfl
    rw [show insertOp g w h k v t = (.error e0, w1, t1) by
          rw [insertOp, privateInsertOp, hc], hw1]
    exact ⟨hwf, rfl, le_refl _, fun h' _ _ => ⟨rfl, rfl⟩, fun hi a => hi a,
           fun e _ => rfl, fun b hb => by simp at hb⟩
  obtain ⟨hoa, hwf1, hids1, hna1, haddr1, hstne, hstold, hlt1, hexcl1, hdich, hinv1, hoth1⟩ :=
    hs.2 oldA rfl
  subst hoa
  have hmem1 : h ∈ ids w1 := hids1 ▸ hmem
  have holdlt : w.addrOf h < w1.nextAddr := lt_of_lt_of_le (addrOf_lt_nextAddr hwf hmem) hna1
  have hothers : ∀ h', h' ≠ h → h' ∈ ids w →
      w1.addrOf h' = w.addrOf h' ∧ w1.getH h' = w.getH h' :=
    fun h' hne hm' => ⟨haddr1 h' hne, hoth1 h' hne hm'⟩
  have hw1get : w1.getH h = w1.store (w1.addrOf h) := rfl
  by_cases hg1 : g t1
  · rw [show insertOp g w h k v t = (.error .fail, setHandle w1 h (w.addrOf h), t1 + 1) by
          rw [insertOp, privateInsertOp, hc]
          dsimp only
          rw [if_pos hg1]]
    refine ⟨wf_setHandle hwf1 holdlt, by rw [ids_setHandle]; exact hids1,
            le_trans hna1 (le_of_eq (nextAddr_setHandle w1 h _).symm), ?_, ?_, ?_, ?_⟩
    · intro h' hne hm'
      rw [addrOf_setHandle_ne _ hne, getH_setHandle_ne _ hne]
      exact hothers h' hne hm'
    · intro hi a
      rw [store_setHandle]
      exact hinv1 hi a
    · intro e _
      rw [getH_setHandle_self _ hmem1, hstold]
      rfl
    · intro b hb
      simp at hb
  by_cases hg2 : g (t1 + 1)
  · rw [show insertOp g w h k v t =
          (.error .fail,
           setHandle (setStructOfHandle w1 h { w1.getH h with nextId := (w1.getH h).nextId + 1 })
             h (w.addrOf h), t1 + 2) by
          rw [insertOp, privateInsertOp, hc]
          dsimp only
          rw [if_neg hg1, if_pos hg2]]
    have hmem2 : h ∈ ids (setStructOfHandle w1 h { w1.getH h with nextId := (w1.getH h).nextId + 1 }) :=
      hmem1
    refine ⟨wf_setHandle (wf_setStructOfHandle hwf1 _ _) holdlt,
            by rw [ids_setHandle, ids_setStructOfHandle]; exact hids1,
            le_trans hna1 (le_refl _), ?_, ?_, ?_, ?_⟩
    · intro h' hne hm'
      rw [addrOf_setHandle_ne _ hne, getH_setHandle_ne _ hne, addrOf_setStructOfHandle]
      constructor
      · exact (hothers h' hne hm').1
      · rw [getH_setStructOfHandle_ne _ ?hne2]
        · exact (hothers h' hne hm').2
        case hne2 =>
          have := hexcl1 h' hne (hids1 ▸ hm')
          exact this
    · intro hi a
      rw [store_setHandle]
      by_cases ha : a = w1.addrOf h
      · rw [ha, setStructOfHandle, store_setStoreAt_self]
        exact inv_bump (hinv1 hi _)
      · rw [store_setStructOfHandle_ne _ ha]
        exact hinv1 hi a
    · intro e _
      rw [getH_setHandle_self _ hmem2]
      rcases hdich with hdd | hdd
      · subst hdd
        rw [setStructOfHandle, store_setStoreAt_self]
        exact view_bump _ _
      · rw [store_setStructOfHandle_ne _ (fun hh => hdd.1 hh.symm), hstold]
        rfl
    · intro b hb
      simp at hb
  rw [show insertOp g w h k v t =
        (.ok (structInsert (w1.getH h) k v).1,
         setStructOfHandle w1 h (structInsert (w1.getH h) k v).2, t1 + 2) by
        rw [insertOp, privateInsertOp, hc]
        dsimp only
        rw [if_neg hg1, if_neg hg2]]
  refine ⟨wf_setStructOfHandle hwf1 _ _,
          by rw [ids_setStructOfHandle]; exact hids1, hna1, ?_, ?_, ?_, ?_⟩
  · intro h' hne hm'
    rw [addrOf_setStructOfHandle]
    refine ⟨(hothers h' hne hm').1, ?_⟩
    rw [getH_setStructOfHandle_ne _ (hexcl1 h' hne (hids1 ▸ hm'))]
    exact (hothers h' hne hm').2
  · intro hi a
    by_cases ha : a = w1.addrOf h
    · rw [ha, setStructOfHandle, store_setStoreAt_self]
      exact inv_structInsert (hinv1 hi _) k v
    · rw [store_setStructOfHandle_ne _ ha]
      exact hinv1 hi a
  · intro e he
    simp at he
  · intro b hb
    have hb2 : b = (structInsert (w1.getH h) k v).1 := by
      injection hb with hb
      exact hb.symm
    refine ⟨excl_setStructOfHandle _ hexcl1, ?_, hmem1, ?_⟩
    · rw [addrOf_setStructOfHandle]
      exact hlt1
    · intro hinvh
      have hsame : structInsert (w1.getH h) k v = structInsert (w.getH h) k v := by
        rcases hdich with hdd | hdd
        · rw [hdd]
        · rw [hdd.2, cloneStruct_eq hinvh]
          exact structInsert_flagReset (w.getH h) false k v
      exact ⟨by rw [hb2, hsame], by rw [getH_setStructOfHandle_self, hsame]⟩

/-! Specifications of the remaining operations. -/

theorem containsOp_world (g : Oracle) (w : World K V) (h : Nat) (k : K) (t : Nat) :
    (containsOp g w h k t).2.1 = w := by
  rw [containsOp]
  split <;> rfl

theorem containsOp_ok {g : Oracle} {w : World K V} {h : Nat} {k : K} {t : Nat} {b : Bool}
    (hb : (containsOp g w h k t).1 = .ok b) : b = containsS (w.getH h) k := by
  rw [containsOp] at hb
  split at hb
  · simp at hb
  · injection hb with hb
    exact hb.symm

theorem containsOp_err {g : Oracle} {w : World K V} {h : Nat} {k : K} {t : Nat} {e : Err}
    (he : (containsOp g w h k t).1 = .error e) : e = .fail := by
  rw [containsOp] at he
  split at he
  · injection he with he
    exact he.symm
  · simp at he

theorem containsOp_g0 (w : World K V) (h : Nat) (k : K) (t : Nat) :
    containsOp g0 w h k t = (.ok (containsS (w.getH h) k), w, t + 1) := rfl

theorem atConstOp_world [Inhabited V] (g : Oracle) (w : World K V) (h : Nat) (k : K)
    (t : Nat) : (atConstOp g w h k t).2.1 = w := by
  have hcw := containsOp_world g w h k t
  rcases hcc : containsOp g w h k t with ⟨cr0, w0, t0⟩
  rw [hcc] at hcw
  rw [atConstOp, hcc]
  rcases cr0 with e0 | b
  · exact hcw
  · dsimp only
    by_cases hb : b = false
    · rw [if_pos hb]
      exact hcw
    · rw [if_neg hb]
      split <;> exact hcw

theorem atConstOp_lookup [Inhabited V] {g : Oracle} {w : World K V} {h : Nat} {k : K}
    {t : Nat} (he : (atConstOp g w h k t).1 = .error .lookup) :
    containsS (w.getH h) k = false := by
  rcases hcc : containsOp g w h k t with ⟨cr0, w0, t0⟩
  rw [atConstOp, hcc] at he
  rcases cr0 with e0 | b
  · dsimp only at he
    injection he with he
    have := containsOp_err (by rw [hcc] : (containsOp g w h k t).1 = .error e0)
    rw [he] at this
    exact absurd this (by simp)
  · dsimp only at he
    have hb := containsOp_ok (by rw [hcc] : (containsOp g w h k t).1 = .ok b)
    by_cases hbf : b = false
    · rw [← hb, hbf]
    · rw [if_neg hbf] at he
      split at he
      · injection he with he
        exact absurd he.symm (by simp)
      · simp at he

theorem atConstOp_g0 [Inhabited V] {w : World K V} {h : Nat} {k : K} (t : Nat)
    (hcon : containsS (w.getH h) k = true) :
    atConstOp g0 w h k t = (.ok ((valueAt (w.getH h) k).getD default), w, t + 2) := by
  rw [atConstOp, containsOp_g0]
  dsimp only
  rw [hcon]
  rfl

theorem atConstOp_g0_absent [Inhabited V] {w : World K V} {h : Nat} {k : K} (t : Nat)
    (hcon : containsS (w.getH h) k = false) :
    atConstOp g0 w h k t = (.error .lookup, w, t + 1) := by
  rw [atConstOp, containsOp_g0]
  dsimp only
  rw [hcon]
  rfl

theorem structErase_flagReset {σ : MapStruct K V} {k : K} {p : Nat × V} (b : Bool)
    (hm : mfind σ.mappings k = some p) :
    structErase { σ with non_const_refs_given := b } k = structErase σ k := by
  rcases p with ⟨i, v0⟩
  simp [structErase, hm]

theorem eraseOp_spec [Inhabited V] (g : Oracle) (w : World K V) (h : Nat) (k : K)
    (t : Nat) (hwf : WF w) (hmem : h ∈ ids w) :
    WF (eraseOp g w h k t).2.1 ∧
    ids (eraseOp g w h k t).2.1 = ids w ∧
    w.nextAddr ≤ (eraseOp g w h k t).2.1.nextAddr ∧
    (∀ h', h' ≠ h → h' ∈ ids w →
      (eraseOp g w h k t).2.1.addrOf h' = w.addrOf h' ∧
      (eraseOp g w h k t).2.1.getH h' = w.getH h') ∧
    ((∀ a, Inv (w.store a)) → ∀ a, Inv ((eraseOp g w h k t).2.1.store a)) ∧
    (∀ e, (eraseOp g w h k t).1 = .error e →
      (eraseOp g w h k t).2.1.getH h = w.getH h) ∧
    ((eraseOp g w h k t).1 = .error .lookup →
      containsS (w.getH h) k = false ∧ (eraseOp g w h k t).2.1 = w) ∧
    ((eraseOp g w h k t).1 = .ok () →
      containsS (w.getH h) k = true ∧
      Excl (eraseOp g w h k t).2.1 h ∧
      h ∈ ids (eraseOp g w h k t).2.1 ∧
      (eraseOp g w h k t).2.1.addrOf h < (eraseOp g w h k t).2.1.nextAddr ∧
      (Inv (w.getH h) →
        (eraseOp g w h k t).2.1.getH h = structErase (w.getH h) k)) := by
  have hcw := containsOp_world g w h k t
  rcases hcc : containsOp g w h k t with ⟨cr0, w0, t0⟩
  rw [hcc] at hcw
  have hw0 : w0 = w := hcw
  rcases cr0 with e0 | b
  · rw [show eraseOp g w h k t = (.error e0, w0, t0) by rw [eraseOp, hcc], hw0]
    have hfl : e0 = Err.fail :=
      containsOp_err (by rw [hcc] : (containsOp g w h k t).1 = .error e0)
    refine ⟨hwf, rfl, le_refl _, fun h' _ _ => ⟨rfl, rfl⟩, fun hi a => hi a,
            fun e _ => rfl, ?_, fun hb => by simp at hb⟩
    intro hl
    injection hl with hl
    rw [hfl] at hl
    exact absurd hl (by simp)
  have hb := containsOp_ok (by rw [hcc] : (containsOp g w h k t).1 = .ok b)
  by_cases hbf : b = false
  · rw [show eraseOp g w h k t = (.error .lookup, w0, t0) by
          rw [eraseOp, hcc]
          dsimp only
          rw [if_pos hbf], hw0]
    refine ⟨hwf, rfl, le_refl _, fun h' _ _ => ⟨rfl, rfl⟩, fun hi a => hi a,
            fun e _ => rfl, fun _ => ⟨by rw [← hb, hbf], rfl⟩, fun hk => by simp at hk⟩
  have hbt : b = true := by
    rcases b with - | - <;> simp_all
  have hcon : containsS (w.getH h) k = true := by rw [← hb, hbt]
  have hs := cowOp_spec g w h t0 hwf hmem
  rcases hc : cowOp g w h t0 with ⟨cr, w1, t1⟩
  rw [hc] at hs
  dsimp only at hs
  rcases cr with e1 | oldA
  · have hw1 : w1 = w := hs.1 e1 rfl
    rw [show eraseOp g w h k t = (.error e1, w1, t1) by
          rw [eraseOp, hcc]
          dsimp only
          rw [if_neg hbf, hw0, hc], hw1]
    refine ⟨hwf, rfl, le_refl _, fun h' _ _ => ⟨rfl, rfl⟩, fun hi a => hi a,
            fun e _ => rfl, ?_, fun hk => by simp at hk⟩
    intro hl
    injection hl with hl
    have hef : e1 = Err.fail := cowOp_err_fail (by rw [hc] : (cowOp g w h t0).1 = .error e1)
    rw [hef] at hl
    exact absurd hl (by simp)
  obtain ⟨hoa, hwf1, hids1, hna1, haddr1, hstne, hstold, hlt1, hexcl1, hdich, hinv1, hoth1⟩ :=
    hs.2 oldA rfl
  subst hoa
  have hmem1 : h ∈ ids w1 := hids1 ▸ hmem
  have holdlt : w.addrOf h < w1.nextAddr := lt_of_lt_of_le (addrOf_lt_nextAddr hwf hmem) hna1
  have hothers : ∀ h', h' ≠ h → h' ∈ ids w →
      w1.addrOf h' = w.addrOf h' ∧ w1.getH h' = w.getH h' :=
    fun h' hne hm' => ⟨haddr1 h' hne, hoth1 h' hne hm'⟩
  by_cases hg1 : g t1
  · rw [show eraseOp g w h k t = (.error .fail, setHandle w1 h (w.addrOf h), t1 + 1) by
          rw [eraseOp, hcc]
          dsimp only
          rw [if_neg hbf, hw0, hc]
          dsimp only
          rw [if_pos hg1]]
    refine ⟨wf_setHandle hwf1 holdlt, by rw [ids_setHandle]; exact hids1,
            le_trans hna1 (le_of_eq rfl), ?_, ?_, ?_, ?_, ?_⟩
    · intro h' hne hm'
      rw [addrOf_setHandle_ne _ hne, getH_setHandle_ne _ hne]
      exact hothers h' hne hm'
    · intro hi a
      rw [store_setHandle]
      exact hinv1 hi a
    · intro e _
      rw [getH_setHandle_self _ hmem1, hstold]
      rfl
    · intro hl
      injection hl with hl
      exact absurd hl (by simp)
    · intro hk
      simp at hk
  rw [show eraseOp g w h k t =
        (.ok (), setStructOfHandle w1 h (structErase (w1.getH h) k), t1 + 1) by
        rw [eraseOp, hcc]
        dsimp only
        rw [if_neg hbf, hw0, hc]
        dsimp only
        rw [if_neg hg1]]
  refine ⟨wf_setStructOfHandle hwf1 _ _, by rw [ids_setStructOfHandle]; exact hids1,
          hna1, ?_, ?_, ?_, ?_, ?_⟩
  · intro h' hne hm'
    rw [addrOf_setStructOfHandle]
    refine ⟨(hothers h' hne hm').1, ?_⟩
    rw [getH_setStructOfHandle_ne _ (hexcl1 h' hne (hids1 ▸ hm'))]
    exact (hothers h' hne hm').2
  · intro hi a
    by_cases ha : a = w1.addrOf h
    · rw [ha, setStructOfHandle, store_setStoreAt_self]
      exact inv_structErase (hinv1 hi _) k
    · rw [store_setStructOfHandle_ne _ ha]
      exact hinv1 hi a
  · intro e he
    simp at he
  · intro hl
    simp at hl
  · intro _
    refine ⟨hcon, excl_setStructOfHandle _ hexcl1, hmem1, ?_, ?_⟩
    · rw [addrOf_setStructOfHandle]
      exact hlt1
    · intro hinvh
      rw [getH_setStructOfHandle_self]
      rcases hdich with hdd | hdd
      · rw [hdd]
      · have hcon2 : (mfind (w.getH h).mappings k).isSome = true := hcon
        rcases Option.isSome_iff_exists.1 hcon2 with ⟨p, hp⟩
        rw [hdd.2, cloneStruct_eq hinvh]
        exact structErase_flagReset false hp

theorem view_flag (σ : MapStruct K V) (b : Bool) :
    view { σ with non_const_refs_given := b } = view σ := rfl

theorem atMutOp_spec [Inhabited V] (g : Oracle) (w : World K V) (h : Nat) (k : K)
    (t : Nat) (hwf : WF w) (hmem : h ∈ ids w) :
    WF (atMutOp g w h k t).2.1 ∧
    ids (atMutOp g w h k t).2.1 = ids w ∧
    w.nextAddr ≤ (atMutOp g w h k t).2.1.nextAddr ∧
    (∀ h', h' ≠ h → h' ∈ ids w →
      (atMutOp g w h k t).2.1.addrOf h' = w.addrOf h' ∧
      (atMutOp g w h k t).2.1.getH h' = w.getH h') ∧
    ((∀ a, Inv (w.store a)) → ∀ a, Inv ((atMutOp g w h k t).2.1.store a)) ∧
    (∀ e, (atMutOp g w h k t).1 = .error e →
      view ((atMutOp g w h k t).2.1.getH h) = view (w.getH h)) ∧
    ((atMutOp g w h k t).1 = .error .lookup →
      containsS (w.getH h) k = false ∧ (atMutOp g w h k t).2.1 = w) ∧
    (∀ v', (atMutOp g w h k t).1 = .ok v' →
      containsS (w.getH h) k = true ∧
      Excl (atMutOp g w h k t).2.1 h ∧
      h ∈ ids (atMutOp g w h k t).2.1 ∧
      (atMutOp g w h k t).2.1.addrOf h < (atMutOp g w h k t).2.1.nextAddr ∧
      (Inv (w.getH h) →
        (atMutOp g w h k t).2.1.getH h =
          { w.getH h with non_const_refs_given := true } ∧
        v' = (valueAt (w.getH h) k).getD default)) := by
  have hcw := containsOp_world g w h k t
  rcases hcc : containsOp g w h k t with ⟨cr0, w0, t0⟩
  rw [hcc] at hcw
  have hw0 : w0 = w := hcw
  rcases cr0 with e0 | b
  · rw [show atMutOp g w h k t = (.error e0, w0, t0) by rw [atMutOp, hcc], hw0]
    have hfl : e0 = Err.fail :=
      containsOp_err (by rw [hcc] : (containsOp g w h k t).1 = .error e0)
    refine ⟨hwf, rfl, le_refl _, fun h' _ _ => ⟨rfl, rfl⟩, fun hi a => hi a,
            fun e _ => rfl, ?_, fun v' hv => by simp at hv⟩
    intro hl
    injection hl with hl
    rw [hfl] at hl
    exact absurd hl (by simp)
  have hb := containsOp_ok (by rw [hcc] : (containsOp g w h k t).1 = .ok b)
  by_cases hbf : b = false
  · rw [show atMutOp g w h k t = (.error .lookup, w0, t0) by
          rw [atMutOp, hcc]
          dsimp only
          rw [if_pos hbf], hw0]
    refine ⟨hwf, rfl, le_refl _, fun h' _ _ => ⟨rfl, rfl⟩, fun hi a => hi a,
            fun e _ => rfl, fun _ => ⟨by rw [← hb, hbf], rfl⟩, fun v' hv => by simp at hv⟩
  have hbt : b = true := by
    rcases b with - | - <;> simp_all
  have hcon : containsS (w.getH h) k = true := by rw [← hb, hbt]
  have hs := cowOp_spec g w h t0 hwf hmem
  rcases hc : cowOp g w h t0 with ⟨cr, w1, t1⟩
  rw [hc] at hs
  dsimp only at hs
  rcases cr with e1 | oldA
  · have hw1 : w1 = w := hs.1 e1 rfl
    rw [show atMutOp g w h k t = (.error e1, w1, t1) by
          rw [atMutOp, hcc]
          dsimp only
          rw [if_neg hbf, hw0, hc], hw1]
    refine ⟨hwf, rfl, le_refl _, fun h' _ _ => ⟨rfl, rfl⟩, fun hi a => hi a,
            fun e _ => rfl, ?_, fun v' hv => by simp at hv⟩
    intro hl
    injection hl with hl
    have hef : e1 = Err.fail := cowOp_err_fail (by rw [hc] : (cowOp g w h t0).1 = .error e1)
    rw [hef] at hl
    exact absurd hl (by simp)
  obtain ⟨hoa, hwf1, hids1, hna1, haddr1, hstne, hstold, hlt1, hexcl1, hdich, hinv1, hoth1⟩ :=
    hs.2 oldA rfl
  subst hoa
  have hmem1 : h ∈ ids w1 := hids1 ▸ hmem
  have holdlt : w.addrOf h < w1.nextAddr := lt_of_lt_of_le (addrOf_lt_nextAddr hwf hmem) hna1
  have hothers : ∀ h', h' ≠ h → h' ∈ ids w →
      w1.addrOf h' = w.addrOf h' ∧ w1.getH h' = w.getH h' :=
    fun h' hne hm' => ⟨haddr1 h' hne, hoth1 h' hne hm'⟩
  by_cases hg1 : g t1
  · have hw3 : (setStructOfHandle w1 h
        { w1.getH h with non_const_refs_given := true }).getH h =
        { w1.getH h with non_const_refs_given := true } := getH_setStructOfHandle_self _ _ _
    rw [show atMutOp g w h k t =
          (.error .fail,
           setHandle
             (setStructOfHandle
               (setStructOfHandle w1 h { w1.getH h with non_const_refs_given := true }) h
               { (setStructOfHandle w1 h { w1.getH h with non_const_refs_given := true }).getH h
                   with non_const_refs_given := false })
             h (w.addrOf h), t1 + 1) by
          rw [atMutOp, hcc]
          dsimp only
          rw [if_neg hbf, hw0, hc]
          dsimp only
          rw [if_pos hg1]]
    rw [hw3, setStructOfHandle_idem]
    have hcollapse : ({ ({ w1.getH h with non_const_refs_given := true } : MapStruct K V)
        with non_const_refs_given := false } : MapStruct K V) =
        { w1.getH h with non_const_refs_given := false } := rfl
    rw [hcollapse]
    have hmem2 : h ∈ ids (setStructOfHandle w1 h
        { w1.getH h with non_const_refs_given := false }) := hmem1
    refine ⟨wf_setHandle (wf_setStructOfHandle hwf1 _ _) holdlt,
            by rw [ids_setHandle, ids_setStructOfHandle]; exact hids1, hna1, ?_, ?_, ?_, ?_, ?_⟩
    · intro h' hne hm'
      rw [addrOf_setHandle_ne _ hne, getH_setHandle_ne _ hne, addrOf_setStructOfHandle]
      refine ⟨(hothers h' hne hm').1, ?_⟩
      rw [getH_setStructOfHandle_ne _ (hexcl1 h' hne (hids1 ▸ hm'))]
      exact (hothers h' hne hm').2
    · intro hi a
      rw [store_setHandle]
      by_cases ha : a = w1.addrOf h
      · rw [ha, setStructOfHandle, store_setStoreAt_self]
        exact inv_setFlag (hinv1 hi _) false
      · rw [store_setStructOfHandle_ne _ ha]
        exact hinv1 hi a
    · intro e _
      rw [getH_setHandle_self _ hmem2]
      rcases hdich with hdd | hdd
      · rw [hdd] at hexcl1 hothers hstold ⊢
        rw [setStructOfHandle, store_setStoreAt_self]
        exact view_flag _ _
      · rw [store_setStructOfHandle_ne _ (fun hh => hdd.1 hh.symm), hstold]
        rfl
    · intro hl
      injection hl with hl
      exact absurd hl (by simp)
    · intro v' hv
      simp at hv
  rw [show atMutOp g w h k t =
        (.ok ((valueAt (w1.getH h) k).getD default),
         setStructOfHandle w1 h { w1.getH h with non_const_refs_given := true },
         t1 + 1) by
        rw [atMutOp, hcc]
        dsimp only
        rw [if_neg hbf, hw0, hc]
        dsimp only
        rw [if_neg hg1]]
  refine ⟨wf_setStructOfHandle hwf1 _ _, by rw [ids_setStructOfHandle]; exact hids1,
          hna1, ?_, ?_, ?_, ?_, ?_⟩
  · intro h' hne hm'
    rw [addrOf_setStructOfHandle]
    refine ⟨(hothers h' hne hm').1, ?_⟩
    rw [getH_setStructOfHandle_ne _ (hexcl1 h' hne (hids1 ▸ hm'))]
    exact (hothers h' hne hm').2
  · intro hi a
    by_cases ha : a = w1.addrOf h
    · rw [ha, setStructOfHandle, store_setStoreAt_self]
      exact inv_setFlag (hinv1 hi _) true
    · rw [store_setStructOfHandle_ne _ ha]
      exact hinv1 hi a
  · intro e he
    simp at he
  · intro hl
    simp at hl
  · intro v' hv
    have hv2 : v' = (valueAt (w1.getH h) k).getD default := by
      injection hv with hv
      exact hv.symm
    refine ⟨hcon, excl_setStructOfHandle _ hexcl1, hmem1, ?_, ?_⟩
    · rw [addrOf_setStructOfHandle]
      exact hlt1
    · intro hinvh
      have hhag : w1.getH h = w.getH h ∨
          w1.getH h = (⟨(w.getH h).insertions, (w.getH h).mappings,
            (w.getH h).nextId, false⟩ : MapStruct K V) := by
        rcases hdich with hdd | hdd
        · exact Or.inl (by rw [hdd])
        · exact Or.inr (by rw [hdd.2, cloneStruct_eq hinvh])
      constructor
      · rw [getH_setStructOfHandle_self]
        rcases hhag with hh | hh
        · rw [hh]
        · rw [hh]
      · rw [hv2]
        rcases hhag with hh | hh
        · rw [hh]
        · rw [hh]
          rfl

theorem clearOp_spec [Inhabited V] (g : Oracle) (w : World K V) (h : Nat)
    (t : Nat) (hwf : WF w) (hmem : h ∈ ids w) :
    WF (clearOp g w h t).2.1 ∧
    ids (clearOp g w h t).2.1 = ids w ∧
    w.nextAddr ≤ (clearOp g w h t).2.1.nextAddr ∧
    (∀ h', h' ≠ h → h' ∈ ids w →
      (clearOp g w h t).2.1.addrOf h' = w.addrOf h' ∧
      (clearOp g w h t).2.1.getH h' = w.getH h') ∧
    ((∀ a, Inv (w.store a)) → ∀ a, Inv ((clearOp g w h t).2.1.store a)) ∧
    (∀ e, (clearOp g w h t).1 = .error e → (clearOp g w h t).2.1 = w) ∧
    ((clearOp g w h t).1 = .ok () →
      Excl (clearOp g w h t).2.1 h ∧
      h ∈ ids (clearOp g w h t).2.1 ∧
      (clearOp g w h t).2.1.addrOf h < (clearOp g w h t).2.1.nextAddr ∧
      (clearOp g w h t).2.1.getH h = structClear (w.getH h)) := by
  have hs := cowOp_spec g w h t hwf hmem
  rcases hc : cowOp g w h t with ⟨cr, w1, t1⟩
  rw [hc] at hs
  dsimp only at hs
  rcases cr with e1 | oldA
  · have hw1 : w1 = w := hs.1 e1 rfl
    rw [show clearOp g w h t = (.error e1, w1, t1) by rw [clearOp, hc], hw1]
    exact ⟨hwf, rfl, le_refl _, fun h' _ _ => ⟨rfl, rfl⟩, fun hi a => hi a,
           fun e _ => rfl, fun hk => by simp at hk⟩
  obtain ⟨hoa, hwf1, hids1, hna1, haddr1, hstne, hstold, hlt1, hexcl1, hdich, hinv1, hoth1⟩ :=
    hs.2 oldA rfl
  subst hoa
  have hmem1 : h ∈ ids w1 := hids1 ▸ hmem
  rw [show clearOp g w h t =
        (.ok (), setStructOfHandle w1 h (structClear (w1.getH h)), t1) by
        rw [clearOp, hc]]
  refine ⟨wf_setStructOfHandle hwf1 _ _, by rw [ids_setStructOfHandle]; exact hids1,
          hna1, ?_, ?_, ?_, ?_⟩
  · intro h' hne hm'
    rw [addrOf_setStructOfHandle]
    refine ⟨haddr1 h' hne, ?_⟩
    rw [getH_setStructOfHandle_ne _ (hexcl1 h' hne (hids1 ▸ hm'))]
    exact hoth1 h' hne hm'
  · intro hi a
    by_cases ha : a = w1.addrOf h
    · rw [ha, setStructOfHandle, store_setStoreAt_self]
      exact inv_structClear _
    · rw [store_setStructOfHandle_ne _ ha]
      exact hinv1 hi a
  · intro e he
    simp at he
  · intro _
    refine ⟨excl_setStructOfHandle _ hexcl1, hmem1, ?_, ?_⟩
    · rw [addrOf_setStructOfHandle]
      exact hlt1
    · rw [getH_setStructOfHandle_self]
      rcases hdich with hdd | hdd
      · rw [hdd]
      · rw [hdd.2]
        rfl

/-! World shape of operations run on an exclusively owned handle. -/

theorem g0_false (t : Nat) : g0 t = false := rfl

theorem setStructOfHandle_getH (w : World K V) (h : Nat) :
    setStructOfHandle w h (w.getH h) = w := by
  show ({ w with store := Function.update w.store (w.addrOf h) (w.store (w.addrOf h)) } :
        World K V) = w
  rw [Function.update_eq_self]

theorem insertOp_excl_world [Inhabited V] (g : Oracle) (w : World K V) (h : Nat)
    (k : K) (v : V) (t : Nat) (hwf : WF w) (hmem : h ∈ ids w) (hex : Excl w h) :
    (insertOp g w h k v t).2.1 = w ∨
    ∃ τ, (insertOp g w h k v t).2.1 = setStructOfHandle w h τ := by
  rw [insertOp, privateInsertOp, cowOp_excl g w h t hwf hmem hex]
  dsimp only
  by_cases hg1 : g t
  · rw [if_pos hg1]
    exact Or.inl (setHandle_self_eq hwf hmem)
  rw [if_neg hg1]
  by_cases hg2 : g (t + 1)
  · rw [if_pos hg2]
    dsimp only
    right
    refine ⟨{ w.getH h with nextId := (w.getH h).nextId + 1 }, ?_⟩
    exact setHandle_self_eq (wf_setStructOfHandle hwf _ _) hmem
  · rw [if_neg hg2]
    exact Or.inr ⟨_, rfl⟩

theorem insertOp_g0_excl [Inhabited V] (w : World K V) (h : Nat) (k : K) (v : V)
    (t : Nat) (hwf : WF w) (hmem : h ∈ ids w) (hex : Excl w h) :
    insertOp g0 w h k v t =
      (.ok (structInsert (w.getH h) k v).1,
       setStructOfHandle w h (structInsert (w.getH h) k v).2, t + 2) := by
  rw [insertOp, privateInsertOp, cowOp_excl g0 w h t hwf hmem hex]
  dsimp only
  rw [if_neg (by simp [g0]), if_neg (by simp [g0])]

theorem atMutOp_excl_world [Inhabited V] (g : Oracle) (w : World K V) (h : Nat)
    (k : K) (t : Nat) (hwf : WF w) (hmem : h ∈ ids w) (hex : Excl w h) :
    (atMutOp g w h k t).2.1 = w ∨
    ∃ b, (atMutOp g w h k t).2.1 =
      setStructOfHandle w h { w.getH h with non_const_refs_given := b } := by
  rcases hcc : containsOp g w h k t with ⟨cr0, w0, t0⟩
  have hw0 : w0 = w := by
    have := containsOp_world g w h k t
    rw [hcc] at this
    exact this
  rw [hw0] at hcc
  rw [atMutOp, hcc]
  rcases cr0 with e0 | b0
  · exact Or.inl rfl
  dsimp only
  by_cases hbf : b0 = false
  · rw [if_pos hbf]
    exact Or.inl rfl
  rw [if_neg hbf, cowOp_excl g w h t0 hwf hmem hex]
  dsimp only
  by_cases hg1 : g t0
  · rw [if_pos hg1]
    right
    refine ⟨false, ?_⟩
    dsimp only
    rw [getH_setStructOfHandle_self, setStructOfHandle_idem]
    have hcol : ({ ({ w.getH h with non_const_refs_given := true } : MapStruct K V) with
        non_const_refs_given := false } : MapStruct K V) =
        { w.getH h with non_const_refs_given := false } := rfl
    rw [hcol]
    exact setHandle_self_eq (wf_setStructOfHandle hwf _ _) hmem
  · rw [if_neg hg1]
    exact Or.inr ⟨true, rfl⟩

/-! Copy construction and assignment. -/

theorem hlookup_append_left {l l2 : List (Nat × Nat)} {h : Nat}
    (hmem : h ∈ l.map Prod.fst) : hlookup (l ++ l2) h = hlookup l h := by
  induction l with
  | nil => simp at hmem
  | cons p rest ih =>
    simp only [List.map_cons, List.mem_cons] at hmem
    by_cases hp : p.1 = h
    · simp [hlookup, hp]
    · rcases hmem with hmem | hmem
      · exact absurd hmem.symm hp
      · simp only [List.cons_append, hlookup, if_neg hp]
        exact ih hmem

theorem addrOf_addHandle_old {w : World K V} {h newh a : Nat} (hmem : h ∈ ids w) :
    (addHandle w newh a).addrOf h = w.addrOf h := by
  show (hlookup (w.handles ++ [(newh, a)]) h).getD 0 = _
  rw [hlookup_append_left hmem]
  rfl

theorem getH_addHandle_old {w : World K V} {h newh a : Nat} (hmem : h ∈ ids w) :
    (addHandle w newh a).getH h = w.getH h := by
  rw [World.getH, addrOf_addHandle_old hmem]
  rfl

theorem hlookup_append_right {l l2 : List (Nat × Nat)} {h : Nat}
    (hmem : h ∉ l.map Prod.fst) : hlookup (l ++ l2) h = hlookup l2 h := by
  induction l with
  | nil => rfl
  | cons p rest ih =>
    simp only [List.map_cons, List.mem_cons] at hmem
    push_neg at hmem
    simp only [List.cons_append, hlookup,
               if_neg (show ¬p.1 = h from fun hh => hmem.1 hh.symm)]
    exact ih hmem.2

theorem addrOf_addHandle_new {w : World K V} {newh a : Nat} (hnew : newh ∉ ids w) :
    (addHandle w newh a).addrOf newh = a := by
  show (hlookup (w.handles ++ [(newh, a)]) newh).getD 0 = a
  rw [hlookup_append_right hnew]
  simp [hlookup]

theorem ids_addHandle (w : World K V) (newh a : Nat) :
    ids (addHandle w newh a) = ids w ++ [newh] := by
  show (w.handles ++ [(newh, a)]).map Prod.fst = _
  rw [List.map_append]
  rfl

theorem wf_addHandle {w : World K V} (hwf : WF w) {newh a : Nat}
    (hnew : newh ∉ ids w) (ha : a < w.nextAddr) : WF (addHandle w newh a) := by
  constructor
  · rw [show (addHandle w newh a).handles.map Prod.fst = ids w ++ [newh] from
        ids_addHandle w newh a]
    refine hwf.1.append (List.nodup_singleton _) ?_
    intro x hx hx2
    simp only [List.mem_singleton] at hx2
    exact hnew (hx2 ▸ hx)
  · intro p hp
    rcases List.mem_append.1 hp with hp | hp
    · exact hwf.2 p hp
    · simp only [List.mem_singleton] at hp
      rw [hp]
      exact ha

theorem copyCtorOp_spec [Inhabited V] (g : Oracle) (w : World K V) (newh srch : Nat)
    (t : Nat) (hwf : WF w) (hmem : srch ∈ ids w) (hnew : newh ∉ ids w) :
    (∀ e, (copyCtorOp g w newh srch t).1 = .error e →
      (copyCtorOp g w newh srch t).2.1 = w) ∧
    ((copyCtorOp g w newh srch t).1 = .ok () →
      WF (copyCtorOp g w newh srch t).2.1 ∧
      ids (copyCtorOp g w newh srch t).2.1 = ids w ++ [newh] ∧
      (∀ h', h' ∈ ids w →
        (copyCtorOp g w newh srch t).2.1.addrOf h' = w.addrOf h' ∧
        (copyCtorOp g w newh srch t).2.1.getH h' = w.getH h') ∧
      ((∀ a, Inv (w.store a)) → ∀ a, Inv ((copyCtorOp g w newh srch t).2.1.store a)) ∧
      ((w.getH srch).non_const_refs_given = false →
        (copyCtorOp g w newh srch t).2.1.addrOf newh = w.addrOf srch) ∧
      (Inv (w.getH srch) →
        view ((copyCtorOp g w newh srch t).2.1.getH newh) = view (w.getH srch))) := by
  rw [copyCtorOp]
  by_cases hflag : (w.getH srch).non_const_refs_given
  · rw [if_pos hflag]
    by_cases hg : g t
    · rw [if_pos hg]
      exact ⟨fun e _ => rfl, fun hok => by simp at hok⟩
    rw [if_neg hg]
    dsimp only
    refine ⟨fun e he => by simp at he, fun _ => ?_⟩
    have hna : ∀ h', h' ∈ ids w → w.addrOf h' < w.nextAddr :=
      fun h' hm' => addrOf_lt_nextAddr hwf hm'
    refine ⟨?_, ?_, ?_, ?_, ?_, ?_⟩
    · refine wf_addHandle (wf_allocA hwf _) ?_ ?_
      · rw [show ids (allocA w (cloneStruct (w.getH srch))).2 = ids w from rfl]
        exact hnew
      · exact Nat.lt_succ_self _
    · rw [ids_addHandle]
      rfl
    · intro h' hm'
      rw [addrOf_addHandle_old (show h' ∈ ids (allocA w (cloneStruct (w.getH srch))).2
            from hm'),
          getH_addHandle_old (show h' ∈ ids (allocA w (cloneStruct (w.getH srch))).2
            from hm')]
      refine ⟨rfl, ?_⟩
      rw [World.getH, show (allocA w (cloneStruct (w.getH srch))).2.addrOf h' = w.addrOf h'
            from rfl]
      exact store_allocA_ne _ (by have := hna h' hm'; omega)
    · intro hi a
      show Inv ((allocA w (cloneStruct (w.getH srch))).2.store a)
      by_cases ha : a = w.nextAddr
      · rw [ha, store_allocA_self]
        exact inv_cloneStruct (hi _)
      · rw [store_allocA_ne _ ha]
        exact hi a
    · intro hflag2
      rw [hflag2] at hflag
      simp at hflag
    · intro hinv
      rw [World.getH, addrOf_addHandle_new (show newh ∉ ids (allocA w (cloneStruct (w.getH srch))).2
            from hnew)]
      rw [show (addHandle (allocA w (cloneStruct (w.getH srch))).2 newh
            (allocA w (cloneStruct (w.getH srch))).1).store = (allocA w (cloneStruct (w.getH srch))).2.store
            from rfl]
      rw [show (allocA w (cloneStruct (w.getH srch))).1 = w.nextAddr from rfl,
          store_allocA_self]
      exact view_cloneStruct hinv
  · rw [if_neg hflag]
    refine ⟨fun e he => by simp at he, fun _ => ?_⟩
    refine ⟨?_, ids_addHandle w newh _, ?_, ?_, ?_, ?_⟩
    · exact wf_addHandle hwf hnew (addrOf_lt_nextAddr hwf hmem)
    · intro h' hm'
      exact ⟨addrOf_addHandle_old hm', getH_addHandle_old hm'⟩
    · intro hi a
      exact hi a
    · intro _
      exact addrOf_addHandle_new hnew
    · intro hinv
      rw [World.getH, addrOf_addHandle_new hnew]
      rfl

theorem assignOp_spec [Inhabited V] (g : Oracle) (w : World K V) (dsth srch : Nat)
    (t : Nat) (hwf : WF w) (hmem : srch ∈ ids w) (hdmem : dsth ∈ ids w) :
    (∀ e, (assignOp g w dsth srch t).1 = .error e →
      (assignOp g w dsth srch t).2.1 = w) ∧
    ((assignOp g w dsth srch t).1 = .ok () →
      WF (assignOp g w dsth srch t).2.1 ∧
      ids (assignOp g w dsth srch t).2.1 = ids w ∧
      (∀ h', h' ≠ dsth → h' ∈ ids w →
        (assignOp g w dsth srch t).2.1.addrOf h' = w.addrOf h' ∧
        (assignOp g w dsth srch t).2.1.getH h' = w.getH h') ∧
      ((∀ a, Inv (w.store a)) → ∀ a, Inv ((assignOp g w dsth srch t).2.1.store a)) ∧
      ((w.getH srch).non_const_refs_given = false →
        (assignOp g w dsth srch t).2.1.addrOf dsth = w.addrOf srch) ∧
      (srch ≠ dsth → Inv (w.getH srch) →
        view ((assignOp g w dsth srch t).2.1.getH dsth) = view (w.getH srch))) := by
  rw [assignOp]
  by_cases hflag : (w.getH srch).non_const_refs_given
  · rw [if_pos hflag]
    by_cases hg : g t
    · rw [if_pos hg]
      exact ⟨fun e _ => rfl, fun hok => by simp at hok⟩
    rw [if_neg hg]
    dsimp only
    refine ⟨fun e he => by simp at he, fun _ => ?_⟩
    have hwf1 : WF (allocA w (cloneStruct (w.getH srch))).2 := wf_allocA hwf _
    have hd1 : dsth ∈ ids (allocA w (cloneStruct (w.getH srch))).2 := hdmem
    refine ⟨?_, ?_, ?_, ?_, ?_, ?_⟩
    · exact wf_setHandle hwf1 (Nat.lt_succ_self _)
    · rw [ids_setHandle]
      rfl
    · intro h' hne hm'
      rw [addrOf_setHandle_ne _ hne, getH_setHandle_ne _ hne]
      refine ⟨rfl, ?_⟩
      rw [World.getH, show (allocA w (cloneStruct (w.getH srch))).2.addrOf h' = w.addrOf h'
            from rfl]
      exact store_allocA_ne _ (by have := addrOf_lt_nextAddr hwf hm'; omega)
    · intro hi a
      rw [store_setHandle]
      by_cases ha : a = w.nextAddr
      · rw [ha, store_allocA_self]
        exact inv_cloneStruct (hi _)
      · rw [store_allocA_ne _ ha]
        exact hi a
    · intro hflag2
      rw [hflag2] at hflag
      simp at hflag
    · intro hne hinv
      rw [getH_setHandle_self _ hd1,
          show (allocA w (cloneStruct (w.getH srch))).1 = w.nextAddr from rfl,
          store_allocA_self]
      exact view_cloneStruct hinv
  · rw [if_neg hflag]
    refine ⟨fun e he => by simp at he, fun _ => ?_⟩
    refine ⟨?_, by rw [ids_setHandle], ?_, ?_, ?_, ?_⟩
    · exact wf_setHandle hwf (addrOf_lt_nextAddr hwf hmem)
    · intro h' hne hm'
      rw [addrOf_setHandle_ne _ hne, getH_setHandle_ne _ hne]
      exact ⟨rfl, rfl⟩
    · intro hi a
      rw [store_setHandle]
      exact hi a
    · intro _
      exact addrOf_setHandle_self _ hdmem
    · intro hne hinv
      rw [getH_setHandle_self _ hdmem]
      rfl

/-! Specification of `operator[]`. -/

theorem view_eta (σ : MapStruct K V) (n : Nat) (b : Bool) :
    view (⟨σ.insertions, σ.mappings, n, b⟩ : MapStruct K V) = view σ := rfl

theorem containsS_of_structInsert_false {σ : MapStruct K V} {k : K} {v : V}
    (hf : (structInsert σ k v).1 = false) : containsS σ k = true := by
  rcases hm : mfind σ.mappings k with - | p
  · rw [structInsert_absent v hm] at hf
    simp at hf
  · rw [containsS, hm]
    rfl

theorem mfind_none_of_structInsert_true {σ : MapStruct K V} {k : K} {v : V}
    (hf : (structInsert σ k v).1 = true) : mfind σ.mappings k = none := by
  rcases hm : mfind σ.mappings k with - | ⟨i, v0⟩
  · rfl
  · rw [structInsert_present v hm] at hf
    simp at hf

theorem idxOp_spec [Inhabited V] (g : Oracle) (w : World K V) (h : Nat) (k : K)
    (t : Nat) (hwf : WF w) (hmem : h ∈ ids w) :
    WF (idxOp g w h k t).2.1 ∧
    ids (idxOp g w h k t).2.1 = ids w ∧
    w.nextAddr ≤ (idxOp g w h k t).2.1.nextAddr ∧
    (∀ h', h' ≠ h → h' ∈ ids w →
      (idxOp g w h k t).2.1.addrOf h' = w.addrOf h' ∧
      (idxOp g w h k t).2.1.getH h' = w.getH h') ∧
    ((∀ a, Inv (w.store a)) → ∀ a, Inv ((idxOp g w h k t).2.1.store a)) ∧
    (Inv (w.getH h) → ∀ e, (idxOp g w h k t).1 = .error e →
      view ((idxOp g w h k t).2.1.getH h) = view (w.getH h) ∨
      (containsS (w.getH h) k = true ∧
       view ((idxOp g w h k t).2.1.getH h) =
         view ((structInsert (w.getH h) k default).2))) ∧
    (∀ v', (idxOp g w h k t).1 = .ok v' → Inv (w.getH h) →
      v' = (valueAt (w.getH h) k).getD default ∧
      (idxOp g w h k t).2.1.getH h =
        { (structInsert (w.getH h) k default).2 with non_const_refs_given := true }) := by
  have hpis := insertOp_spec g w h k default t hwf hmem
  rcases hpi : insertOp g w h k default t with ⟨ir, w1, t1⟩
  rw [hpi] at hpis
  dsimp only at hpis
  obtain ⟨hwf1, hids1, hna1, hoth1, hinvS1, herr1, hok1⟩ := hpis
  rcases ir with e0 | inserted
  · rw [show idxOp g w h k t = (.error e0, w1, t1) by
          rw [idxOp, show privateInsertOp g w h k default t = (.error e0, w1, t1) from hpi]]
    exact ⟨hwf1, hids1, hna1, hoth1, hinvS1,
           fun _ e _ => Or.inl (herr1 e0 rfl), fun v' hv => by simp at hv⟩
  obtain ⟨hexcl1, hlt1, hmem1, hinvchar⟩ := hok1 inserted rfl
  have hmem1w : h ∈ ids w1 := hids1 ▸ hmem
  have hams := atMutOp_spec g w1 h k t1 hwf1 hmem1w
  rcases ham : atMutOp g w1 h k t1 with ⟨ar, w2, t2⟩
  rw [ham] at hams
  dsimp only at hams
  obtain ⟨hwf2, hids2, hna2, hoth2, hinvS2, herr2, hlk2, hok2⟩ := hams
  have hamw := atMutOp_excl_world g w1 h k t1 hwf1 hmem1w hexcl1
  rw [ham] at hamw
  dsimp only at hamw
  have hoths : ∀ h', h' ≠ h → h' ∈ ids w →
      w2.addrOf h' = w.addrOf h' ∧ w2.getH h' = w.getH h' := by
    intro h' hne hm'
    obtain ⟨ha2, hg2⟩ := hoth2 h' hne (hids1 ▸ hm')
    obtain ⟨ha1, hg1⟩ := hoth1 h' hne hm'
    exact ⟨ha2.trans ha1, hg2.trans hg1⟩
  have hexcl2 : Excl w2 h := by
    rcases hamw with hh | ⟨b, hh⟩
    · rw [hh]
      exact hexcl1
    · rw [hh]
      exact excl_setStructOfHandle _ hexcl1
  rcases ar with e1 | v1
  · by_cases hins : inserted = true
    · subst hins
      rw [show idxOp g w h k t =
            (.error e1,
             setStructOfHandle w2 h
               ⟨(w2.getH h).insertions.dropLast, mErase (w2.getH h).mappings k,
                (w2.getH h).nextId, (w2.getH h).non_const_refs_given⟩, t2) by
            rw [idxOp, show privateInsertOp g w h k default t = (.ok true, w1, t1) from hpi]
            dsimp only
            rw [ham]
            dsimp only
            rw [if_pos rfl]]
      have hshape : ∃ b', w2.getH h =
          { w1.getH h with non_const_refs_given := b' } := by
        rcases hamw with hh | ⟨b, hh⟩
        · exact ⟨(w1.getH h).non_const_refs_given, by rw [hh]⟩
        · refine ⟨b, ?_⟩
          rw [hh, getH_setStructOfHandle_self]
      refine ⟨wf_setStructOfHandle hwf2 _ _,
              by rw [ids_setStructOfHandle]; exact hids2.trans hids1,
              le_trans hna1 hna2, ?_, ?_, ?_, ?_⟩
      · intro h' hne hm'
        rw [addrOf_setStructOfHandle]
        refine ⟨(hoths h' hne hm').1, ?_⟩
        rw [getH_setStructOfHandle_ne _ (hexcl2 h' hne ((hids2.trans hids1) ▸ hm'))]
        exact (hoths h' hne hm').2
      · intro hi a
        have hinvh : Inv (w.getH h) := hi (w.addrOf h)
        obtain ⟨-, hchar⟩ := hinvchar hinvh
        have hnone : mfind (w.getH h).mappings k = none :=
          mfind_none_of_structInsert_true
            (show (structInsert (w.getH h) k default).1 = true by
              have := (hinvchar hinvh).1
              rw [← this])
        obtain ⟨b', hb'⟩ := hshape
        have hw2form : w2.getH h =
            (⟨(w.getH h).insertions ++ [((w.getH h).nextId, k)],
              (w.getH h).mappings ++ [(k, (w.getH h).nextId, default)],
              (w.getH h).nextId + 1, b'⟩ : MapStruct K V) := by
          rw [hb', hchar, structInsert_absent default hnone]
        by_cases ha : a = w2.addrOf h
        · rw [ha, setStructOfHandle, store_setStoreAt_self, hw2form]
          dsimp only
          rw [List.dropLast_concat, mErase_append_singleton (mfind_eq_none.1 hnone)]
          exact inv_setFlag (inv_bump hinvh) b'
        · rw [store_setStructOfHandle_ne _ ha]
          exact hinvS2 (hinvS1 hi) a
      · intro hinvh e he
        left
        obtain ⟨-, hchar⟩ := hinvchar hinvh
        have hnone : mfind (w.getH h).mappings k = none :=
          mfind_none_of_structInsert_true
            (show (structInsert (w.getH h) k default).1 = true by
              have := (hinvchar hinvh).1
              rw [← this])
        obtain ⟨b', hb'⟩ := hshape
        have hw2form : w2.getH h =
            (⟨(w.getH h).insertions ++ [((w.getH h).nextId, k)],
              (w.getH h).mappings ++ [(k, (w.getH h).nextId, default)],
              (w.getH h).nextId + 1, b'⟩ : MapStruct K V) := by
          rw [hb', hchar, structInsert_absent default hnone]
        rw [getH_setStructOfHandle_self, hw2form]
        dsimp only
        rw [List.dropLast_concat, mErase_append_singleton (mfind_eq_none.1 hnone)]
        exact view_eta _ _ _
      · intro v' hv
        simp at hv
    · have hins2 : inserted = false := by
        rcases inserted with - | - <;> simp_all
      subst hins2
      rw [show idxOp g w h k t = (.error e1, w2, t2) by
            rw [idxOp, show privateInsertOp g w h k default t = (.ok false, w1, t1) from hpi]
            dsimp only
            rw [ham]
            dsimp only
            rw [if_neg (by simp)]]
      refine ⟨hwf2, hids2.trans hids1, le_trans hna1 hna2, hoths,
              fun hi a => hinvS2 (hinvS1 hi) a, ?_, fun v' hv => by simp at hv⟩
      intro hinvh e he
      right
      obtain ⟨hbchar, hchar⟩ := hinvchar hinvh
      refine ⟨containsS_of_structInsert_false (by rw [← hbchar]), ?_⟩
      have := herr2 e1 rfl
      rw [this, hchar]
  · rw [show idxOp g w h k t = (.ok v1, w2, t2) by
          rw [idxOp, show privateInsertOp g w h k default t = (.ok inserted, w1, t1) from hpi]
          dsimp only
          rw [ham]]
    refine ⟨hwf2, hids2.trans hids1, le_trans hna1 hna2, hoths,
            fun hi a => hinvS2 (hinvS1 hi) a, fun _ e he => by simp at he, ?_⟩
    intro v' hv hinvh
    have hv1 : v1 = v' := by
      injection hv
    obtain ⟨hbchar, hchar⟩ := hinvchar hinvh
    have hinv1 : Inv (w1.getH h) := by
      rw [hchar]
      exact inv_structInsert hinvh k default
    obtain ⟨-, -, -, -, hokpart⟩ := hok2 v1 rfl
    obtain ⟨hg2, hval⟩ := hokpart hinv1
    constructor
    · rw [← hv1, hval, hchar, valueAt_structInsert_self]
      rfl
    · rw [hg2, hchar]

/-! Specification of `merge`. -/

theorem mergeOp_self [Inhabited V] (g : Oracle) (w : World K V) (h : Nat) (t : Nat) :
    mergeOp g w h h t = (.ok (), w, t) := by
  rw [mergeOp, if_pos rfl]

theorem mergeLoop_shape [Inhabited V] (g : Oracle) (h hother : Nat) (ks : List K) :
    ∀ (w : World K V) (t : Nat), WF w → h ∈ ids w → Excl w h →
    ((mergeLoop g w h hother ks t).2.1 = w ∨
     ∃ τ, (mergeLoop g w h hother ks t).2.1 = setStructOfHandle w h τ) ∧
    ((∀ a, Inv (w.store a)) → ∀ a, Inv ((mergeLoop g w h hother ks t).2.1.store a)) := by
  induction ks with
  | nil =>
    intro w t hwf hmem hex
    exact ⟨Or.inl rfl, fun hi a => hi a⟩
  | cons k ks ih =>
    intro w t hwf hmem hex
    rw [mergeLoop]
    rcases hac : atConstOp g w hother k t with ⟨ar, w0, t0⟩
    have hw0 : w0 = w := by
      have := atConstOp_world g w hother k t
      rw [hac] at this
      exact this
    rw [hw0] at hac ⊢
    rcases ar with e0 | v0
    · exact ⟨Or.inl rfl, fun hi a => hi a⟩
    dsimp only
    rcases hio : insertOp g w h k v0 t0 with ⟨ir, w1, t1⟩
    have hisp := insertOp_spec g w h k v0 t0 hwf hmem
    rw [hio] at hisp
    dsimp only at hisp
    have hiw := insertOp_excl_world g w h k v0 t0 hwf hmem hex
    rw [hio] at hiw
    dsimp only at hiw
    rcases ir with e1 | b1
    · exact ⟨hiw, fun hi a => hisp.2.2.2.2.1 hi a⟩
    obtain ⟨hexcl1, -, hmem1, -⟩ := hisp.2.2.2.2.2.2 b1 rfl
    obtain ⟨hml, hmlinv⟩ := ih w1 t1 hisp.1 hmem1 hexcl1
    constructor
    · rcases hml with hml | ⟨τ2, hml⟩
      · rw [hml]
        exact hiw
      · rcases hiw with hiw | ⟨τ1, hiw⟩
        · rw [hml, hiw]
          exact Or.inr ⟨τ2, rfl⟩
        · rw [hml, hiw, setStructOfHandle_idem]
          exact Or.inr ⟨τ2, rfl⟩
    · intro hi a
      exact hmlinv (hisp.2.2.2.2.1 hi) a

theorem mergeOp_spec [Inhabited V] (g : Oracle) (w : World K V) (h ho : Nat) (t : Nat)
    (hwf : WF w) (hmem : h ∈ ids w) (hne : h ≠ ho) :
    WF (mergeOp g w h ho t).2.1 ∧
    ids (mergeOp g w h ho t).2.1 = ids w ∧
    w.nextAddr ≤ (mergeOp g w h ho t).2.1.nextAddr ∧
    (∀ h', h' ≠ h → h' ∈ ids w →
      (mergeOp g w h ho t).2.1.addrOf h' = w.addrOf h' ∧
      (mergeOp g w h ho t).2.1.getH h' = w.getH h') ∧
    ((∀ a, Inv (w.store a)) → ∀ a, Inv ((mergeOp g w h ho t).2.1.store a)) ∧
    (∀ e, (mergeOp g w h ho t).1 = .error e →
      (mergeOp g w h ho t).2.1.getH h = w.getH h) ∧
    ((mergeOp g w h ho t).1 = .ok () →
      ((mergeOp g w h ho t).2.1.getH h).non_const_refs_given = false) := by
  rw [mergeOp, if_neg hne]
  by_cases hg : g t
  · rw [if_pos hg]
    exact ⟨hwf, rfl, le_refl _, fun h' _ _ => ⟨rfl, rfl⟩, fun hi a => hi a,
           fun e _ => rfl, fun hok => by simp at hok⟩
  rw [if_neg hg]
  dsimp only
  simp only [show (allocA w (cloneStruct (w.getH h))).1 = w.nextAddr from rfl]
  have hwfA : WF (allocA w (cloneStruct (w.getH h))).2 := wf_allocA hwf _
  have hmemA : h ∈ ids (allocA w (cloneStruct (w.getH h))).2 := hmem
  have hwf2 : WF (setHandle (allocA w (cloneStruct (w.getH h))).2 h w.nextAddr) :=
    wf_setHandle hwfA (Nat.lt_succ_self _)
  have hids2 : ids (setHandle (allocA w (cloneStruct (w.getH h))).2 h w.nextAddr) = ids w := by
    rw [ids_setHandle]
    rfl
  have hmem2 : h ∈ ids (setHandle (allocA w (cloneStruct (w.getH h))).2 h w.nextAddr) :=
    hids2 ▸ hmem
  have haddr2 : (setHandle (allocA w (cloneStruct (w.getH h))).2 h w.nextAddr).addrOf h =
      w.nextAddr := addrOf_setHandle_self _ hmemA
  have haddro : ∀ h', h' ≠ h →
      (setHandle (allocA w (cloneStruct (w.getH h))).2 h w.nextAddr).addrOf h' =
      w.addrOf h' := by
    intro h' hne'
    rw [addrOf_setHandle_ne _ hne']
    rfl
  have hsto : ∀ a, a ≠ w.nextAddr →
      (setHandle (allocA w (cloneStruct (w.getH h))).2 h w.nextAddr).store a = w.store a := by
    intro a ha
    rw [store_setHandle]
    exact store_allocA_ne _ ha
  have hexcl2 : Excl (setHandle (allocA w (cloneStruct (w.getH h))).2 h w.nextAddr) h := by
    intro h' hne' hm' heq
    rw [hids2] at hm'
    rw [haddro h' hne', haddr2] at heq
    have := addrOf_lt_nextAddr hwf hm'
    omega
  have hgetho : ∀ h', h' ≠ h → h' ∈ ids w →
      (setHandle (allocA w (cloneStruct (w.getH h))).2 h w.nextAddr).getH h' = w.getH h' := by
    intro h' hne' hm'
    rw [World.getH, haddro h' hne', hsto _ (by have := addrOf_lt_nextAddr hwf hm'; omega)]
    rfl
  have hnext2 : (setHandle (allocA w (cloneStruct (w.getH h))).2 h w.nextAddr).nextAddr =
      w.nextAddr + 1 := rfl
  have hInv2 : (∀ a, Inv (w.store a)) →
      ∀ a, Inv ((setHandle (allocA w (cloneStruct (w.getH h))).2 h w.nextAddr).store a) := by
    intro hi a
    rw [store_setHandle]
    by_cases ha : a = w.nextAddr
    · rw [ha, store_allocA_self]
      exact inv_cloneStruct (hi _)
    · rw [store_allocA_ne _ ha]
      exact hi a
  obtain ⟨hshape, hloopinv⟩ :=
    mergeLoop_shape g h ho
      (viewKeys ((setHandle (allocA w (cloneStruct (w.getH h))).2 h w.nextAddr).getH ho))
      (setHandle (allocA w (cloneStruct (w.getH h))).2 h w.nextAddr) (t + 1)
      hwf2 hmem2 hexcl2
  rcases hll : mergeLoop g (setHandle (allocA w (cloneStruct (w.getH h))).2 h w.nextAddr) h ho
      (viewKeys ((setHandle (allocA w (cloneStruct (w.getH h))).2 h w.nextAddr).getH ho))
      (t + 1) with ⟨lr, w3, t3⟩
  rw [hll] at hshape hloopinv
  dsimp only at hshape hloopinv
  have hwf3 : WF w3 := by
    rcases hshape with hs | ⟨τ, hs⟩ <;> rw [hs]
    · exact hwf2
    · exact wf_setStructOfHandle hwf2 _ _
  have hids3 : ids w3 = ids w := by
    rcases hshape with hs | ⟨τ, hs⟩ <;> rw [hs]
    · exact hids2
    · rw [ids_setStructOfHandle]
      exact hids2
  have hmem3 : h ∈ ids w3 := hids3 ▸ hmem
  have haddr3 : w3.addrOf h = w.nextAddr := by
    rcases hshape with hs | ⟨τ, hs⟩ <;> rw [hs]
    · exact haddr2
    · rw [addrOf_setStructOfHandle]
      exact haddr2
  have haddro3 : ∀ h', h' ≠ h → w3.addrOf h' = w.addrOf h' := by
    intro h' hne'
    rcases hshape with hs | ⟨τ, hs⟩ <;> rw [hs]
    · exact haddro h' hne'
    · rw [addrOf_setStructOfHandle]
      exact haddro h' hne'
  have hsto3 : ∀ a, a ≠ w.nextAddr → w3.store a = w.store a := by
    intro a ha
    rcases hshape with hs | ⟨τ, hs⟩ <;> rw [hs]
    · exact hsto a ha
    · have hane : a ≠ (setHandle (allocA w (cloneStruct (w.getH h))).2 h w.nextAddr).addrOf h := by
        rw [haddr2]
        exact ha
      rw [store_setStructOfHandle_ne _ hane]
      exact hsto a ha
  have hnext3 : w3.nextAddr = w.nextAddr + 1 := by
    rcases hshape with hs | ⟨τ, hs⟩ <;> rw [hs]
    · exact hnext2
    · rw [nextAddr_setStructOfHandle]
      exact hnext2
  have hgetho3 : ∀ h', h' ≠ h → h' ∈ ids w → w3.getH h' = w.getH h' := by
    intro h' hne' hm'
    rw [World.getH, haddro3 h' hne',
        hsto3 _ (by have := addrOf_lt_nextAddr hwf hm'; omega)]
    rfl
  have hexcl3 : Excl w3 h := by
    intro h' hne' hm' heq
    rw [hids3] at hm'
    rw [haddro3 h' hne', haddr3] at heq
    have := addrOf_lt_nextAddr hwf hm'
    omega
  rcases lr with e3 | u3
  · dsimp only
    have hbacklt : w.addrOf h < w3.nextAddr := by
      rw [hnext3]
      have := addrOf_lt_nextAddr hwf hmem
      omega
    refine ⟨wf_setHandle hwf3 hbacklt, by rw [ids_setHandle]; exact hids3,
            by rw [nextAddr_setHandle, hnext3]; omega, ?_, ?_, ?_, ?_⟩
    · intro h' hne' hm'
      rw [addrOf_setHandle_ne _ hne', getH_setHandle_ne _ hne']
      exact ⟨haddro3 h' hne', hgetho3 h' hne' hm'⟩
    · intro hi a
      rw [store_setHandle]
      exact hloopinv (hInv2 hi) a
    · intro e _
      rw [getH_setHandle_self _ hmem3,
          hsto3 _ (by have := addrOf_lt_nextAddr hwf hmem; omega)]
      rfl
    · intro hok
      simp at hok
  · dsimp only
    refine ⟨wf_setStructOfHandle hwf3 _ _,
            by rw [ids_setStructOfHandle]; exact hids3,
            by rw [nextAddr_setStructOfHandle, hnext3]; omega, ?_, ?_, ?_, ?_⟩
    · intro h' hne' hm'
      rw [addrOf_setStructOfHandle]
      refine ⟨haddro3 h' hne', ?_⟩
      rw [getH_setStructOfHandle_ne _ (hexcl3 h' hne' (hids3 ▸ hm'))]
      exact hgetho3 h' hne' hm'
    · intro hi a
      by_cases ha : a = w3.addrOf h
      · rw [ha, setStructOfHandle, store_setStoreAt_self]
        exact inv_setFlag (hloopinv (hInv2 hi) _) false
      · rw [store_setStructOfHandle_ne _ ha]
        exact hloopinv (hInv2 hi) a
    · intro e he
      simp at he
    · intro _
      rw [getH_setStructOfHandle_self]

/-! Success path of `merge` under the never-failing oracle. -/

theorem mergeLoop_g0 [Inhabited V] (h ho : Nat) (ks : List K) :
    ∀ (w : World K V) (t : Nat), WF w → h ∈ ids w → ho ∈ ids w → ho ≠ h →
    Excl w h → Inv (w.getH h) →
    (∀ k0 ∈ ks, containsS (w.getH ho) k0 = true) →
    mergeLoop g0 w h ho ks t =
      (.ok (),
       setStructOfHandle w h
         (ks.foldl
           (fun σ k0 => (structInsert σ k0 ((valueAt (w.getH ho) k0).getD default)).2)
           (w.getH h)),
       t + 4 * ks.length) := by
  induction ks with
  | nil =>
    intro w t hwf hm hmo hneo hex hinv hcon
    rw [show mergeLoop g0 w h ho [] t = (.ok (), w, t) from rfl, List.foldl_nil,
        setStructOfHandle_getH]
    simp
  | cons k0 ks ih =>
    intro w t hwf hm hmo hneo hex hinv hcon
    have hc0 : containsS (w.getH ho) k0 = true := hcon k0 (List.mem_cons_self _ _)
    rw [show mergeLoop g0 w h ho (k0 :: ks) t =
          (match atConstOp g0 w ho k0 t with
           | (.error e, w1, t1) => (.error e, w1, t1)
           | (.ok v, w1, t1) =>
             match insertOp g0 w1 h k0 v t1 with
             | (.error e, w2, t2) => (.error e, w2, t2)
             | (.ok _, w2, t2) => mergeLoop g0 w2 h ho ks t2) from rfl]
    rw [atConstOp_g0 t hc0]
    dsimp only
    rw [insertOp_g0_excl w h k0 ((valueAt (w.getH ho) k0).getD default) (t + 2) hwf hm hex]
    dsimp only
    have haddrne : w.addrOf ho ≠ w.addrOf h := hex ho hneo hmo
    have hgho : (setStructOfHandle w h
        (structInsert (w.getH h) k0 ((valueAt (w.getH ho) k0).getD default)).2).getH ho =
        w.getH ho := getH_setStructOfHandle_ne _ haddrne
    have hghh : (setStructOfHandle w h
        (structInsert (w.getH h) k0 ((valueAt (w.getH ho) k0).getD default)).2).getH h =
        (structInsert (w.getH h) k0 ((valueAt (w.getH ho) k0).getD default)).2 :=
      getH_setStructOfHandle_self _ _ _
    rw [ih (setStructOfHandle w h
          (structInsert (w.getH h) k0 ((valueAt (w.getH ho) k0).getD default)).2)
          (t + 2 + 2)
          (wf_setStructOfHandle hwf _ _) hm hmo hneo hex
          (by rw [hghh]; exact inv_structInsert hinv _ _)
          (by intro k1 hk1; rw [hgho]; exact hcon k1 (List.mem_cons_of_mem _ hk1))]
    rw [hgho, hghh, setStructOfHandle_idem, List.foldl_cons]
    have harith : t + 2 + 2 + 4 * ks.length = t + 4 * (k0 :: ks).length := by
      rw [List.length_cons]
      ring
    rw [harith]

theorem foldl_structInsert_flagReset [Inhabited V] (vals : K → V) (σ : MapStruct K V)
    (b : Bool) (ks : List K) :
    ({ ks.foldl (fun σ1 k0 => (structInsert σ1 k0 (vals k0)).2)
        ({ σ with non_const_refs_given := b }) with non_const_refs_given := false }
      : MapStruct K V) =
    { ks.foldl (fun σ1 k0 => (structInsert σ1 k0 (vals k0)).2) σ with
        non_const_refs_given := false } := by
  rcases ks with - | ⟨k0, ks⟩
  · rfl
  · rw [List.foldl_cons, List.foldl_cons]
    dsimp only
    rw [structInsert_flagReset]

theorem mergeOp_g0 [Inhabited V] (w : World K V) (h ho : Nat) (t : Nat)
    (hwf : WF w) (hm : h ∈ ids w) (hmo : ho ∈ ids w) (hne : h ≠ ho)
    (hinvh : Inv (w.getH h)) (hinvo : Inv (w.getH ho)) :
    (mergeOp g0 w h ho t).1 = .ok () ∧
    (mergeOp g0 w h ho t).2.1.getH h =
      { (viewKeys (w.getH ho)).foldl
          (fun σ k0 => (structInsert σ k0 ((valueAt (w.getH ho) k0).getD default)).2)
          (w.getH h) with non_const_refs_given := false } ∧
    (mergeOp g0 w h ho t).2.1.getH ho = w.getH ho := by
  rw [mergeOp, if_neg hne, if_neg (by simp [g0])]
  dsimp only
  simp only [show (allocA w (cloneStruct (w.getH h))).1 = w.nextAddr from rfl]
  have hwfA : WF (allocA w (cloneStruct (w.getH h))).2 := wf_allocA hwf _
  have hmemA : h ∈ ids (allocA w (cloneStruct (w.getH h))).2 := hm
  have hwf2 : WF (setHandle (allocA w (cloneStruct (w.getH h))).2 h w.nextAddr) :=
    wf_setHandle hwfA (Nat.lt_succ_self _)
  have hids2 : ids (setHandle (allocA w (cloneStruct (w.getH h))).2 h w.nextAddr) = ids w := by
    rw [ids_setHandle]
    rfl
  have hmem2 : h ∈ ids (setHandle (allocA w (cloneStruct (w.getH h))).2 h w.nextAddr) :=
    hids2 ▸ hm
  have hmo2 : ho ∈ ids (setHandle (allocA w (cloneStruct (w.getH h))).2 h w.nextAddr) :=
    hids2 ▸ hmo
  have haddr2 : (setHandle (allocA w (cloneStruct (w.getH h))).2 h w.nextAddr).addrOf h =
      w.nextAddr := addrOf_setHandle_self _ hmemA
  have hexcl2 : Excl (setHandle (allocA w (cloneStruct (w.getH h))).2 h w.nextAddr) h := by
    intro h' hne' hm' heq
    rw [hids2] at hm'
    rw [addrOf_setHandle_ne _ hne', haddr2] at heq
    rw [show (allocA w (cloneStruct (w.getH h))).2.addrOf h' = w.addrOf h' from rfl] at heq
    have := addrOf_lt_nextAddr hwf hm'
    omega
  have hgh2 : (setHandle (allocA w (cloneStruct (w.getH h))).2 h w.nextAddr).getH h =
      cloneStruct (w.getH h) := by
    rw [World.getH, haddr2, store_setHandle, store_allocA_self]
  have hgho2 : (setHandle (allocA w (cloneStruct (w.getH h))).2 h w.nextAddr).getH ho =
      w.getH ho := by
    rw [World.getH, addrOf_setHandle_ne _ (fun hh => hne hh.symm)]
    rw [show (allocA w (cloneStruct (w.getH h))).2.addrOf ho = w.addrOf ho from rfl,
        store_setHandle, store_allocA_ne _ (by have := addrOf_lt_nextAddr hwf hmo; omega)]
    rfl
  have hcons : ∀ k0 ∈ viewKeys ((setHandle (allocA w (cloneStruct (w.getH h))).2 h
      w.nextAddr).getH ho),
      containsS ((setHandle (allocA w (cloneStruct (w.getH h))).2 h w.nextAddr).getH ho) k0 =
        true := by
    intro k0 hk0
    rw [hgho2] at hk0 ⊢
    exact (inv_containsS_iff hinvo).2 hk0
  rw [mergeLoop_g0 h ho
        (viewKeys ((setHandle (allocA w (cloneStruct (w.getH h))).2 h w.nextAddr).getH ho))
        (setHandle (allocA w (cloneStruct (w.getH h))).2 h w.nextAddr) (t + 1)
        hwf2 hmem2 hmo2 (fun hh => hne hh.symm) hexcl2
        (by rw [hgh2]; exact inv_cloneStruct hinvh) hcons]
  dsimp only
  refine ⟨rfl, ?_, ?_⟩
  · rw [getH_setStructOfHandle_self, getH_setStructOfHandle_self]
    rw [hgho2, hgh2, cloneStruct_eq hinvh]
    exact foldl_structInsert_flagReset _ _ _ _
  · have haddrne : (setHandle (allocA w (cloneStruct (w.getH h))).2 h
        w.nextAddr).addrOf ho ≠
        (setHandle (allocA w (cloneStruct (w.getH h))).2 h w.nextAddr).addrOf h :=
      hexcl2 ho (fun hh => hne hh.symm) hmo2
    rw [setStructOfHandle_idem, getH_setStructOfHandle_ne _ haddrne]
    exact hgho2

/-! Frame lemma over all mutating operations. -/

theorem applyMut_frame [Inhabited V] (g : Oracle) (w : World K V) (h : Nat)
    (op : MutOp K V) (t : Nat) (hwf : WF w) (hmem : h ∈ ids w) :
    ∀ h', h' ≠ h → h' ∈ ids w → (applyMut g w h op t).getH h' = w.getH h' := by
  intro h' hne hm'
  rcases op with ⟨k, v⟩ | k | k | k | o | -
  · exact ((insertOp_spec g w h k v t hwf hmem).2.2.2.1 h' hne hm').2
  · exact ((eraseOp_spec g w h k t hwf hmem).2.2.2.1 h' hne hm').2
  · exact ((idxOp_spec g w h k t hwf hmem).2.2.2.1 h' hne hm').2
  · exact ((atMutOp_spec g w h k t hwf hmem).2.2.2.1 h' hne hm').2
  · by_cases ho : h = o
    · rw [show applyMut g w h (MutOp.mrg o) t = (mergeOp g w h o t).2.1 from rfl,
          ho, mergeOp_self]
    · exact ((mergeOp_spec g w h o t hwf hmem ho).2.2.2.1 h' hne hm').2
  · exact ((clearOp_spec g w h t hwf hmem).2.2.2.1 h' hne hm').2

/-! Success of operations under the never-failing oracle. -/

theorem containsS_of_valueAt {σ : MapStruct K V} {k : K} {v : V}
    (hv : valueAt σ k = some v) : containsS σ k = true := by
  rw [valueAt] at hv
  rw [containsS]
  rcases hm : mfind σ.mappings k with - | p
  · rw [hm] at hv
    simp at hv
  · rfl

theorem cowOp_g0_ok [Inhabited V] (w : World K V) (h t : Nat) :
    (cowOp g0 w h t).1 = .ok (w.addrOf h) := by
  rw [cowOp]
  split <;> rfl

theorem insertOp_g0_ok [Inhabited V] (w : World K V) (h : Nat) (k : K) (v : V) (t : Nat) :
    ∃ b, (insertOp g0 w h k v t).1 = .ok b := by
  rcases hc : cowOp g0 w h t with ⟨cr, w1, t1⟩
  have hok := cowOp_g0_ok w h t
  rw [hc] at hok
  rcases cr with e | oldA
  · simp at hok
  rw [insertOp, privateInsertOp, hc]
  dsimp only
  rw [if_neg (by simp [g0]), if_neg (by simp [g0])]
  exact ⟨_, rfl⟩

theorem eraseOp_g0_ok [Inhabited V] (w : World K V) (h : Nat) (k : K) (t : Nat)
    (hcon : containsS (w.getH h) k = true) : (eraseOp g0 w h k t).1 = .ok () := by
  rw [eraseOp, containsOp_g0]
  dsimp only
  rw [if_neg (by rw [hcon]; simp)]
  rcases hc : cowOp g0 w h (t + 1) with ⟨cr, w1, t1⟩
  have hok := cowOp_g0_ok w h (t + 1)
  rw [hc] at hok
  rcases cr with e | oldA
  · simp at hok
  dsimp only
  rw [if_neg (by simp [g0])]

theorem atMutOp_g0_ok [Inhabited V] (w : World K V) (h : Nat) (k : K) (t : Nat)
    (hcon : containsS (w.getH h) k = true) :
    ∃ v1, (atMutOp g0 w h k t).1 = .ok v1 := by
  rw [atMutOp, containsOp_g0]
  dsimp only
  rw [if_neg (by rw [hcon]; simp)]
  rcases hc : cowOp g0 w h (t + 1) with ⟨cr, w1, t1⟩
  have hok := cowOp_g0_ok w h (t + 1)
  rw [hc] at hok
  rcases cr with e | oldA
  · simp at hok
  dsimp only
  rw [if_neg (by simp [g0])]
  exact ⟨_, rfl⟩

theorem clearOp_g0_ok [Inhabited V] (w : World K V) (h : Nat) (t : Nat) :
    (clearOp g0 w h t).1 = .ok () := by
  rcases hc : cowOp g0 w h t with ⟨cr, w1, t1⟩
  have hok := cowOp_g0_ok w h t
  rw [hc] at hok
  rcases cr with e | oldA
  · simp at hok
  rw [clearOp, hc]

theorem idxOp_g0_ok [Inhabited V] (w : World K V) (h : Nat) (k : K) (t : Nat)
    (hwf : WF w) (hmem : h ∈ ids w) (hinv : Inv (w.getH h)) :
    ∃ v1, (idxOp g0 w h k t).1 = .ok v1 := by
  rcases hpi : insertOp g0 w h k default t with ⟨ir, w1, t1⟩
  obtain ⟨b, hb⟩ := insertOp_g0_ok w h k default t
  rw [hpi] at hb
  dsimp only at hb
  subst hb
  have hspec := insertOp_spec g0 w h k default t hwf hmem
  rw [hpi] at hspec
  dsimp only at hspec
  obtain ⟨-, hchar⟩ := (hspec.2.2.2.2.2.2 b rfl).2.2.2 hinv
  have hcon1 : containsS (w1.getH h) k = true :=
    containsS_of_valueAt (by rw [hchar]; exact valueAt_structInsert_self default)
  obtain ⟨v1, hv1⟩ := atMutOp_g0_ok w1 h k t1 hcon1
  rcases ham : atMutOp g0 w1 h k t1 with ⟨ar, w2, t2⟩
  rw [ham] at hv1
  dsimp only at hv1
  subst hv1
  refine ⟨v1, ?_⟩
  rw [idxOp, show privateInsertOp g0 w h k default t = (.ok b, w1, t1) from hpi]
  dsimp only
  rw [ham]

/-! The single default-constructed container. -/

theorem soloWorld_wf (σ : MapStruct K V) : WF (soloWorld σ) := by
  refine ⟨?_, ?_⟩
  · show ([(0, 0)].map Prod.fst).Nodup
    simp
  · intro p hp
    have hp0 : p = (0, 0) := by simpa [soloWorld] using hp
    rw [hp0]
    exact Nat.lt_succ_self 0

theorem soloWorld_mem (σ : MapStruct K V) : 0 ∈ ids (soloWorld σ) := by
  show 0 ∈ [(0, 0)].map Prod.fst
  simp

theorem soloWorld_getH (σ : MapStruct K V) : (soloWorld σ).getH 0 = σ := by
  show Function.update ((fun _ => emptyStruct) : Nat → MapStruct K V) 0 σ 0 = σ
  rw [Function.update_same]

theorem soloWorld_excl (σ : MapStruct K V) : Excl (soloWorld σ) 0 := by
  intro h' hne hm' _
  apply hne
  simpa [ids, soloWorld] using hm'

theorem soloWorld_inv {σ : MapStruct K V} (h : Inv σ) :
    ∀ a, Inv ((soloWorld σ).store a) := by
  intro a
  show Inv (Function.update ((fun _ => emptyStruct) : Nat → MapStruct K V) 0 σ a)
  by_cases ha : a = 0
  · rw [ha, Function.update_same]
    exact h
  · rw [Function.update_noteq ha]
    exact inv_emptyStruct

theorem setStructOfHandle_solo (σ τ : MapStruct K V) :
    setStructOfHandle (soloWorld σ) 0 τ = soloWorld τ := by
  show (⟨Function.update (Function.update (fun _ => emptyStruct) 0 σ) ((soloWorld σ).addrOf 0) τ,
         1, [(0, 0)]⟩ : World K V) = soloWorld τ
  rw [show (soloWorld σ).addrOf 0 = 0 from rfl, Function.update_idem]
  rfl

theorem insertOp_g0_solo [Inhabited V] (σ : MapStruct K V) (k : K) (v : V) (t : Nat) :
    insertOp g0 (soloWorld σ) 0 k v t =
      (.ok (structInsert σ k v).1, soloWorld (structInsert σ k v).2, t + 2) := by
  rw [insertOp_g0_excl (soloWorld σ) 0 k v t (soloWorld_wf σ) (soloWorld_mem σ)
        (soloWorld_excl σ), soloWorld_getH, setStructOfHandle_solo]

/-! Folding a sequence of `insert` calls. -/

/-- The single container after a sequence of `insert(k, v)` calls, together
with the tick counter (each call on an exclusive handle consumes two
ticks). -/
def insertMany [Inhabited V] (pairs : List (K × V)) (wt : World K V × Nat) :
    World K V × Nat :=
  pairs.foldl
    (fun wt p => ((insertOp g0 wt.1 0 p.1 p.2 wt.2).2.1, (insertOp g0 wt.1 0 p.1 p.2 wt.2).2.2))
    wt

/-- The structure after folding `private_insert` over a list of pairs. -/
def structFold (σ : MapStruct K V) (pairs : List (K × V)) : MapStruct K V :=
  pairs.foldl (fun σ p => (structInsert σ p.1 p.2).2) σ

theorem insertMany_solo [Inhabited V] (pairs : List (K × V)) :
    ∀ (σ : MapStruct K V) (t : Nat),
    insertMany pairs (soloWorld σ, t) = (soloWorld (structFold σ pairs), t + 2 * pairs.length) := by
  induction pairs with
  | nil =>
    intro σ t
    rw [insertMany, List.foldl_nil, structFold, List.foldl_nil]
    simp
  | cons p pairs ih =>
    intro σ t
    rw [insertMany, List.foldl_cons]
    dsimp only
    rw [insertOp_g0_solo σ p.1 p.2 t]
    dsimp only
    rw [show List.foldl _ ((soloWorld (structInsert σ p.1 p.2).2 : World K V), t + 2) pairs =
          insertMany pairs (soloWorld (structInsert σ p.1 p.2).2, t + 2) from rfl]
    rw [ih (structInsert σ p.1 p.2).2 (t + 2)]
    rw [show structFold σ (p :: pairs) = structFold (structInsert σ p.1 p.2).2 pairs from rfl]
    have harith : t + 2 + 2 * pairs.length = t + 2 * (p :: pairs).length := by
      rw [List.length_cons]
      ring
    rw [harith]

theorem inv_structFold {σ : MapStruct K V} (h : Inv σ) (pairs : List (K × V)) :
    Inv (structFold σ pairs) := by
  induction pairs generalizing σ with
  | nil => exact h
  | cons p pairs ih =>
    rw [structFold, List.foldl_cons]
    exact ih (inv_structInsert h p.1 p.2)

theorem toFinset_viewKeys_structInsert {σ : MapStruct K V} (hinv : Inv σ) (k : K) (v : V) :
    (viewKeys (structInsert σ k v).2).toFinset = insert k (viewKeys σ).toFinset := by
  rcases hm : mfind σ.mappings k with - | ⟨oldi, v0⟩
  · rw [viewKeys_structInsert_absent v hm]
    simp [List.toFinset_append]
    rw [Finset.union_comm]
    rfl
  · rw [viewKeys_structInsert_present hinv v hm]
    ext x
    simp only [List.toFinset_append, Finset.mem_union, List.mem_toFinset, List.mem_filter,
               Finset.mem_insert, List.mem_singleton]
    constructor
    · rintro (⟨hx, -⟩ | hx)
      · exact Or.inr hx
      · exact Or.inl hx
    · rintro (hx | hx)
      · exact Or.inr hx
      · by_cases hxk : x = k
        · exact Or.inr hxk
        · exact Or.inl ⟨hx, by simpa using hxk⟩

theorem toFinset_viewKeys_structFold {σ : MapStruct K V} (hinv : Inv σ)
    (pairs : List (K × V)) :
    (viewKeys (structFold σ pairs)).toFinset =
      (viewKeys σ).toFinset ∪ (pairs.map Prod.fst).toFinset := by
  induction pairs generalizing σ with
  | nil => simp [structFold]
  | cons p pairs ih =>
    rw [structFold, List.foldl_cons,
        show List.foldl (fun σ p => (structInsert σ p.1 p.2).2) (structInsert σ p.1 p.2).2 pairs
          = structFold (structInsert σ p.1 p.2).2 pairs from rfl,
        ih (inv_structInsert hinv p.1 p.2), toFinset_viewKeys_structInsert hinv p.1 p.2]
    ext x
    simp only [Finset.mem_union, Finset.mem_insert, List.mem_toFinset, List.map_cons,
               List.toFinset_cons]
    tauto

theorem viewKeys_structFold_nodup {σ : MapStruct K V} (hinv : Inv σ)
    (pairs : List (K × V))
    (hdisj : ∀ x ∈ pairs.map Prod.fst, x ∉ viewKeys σ)
    (hnd : (pairs.map Prod.fst).Nodup) :
    viewKeys (structFold σ pairs) = viewKeys σ ++ pairs.map Prod.fst := by
  induction pairs generalizing σ with
  | nil => simp [structFold]
  | cons p pairs ih =>
    have hk : p.1 ∉ viewKeys σ :=
      hdisj p.1 (by simp)
    have hm : mfind σ.mappings p.1 = none := by
      rcases hmm : mfind σ.mappings p.1 with - | q
      · rfl
      · exact absurd ((inv_containsS_iff hinv).1 (by rw [containsS, hmm]; rfl)) hk
    rw [structFold, List.foldl_cons,
        show List.foldl (fun σ p => (structInsert σ p.1 p.2).2) (structInsert σ p.1 p.2).2 pairs
          = structFold (structInsert σ p.1 p.2).2 pairs from rfl]
    rw [List.map_cons] at hnd
    have hnd2 := (List.nodup_cons.1 hnd)
    rw [ih (inv_structInsert hinv p.1 p.2) ?hd hnd2.2]
    · rw [viewKeys_structInsert_absent p.2 hm, List.map_cons, List.append_assoc]
      rfl
    case hd =>
      intro x hx
      rw [viewKeys_structInsert_absent p.2 hm]
      intro hmem
      rcases List.mem_append.1 hmem with hmem | hmem
      · exact hdisj x (by simp [hx]) hmem
      · simp only [List.mem_singleton] at hmem
        exact hnd2.1 (hmem ▸ hx)

/-! Small observable-level lemmas and `g0` lookup computations. -/

theorem viewKeys_flag (σ : MapStruct K V) (b : Bool) :
    viewKeys { σ with non_const_refs_given := b } = viewKeys σ := rfl

theorem valueAt_flag (σ : MapStruct K V) (b : Bool) (k : K) :
    valueAt { σ with non_const_refs_given := b } k = valueAt σ k := rfl

theorem structErase_flag {σ : MapStruct K V} {k : K} {p : Nat × V}
    (hm : mfind σ.mappings k = some p) :
    (structErase σ k).non_const_refs_given = false := by
  rcases p with ⟨i, v0⟩
  simp [structErase, hm]

theorem eraseOp_g0_absent [Inhabited V] {w : World K V} {h : Nat} {k : K} (t : Nat)
    (hcon : containsS (w.getH h) k = false) :
    eraseOp g0 w h k t = (.error .lookup, w, t + 1) := by
  rw [eraseOp, containsOp_g0]
  dsimp only
  rw [hcon]
  rfl

theorem atMutOp_g0_absent [Inhabited V] {w : World K V} {h : Nat} {k : K} (t : Nat)
    (hcon : containsS (w.getH h) k = false) :
    atMutOp g0 w h k t = (.error .lookup, w, t + 1) := by
  rw [atMutOp, containsOp_g0]
  dsimp only
  rw [hcon]
  rfl

/-! All public operations, for the reachability statement. -/

/-- The public operations a handle exposes. -/
inductive AnyOp (K V : Type) where
  | mut (op : MutOp K V)
  | copyC (newh : Nat)
  | assign (srch : Nat)
  | qsize
  | qempty
  | qbegin
  | qcontains (k : K)
  | qatC (k : K)

/-- The world after a public operation ran on handle `h` (`copyC` constructs
handle `newh` as a copy of `h`; `assign` runs `h = srch`). -/
def applyAny [Inhabited V] (g : Oracle) (w : World K V) (h : Nat) (op : AnyOp K V)
    (t : Nat) : World K V :=
  match op with
  | .mut m => applyMut g w h m t
  | .copyC newh => (copyCtorOp g w newh h t).2.1
  | .assign srch => (assignOp g w h srch t).2.1
  | .qsize => (sizeOp w h).2
  | .qempty => (emptyOp w h).2
  | .qbegin => (beginOp w h).2
  | .qcontains k => (containsOp g w h k t).2.1
  | .qatC k => (atConstOp g w h k t).2.1

theorem copyCtorOp_inv [Inhabited V] (g : Oracle) (w : World K V) (newh srch t : Nat)
    (hi : ∀ a, Inv (w.store a)) :
    ∀ a, Inv ((copyCtorOp g w newh srch t).2.1.store a) := by
  rw [copyCtorOp]
  split
  · split
    · exact hi
    · intro a
      show Inv ((allocA w (cloneStruct (w.getH srch))).2.store a)
      by_cases ha : a = w.nextAddr
      · rw [ha, store_allocA_self]
        exact inv_cloneStruct (hi _)
      · rw [store_allocA_ne _ ha]
        exact hi a
  · exact hi

theorem assignOp_inv [Inhabited V] (g : Oracle) (w : World K V) (dsth srch t : Nat)
    (hi : ∀ a, Inv (w.store a)) :
    ∀ a, Inv ((assignOp g w dsth srch t).2.1.store a) := by
  rw [assignOp]
  split
  · split
    · exact hi
    · intro a
      rw [show ((.ok (),
            setHandle (allocA w (cloneStruct (w.getH srch))).2 dsth
              (allocA w (cloneStruct (w.getH srch))).1, t + 1) :
            Except Err Unit × World K V × Nat).2.1.store = 
            (allocA w (cloneStruct (w.getH srch))).2.store from rfl]
      by_cases ha : a = w.nextAddr
      · rw [ha, store_allocA_self]
        exact inv_cloneStruct (hi _)
      · rw [store_allocA_ne _ ha]
        exact hi a
  · exact hi

/-! Concrete containers used as witnesses and counterexamples. -/

/-- A container holding key 0 ↦ 10 (inserted first) and key 1 ↦ 11. -/
def cexStruct : MapStruct Nat Nat := (structInsert (structInsert emptyStruct 0 10).2 1 11).2

/-- A single handle owning `cexStruct`. -/
def cexWorld : World Nat Nat := soloWorld cexStruct

/-- An oracle making the third fallible primitive throw (the hash lookup
inside `at` after the reinsert of `operator[]` on an existing key). -/
def cexOracle : Oracle := fun n => decide (n = 2)

/-- The same container with the escape flag raised. -/
def cexStructF : MapStruct Nat Nat := { cexStruct with non_const_refs_given := true }

/-- A single handle owning `cexStructF`. -/
def cexWorldF : World Nat Nat := soloWorld cexStructF

/-- The contents `{100 ↦ 1}`. -/
def cexA : MapStruct Nat Nat := (structInsert emptyStruct 100 1).2

/-- The contents `{100 ↦ 2, 101 ↦ 3}`, inserted in that order. -/
def cexB : MapStruct Nat Nat := (structInsert (structInsert emptyStruct 100 2).2 101 3).2

/-- Two handles 0 and 1 owning `cexA` and `cexB` respectively. -/
def cexW2 : World Nat Nat :=
  ⟨Function.update (Function.update (fun _ => emptyStruct) 0 cexA) 1 cexB, 2, [(0, 0), (1, 1)]⟩

theorem cexStruct_inv : Inv cexStruct :=
  inv_structInsert (inv_structInsert inv_emptyStruct 0 10) 1 11

theorem cexWorld_inv0 : Inv (cexWorld.getH 0) := by
  rw [show cexWorld.getH 0 = cexStruct from soloWorld_getH cexStruct]
  exact cexStruct_inv

theorem cexWorldF_inv0 : Inv (cexWorldF.getH 0) := by
  rw [show cexWorldF.getH 0 = cexStructF from soloWorld_getH cexStructF]
  exact inv_setFlag cexStruct_inv true

theorem cexW2_wf : WF cexW2 := ⟨by decide, by decide⟩

theorem cexW2_inv0 : Inv (cexW2.getH 0) := by
  rw [show cexW2.getH 0 = cexA by decide]
  exact inv_structInsert inv_emptyStruct 100 1

theorem cexW2_inv1 : Inv (cexW2.getH 1) := by
  rw [show cexW2.getH 1 = cexB by decide]
  exact inv_structInsert (inv_structInsert inv_emptyStruct 100 2) 101 3

/-! The claims. -/

/-- C1: copying a container (by copy construction or by copy assignment) and
then running any single mutating operation (insert, erase, operator[],
mutable at, merge, clear) on exactly one of the two handles leaves the other
handle's Shared State — hence its size, contents and iteration order —
unchanged, whether the copy initially shared or cloned. -/
theorem claim1_copy_isolation [Inhabited V] (g g2 : Oracle) (w : World K V)
    (a b t t2 : Nat) (op : MutOp K V) (hwf : WF w) (ha : a ∈ ids w) :
    (b ∉ ids w → (copyCtorOp g w b a t).1 = .ok () →
      (applyMut g2 (copyCtorOp g w b a t).2.1 a op t2).getH b =
        (copyCtorOp g w b a t).2.1.getH b ∧
      (applyMut g2 (copyCtorOp g w b a t).2.1 b op t2).getH a =
        (copyCtorOp g w b a t).2.1.getH a) ∧
    (b ∈ ids w → b ≠ a → (assignOp g w b a t).1 = .ok () →
      (applyMut g2 (assignOp g w b a t).2.1 a op t2).getH b =
        (assignOp g w b a t).2.1.getH b ∧
      (applyMut g2 (assignOp g w b a t).2.1 b op t2).getH a =
        (assignOp g w b a t).2.1.getH a) := by
  constructor
  · intro hb hok
    obtain ⟨hwf1, hids1, -, -, -, -⟩ := (copyCtorOp_spec g w b a t hwf ha hb).2 hok
    have hab : a ≠ b := fun hh => hb (hh ▸ ha)
    have hmema : a ∈ ids (copyCtorOp g w b a t).2.1 := by
      rw [hids1]
      exact List.mem_append.2 (Or.inl ha)
    have hmemb : b ∈ ids (copyCtorOp g w b a t).2.1 := by
      rw [hids1]
      exact List.mem_append.2 (Or.inr (by simp))
    exact ⟨applyMut_frame g2 _ a op t2 hwf1 hmema b (Ne.symm hab) hmemb,
           applyMut_frame g2 _ b op t2 hwf1 hmemb a hab hmema⟩
  · intro hb hba hok
    obtain ⟨hwf1, hids1, -, -, -, -⟩ := (assignOp_spec g w b a t hwf ha hb).2 hok
    have hmema : a ∈ ids (assignOp g w b a t).2.1 := by
      rw [hids1]
      exact ha
    have hmemb : b ∈ ids (assignOp g w b a t).2.1 := by
      rw [hids1]
      exact hb
    exact ⟨applyMut_frame g2 _ a op t2 hwf1 hmema b hba hmemb,
           applyMut_frame g2 _ b op t2 hwf1 hmemb a (Ne.symm hba) hmema⟩

/-- C1 witness: handle 0 owns the two-key container; a copy constructed as
handle 1 succeeds, and an insert through either handle leaves the other's
Shared State unchanged. -/
theorem claim1_copy_isolation_witness :
    WF cexWorld ∧ (0 : Nat) ∈ ids cexWorld ∧ (1 : Nat) ∉ ids cexWorld ∧
    (copyCtorOp g0 cexWorld 1 0 0).1 = .ok () ∧
    ((applyMut g0 (copyCtorOp g0 cexWorld 1 0 0).2.1 0 (MutOp.ins 5 55) 0).getH 1 =
       (copyCtorOp g0 cexWorld 1 0 0).2.1.getH 1 ∧
     (applyMut g0 (copyCtorOp g0 cexWorld 1 0 0).2.1 1 (MutOp.ins 5 55) 0).getH 0 =
       (copyCtorOp g0 cexWorld 1 0 0).2.1.getH 0) :=
  ⟨soloWorld_wf _, soloWorld_mem _, by decide, rfl,
   (claim1_copy_isolation g0 g0 cexWorld 0 1 0 0 (MutOp.ins 5 55) (soloWorld_wf _)
      (soloWorld_mem _)).1 (by decide) rfl⟩

/-- C2 counterexample: on the container with iteration order
[(0, 10), (1, 11)], `operator[](0)` with a failure injected at the hash
lookup following the internal reinsert propagates the error, yet key 0 has
been moved to the end of iteration order: the pre-call observable state is
not restored, refuting the unrestricted strong guarantee. -/
theorem claim2_strong_guarantee_cex :
    (idxOp cexOracle cexWorld 0 0 0).1 = .error .fail ∧
    view ((idxOp cexOracle cexWorld 0 0 0).2.1.getH 0) = [(1, some 11), (0, some 10)] ∧
    view (cexWorld.getH 0) = [(0, some 10), (1, some 11)] ∧
    view ((idxOp cexOracle cexWorld 0 0 0).2.1.getH 0) ≠ view (cexWorld.getH 0) :=
  ⟨rfl, by decide, by decide, by decide⟩

/-- C2 (amended): a failed `insert`, `erase`, mutable `at`, `clear` or
`merge` leaves the observable state (keys in iteration order with their
values) exactly as before the call; a failed `operator[]` either does the
same or — only when the key was already present — leaves the state that the
internal reinsert of that key produced, i.e. the key moved to the end of
iteration order with value and size preserved. -/
theorem claim2_strong_guarantee_amended [Inhabited V] (g : Oracle) (w : World K V)
    (h t : Nat) (hwf : WF w) (hmem : h ∈ ids w) (hinv : Inv (w.getH h)) :
    (∀ (k : K) (v : V) e, (insertOp g w h k v t).1 = .error e →
      view ((insertOp g w h k v t).2.1.getH h) = view (w.getH h)) ∧
    (∀ (k : K) e, (eraseOp g w h k t).1 = .error e →
      view ((eraseOp g w h k t).2.1.getH h) = view (w.getH h)) ∧
    (∀ (k : K) e, (atMutOp g w h k t).1 = .error e →
      view ((atMutOp g w h k t).2.1.getH h) = view (w.getH h)) ∧
    (∀ e, (clearOp g w h t).1 = .error e →
      view ((clearOp g w h t).2.1.getH h) = view (w.getH h)) ∧
    (∀ ho e, (mergeOp g w h ho t).1 = .error e →
      view ((mergeOp g w h ho t).2.1.getH h) = view (w.getH h)) ∧
    (∀ (k : K) e, (idxOp g w h k t).1 = .error e →
      view ((idxOp g w h k t).2.1.getH h) = view (w.getH h) ∨
      (containsS (w.getH h) k = true ∧
       view ((idxOp g w h k t).2.1.getH h) =
         view ((structInsert (w.getH h) k default).2))) := by
  refine ⟨?_, ?_, ?_, ?_, ?_, ?_⟩
  · intro k v e he
    exact (insertOp_spec g w h k v t hwf hmem).2.2.2.2.2.1 e he
  · intro k e he
    rw [(eraseOp_spec g w h k t hwf hmem).2.2.2.2.2.1 e he]
  · intro k e he
    exact (atMutOp_spec g w h k t hwf hmem).2.2.2.2.2.1 e he
  · intro e he
    rw [(clearOp_spec g w h t hwf hmem).2.2.2.2.2.1 e he]
  · intro ho e he
    by_cases hos : ho = h
    · subst hos
      rw [mergeOp_self] at he
      simp at he
    · rw [(mergeOp_spec g w h ho t hwf hmem (fun hh => hos hh.symm)).2.2.2.2.2.1 e he]
  · intro k e he
    exact (idxOp_spec g w h k t hwf hmem).2.2.2.2.2.1 hinv e he

/-- C2 (amended) witness: on the concrete failing `operator[]` run of the
counterexample, the amended theorem pins the post-failure state to that of
the internal reinsert of the present key 0. -/
theorem claim2_strong_guarantee_amended_witness :
    WF cexWorld ∧ (0 : Nat) ∈ ids cexWorld ∧ Inv (cexWorld.getH 0) ∧
    (containsS (cexWorld.getH 0) 0 = true ∧
     view ((idxOp cexOracle cexWorld 0 0 0).2.1.getH 0) =
       view ((structInsert (cexWorld.getH 0) 0 (default : Nat)).2)) := by
  refine ⟨soloWorld_wf _, soloWorld_mem _, cexWorld_inv0, ?_⟩
  have hc := (claim2_strong_guarantee_amended cexOracle cexWorld 0 0 (soloWorld_wf _)
      (soloWorld_mem _) cexWorld_inv0).2.2.2.2.2 0 Err.fail rfl
  rcases hc with hv | hc
  · exact absurd hv (by decide)
  · exact hc

/-- C3: a successful `insert(k, v)` on a key already stored with value v0
returns false, keeps the stored value v0 (the new value is discarded), moves
k to the last position of iteration order and keeps the size; on an absent
key it returns true and appends k at the last position, growing the size by
one; values of other keys are untouched in both cases. -/
theorem claim3_insert_semantics [Inhabited V] (g : Oracle) (w : World K V) (h : Nat)
    (k : K) (v : V) (t : Nat) (b : Bool) (hwf : WF w) (hmem : h ∈ ids w)
    (hinv : Inv (w.getH h)) (hok : (insertOp g w h k v t).1 = .ok b) :
    (∀ v0, valueAt (w.getH h) k = some v0 →
      b = false ∧
      valueAt ((insertOp g w h k v t).2.1.getH h) k = some v0 ∧
      viewKeys ((insertOp g w h k v t).2.1.getH h) =
        (viewKeys (w.getH h)).filter (fun x => x ≠ k) ++ [k] ∧
      sizeS ((insertOp g w h k v t).2.1.getH h) = sizeS (w.getH h)) ∧
    (valueAt (w.getH h) k = none →
      b = true ∧
      valueAt ((insertOp g w h k v t).2.1.getH h) k = some v ∧
      viewKeys ((insertOp g w h k v t).2.1.getH h) = viewKeys (w.getH h) ++ [k] ∧
      sizeS ((insertOp g w h k v t).2.1.getH h) = sizeS (w.getH h) + 1) ∧
    (∀ k', k' ≠ k → valueAt ((insertOp g w h k v t).2.1.getH h) k' =
      valueAt (w.getH h) k') := by
  obtain ⟨-, -, -, hchar⟩ := (insertOp_spec g w h k v t hwf hmem).2.2.2.2.2.2 b hok
  obtain ⟨hb, hgetH⟩ := hchar hinv
  refine ⟨?_, ?_, ?_⟩
  · intro v0 hv0
    have hm : ∃ i, mfind (w.getH h).mappings k = some (i, v0) := by
      rw [valueAt] at hv0
      rcases hmm : mfind (w.getH h).mappings k with - | ⟨i, vv⟩
      · rw [hmm] at hv0
        simp at hv0
      · rw [hmm] at hv0
        simp at hv0
        exact ⟨i, by rw [← hv0]⟩
    obtain ⟨i, hm⟩ := hm
    refine ⟨?_, ?_, ?_, ?_⟩
    · rw [hb, structInsert_present v hm]
    · rw [hgetH, valueAt_structInsert_self, hv0]
      rfl
    · rw [hgetH]
      exact viewKeys_structInsert_present hinv v hm
    · rw [hgetH]
      exact sizeS_structInsert_present hinv v hm
  · intro hnone
    have hm : mfind (w.getH h).mappings k = none := by
      rw [valueAt] at hnone
      rcases hmm : mfind (w.getH h).mappings k with - | p
      · rfl
      · rw [hmm] at hnone
        simp at hnone
    refine ⟨?_, ?_, ?_, ?_⟩
    · rw [hb, structInsert_absent v hm]
    · rw [hgetH, valueAt_structInsert_self, hnone]
      rfl
    · rw [hgetH]
      exact viewKeys_structInsert_absent v hm
    · rw [hgetH]
      exact sizeS_structInsert_absent v hm
  · intro k' hk'
    rw [hgetH]
    exact valueAt_structInsert_ne v hk'

/-- C3 witness: reinserting the present key 0 with a new value 99 into the
two-key container reports false, keeps the stored value 10, moves key 0 to
the end of iteration order and keeps the size. -/
theorem claim3_insert_semantics_witness :
    WF cexWorld ∧ (0 : Nat) ∈ ids cexWorld ∧ Inv (cexWorld.getH 0) ∧
    (insertOp g0 cexWorld 0 0 99 0).1 = .ok false ∧
    valueAt (cexWorld.getH 0) 0 = some 10 ∧
    (false = false ∧
     valueAt ((insertOp g0 cexWorld 0 0 99 0).2.1.getH 0) 0 = some 10 ∧
     viewKeys ((insertOp g0 cexWorld 0 0 99 0).2.1.getH 0) =
       (viewKeys (cexWorld.getH 0)).filter (fun x => x ≠ 0) ++ [0] ∧
     sizeS ((insertOp g0 cexWorld 0 0 99 0).2.1.getH 0) = sizeS (cexWorld.getH 0)) :=
  ⟨soloWorld_wf _, soloWorld_mem _, cexWorld_inv0, rfl, by decide,
   (claim3_insert_semantics g0 cexWorld 0 0 99 0 false (soloWorld_wf _) (soloWorld_mem _)
      cexWorld_inv0 rfl).1 10 (by decide)⟩

/-- C4: running any sequence of `insert` calls (never-failing oracle, so all
succeed) on a freshly default-constructed container yields the fold of the
per-call insert behavior; the resulting size equals the number of distinct
keys inserted, and when all inserted keys are distinct the iteration order
is exactly the insertion order. -/
theorem claim4_insert_sequence [Inhabited V] (pairs : List (K × V)) :
    (insertMany pairs (soloWorld (emptyStruct : MapStruct K V), 0)).1.getH 0 =
      structFold emptyStruct pairs ∧
    sizeS ((insertMany pairs (soloWorld (emptyStruct : MapStruct K V), 0)).1.getH 0) =
      (pairs.map Prod.fst).dedup.length ∧
    ((pairs.map Prod.fst).Nodup →
      viewKeys ((insertMany pairs (soloWorld (emptyStruct : MapStruct K V), 0)).1.getH 0) =
        pairs.map Prod.fst) := by
  have hfold := insertMany_solo pairs (emptyStruct : MapStruct K V) 0
  have hgw : (insertMany pairs (soloWorld (emptyStruct : MapStruct K V), 0)).1.getH 0 =
      structFold emptyStruct pairs := by
    rw [hfold]
    exact soloWorld_getH _
  refine ⟨hgw, ?_, ?_⟩
  · rw [hgw]
    have hinvf : Inv (structFold (emptyStruct : MapStruct K V) pairs) :=
      inv_structFold inv_emptyStruct pairs
    have hnd : (viewKeys (structFold (emptyStruct : MapStruct K V) pairs)).Nodup :=
      inv_viewKeys_nodup hinvf
    have hlen : sizeS (structFold (emptyStruct : MapStruct K V) pairs) =
        (viewKeys (structFold (emptyStruct : MapStruct K V) pairs)).length :=
      (List.length_map _ _).symm
    rw [hlen, ← List.toFinset_card_of_nodup hnd,
        toFinset_viewKeys_structFold inv_emptyStruct pairs,
        show viewKeys (emptyStruct : MapStruct K V) = ([] : List K) from rfl,
        List.toFinset_nil, Finset.empty_union, List.card_toFinset]
  · intro hnd
    rw [hgw, viewKeys_structFold_nodup inv_emptyStruct pairs
          (fun x hx => List.not_mem_nil x) hnd]
    exact List.nil_append _

/-- C4 witness: inserting the two distinct keys 3 and 4 from empty yields
iteration order [3, 4]. -/
theorem claim4_insert_sequence_witness :
    (([(3, 30), (4, 40)] : List (Nat × Nat)).map Prod.fst).Nodup ∧
    viewKeys ((insertMany ([(3, 30), (4, 40)] : List (Nat × Nat))
        (soloWorld (emptyStruct : MapStruct Nat Nat), 0)).1.getH 0) =
      ([(3, 30), (4, 40)] : List (Nat × Nat)).map Prod.fst :=
  ⟨by decide, (claim4_insert_sequence [(3, 30), (4, 40)]).2.2 (by decide)⟩

/-- C5: `erase`, mutable `at` and read-only `at` fail with `lookup_error`
exactly when the key is absent — when they raise it the key was absent and
the world is completely unchanged, on an absent key (never-failing oracle)
they do raise it, and on a present key they succeed. -/
theorem claim5_lookup_errors [Inhabited V] (g : Oracle) (w : World K V) (h : Nat)
    (k : K) (t : Nat) (hwf : WF w) (hmem : h ∈ ids w) :
    ((eraseOp g w h k t).1 = .error .lookup →
      containsS (w.getH h) k = false ∧ (eraseOp g w h k t).2.1 = w) ∧
    ((atMutOp g w h k t).1 = .error .lookup →
      containsS (w.getH h) k = false ∧ (atMutOp g w h k t).2.1 = w) ∧
    ((atConstOp g w h k t).1 = .error .lookup →
      containsS (w.getH h) k = false ∧ (atConstOp g w h k t).2.1 = w) ∧
    (containsS (w.getH h) k = false →
      (eraseOp g0 w h k t).1 = .error .lookup ∧
      (atMutOp g0 w h k t).1 = .error .lookup ∧
      (atConstOp g0 w h k t).1 = .error .lookup) ∧
    (containsS (w.getH h) k = true →
      (eraseOp g0 w h k t).1 = .ok () ∧
      (∃ v1, (atMutOp g0 w h k t).1 = .ok v1) ∧
      (atConstOp g0 w h k t).1 = .ok ((valueAt (w.getH h) k).getD default)) := by
  refine ⟨?_, ?_, ?_, ?_, ?_⟩
  · exact (eraseOp_spec g w h k t hwf hmem).2.2.2.2.2.2.1
  · exact (atMutOp_spec g w h k t hwf hmem).2.2.2.2.2.2.1
  · exact fun he => ⟨atConstOp_lookup he, atConstOp_world g w h k t⟩
  · intro hcon
    refine ⟨?_, ?_, ?_⟩
    · rw [eraseOp_g0_absent t hcon]
    · rw [atMutOp_g0_absent t hcon]
    · rw [atConstOp_g0_absent t hcon]
  · intro hcon
    refine ⟨eraseOp_g0_ok w h k t hcon, atMutOp_g0_ok w h k t hcon, ?_⟩
    rw [atConstOp_g0 t hcon]

/-- C5 witness: key 5 is absent from the two-key container, so all three
lookup operations raise `lookup_error` under the never-failing oracle. -/
theorem claim5_lookup_errors_witness :
    WF cexWorld ∧ (0 : Nat) ∈ ids cexWorld ∧
    containsS (cexWorld.getH 0) 5 = false ∧
    ((eraseOp g0 cexWorld 0 5 0).1 = .error .lookup ∧
     (atMutOp g0 cexWorld 0 5 0).1 = .error .lookup ∧
     (atConstOp g0 cexWorld 0 5 0).1 = .error .lookup) :=
  ⟨soloWorld_wf _, soloWorld_mem _, by decide,
   (claim5_lookup_errors g0 cexWorld 0 5 0 (soloWorld_wf _)
      (soloWorld_mem _)).2.2.2.1 (by decide)⟩

/-- C6: `operator[](k)` under the never-failing oracle succeeds and returns
the stored value when k is present (value unchanged, but k moved to the
most-recently-inserted position) or a default-constructed value when k is
absent (k appended at the last position); in both cases the escape flag is
set on the resulting Shared State and other keys are untouched. -/
theorem claim6_indexed_access [Inhabited V] (w : World K V) (h : Nat) (k : K) (t : Nat)
    (hwf : WF w) (hmem : h ∈ ids w) (hinv : Inv (w.getH h)) :
    (idxOp g0 w h k t).1 = .ok ((valueAt (w.getH h) k).getD default) ∧
    ((idxOp g0 w h k t).2.1.getH h).non_const_refs_given = true ∧
    (valueAt (w.getH h) k = none →
      valueAt ((idxOp g0 w h k t).2.1.getH h) k = some default ∧
      viewKeys ((idxOp g0 w h k t).2.1.getH h) = viewKeys (w.getH h) ++ [k]) ∧
    (∀ v0, valueAt (w.getH h) k = some v0 →
      valueAt ((idxOp g0 w h k t).2.1.getH h) k = some v0 ∧
      viewKeys ((idxOp g0 w h k t).2.1.getH h) =
        (viewKeys (w.getH h)).filter (fun x => x ≠ k) ++ [k]) ∧
    (∀ k', k' ≠ k →
      valueAt ((idxOp g0 w h k t).2.1.getH h) k' = valueAt (w.getH h) k') := by
  obtain ⟨v1, hv1⟩ := idxOp_g0_ok w h k t hwf hmem hinv
  obtain ⟨hval, hgetH⟩ := (idxOp_spec g0 w h k t hwf hmem).2.2.2.2.2.2 v1 hv1 hinv
  refine ⟨?_, ?_, ?_, ?_, ?_⟩
  · rw [hv1, hval]
  · rw [hgetH]
  · intro hnone
    have hm : mfind (w.getH h).mappings k = none := by
      rw [valueAt] at hnone
      rcases hmm : mfind (w.getH h).mappings k with - | p
      · rfl
      · rw [hmm] at hnone
        simp at hnone
    constructor
    · rw [hgetH, valueAt_flag, valueAt_structInsert_self, hnone]
      rfl
    · rw [hgetH, viewKeys_flag]
      exact viewKeys_structInsert_absent default hm
  · intro v0 hv0
    have hm : ∃ i, mfind (w.getH h).mappings k = some (i, v0) := by
      rw [valueAt] at hv0
      rcases hmm : mfind (w.getH h).mappings k with - | ⟨i, vv⟩
      · rw [hmm] at hv0
        simp at hv0
      · rw [hmm] at hv0
        simp at hv0
        exact ⟨i, by rw [← hv0]⟩
    obtain ⟨i, hm⟩ := hm
    constructor
    · rw [hgetH, valueAt_flag, valueAt_structInsert_self, hv0]
      rfl
    · rw [hgetH, viewKeys_flag]
      exact viewKeys_structInsert_present hinv default hm
  · intro k' hk'
    rw [hgetH, valueAt_flag]
    exact valueAt_structInsert_ne default hk'

/-- C6 witness: `operator[](1)` on the two-key container returns the stored
value 11 and sets the escape flag. -/
theorem claim6_indexed_access_witness :
    WF cexWorld ∧ (0 : Nat) ∈ ids cexWorld ∧ Inv (cexWorld.getH 0) ∧
    (idxOp g0 cexWorld 0 1 0).1 = .ok ((valueAt (cexWorld.getH 0) 1).getD default) ∧
    ((idxOp g0 cexWorld 0 1 0).2.1.getH 0).non_const_refs_given = true :=
  ⟨soloWorld_wf _, soloWorld_mem _, cexWorld_inv0,
   (claim6_indexed_access cexWorld 0 1 0 (soloWorld_wf _) (soloWorld_mem _)
      cexWorld_inv0).1,
   (claim6_indexed_access cexWorld 0 1 0 (soloWorld_wf _) (soloWorld_mem _)
      cexWorld_inv0).2.1⟩

/-- C7: `merge` with the same handle is a no-op leaving the world untouched;
merging a distinct handle (never-failing oracle) succeeds, leaves the other
container unchanged, and replaces this container by the fold of the insert
behavior over the other container's keys in its insertion order with its
stored values — present keys keep this container's value but are reordered,
new keys are appended with the other's value. -/
theorem claim7_merge_semantics [Inhabited V] (g : Oracle) (w : World K V)
    (h ho t : Nat) (hwf : WF w) (hm : h ∈ ids w) (hmo : ho ∈ ids w) (hne : h ≠ ho)
    (hinvh : Inv (w.getH h)) (hinvo : Inv (w.getH ho)) :
    mergeOp g w h h t = (.ok (), w, t) ∧
    (mergeOp g0 w h ho t).1 = .ok () ∧
    (mergeOp g0 w h ho t).2.1.getH h =
      { (viewKeys (w.getH ho)).foldl
          (fun σ k0 => (structInsert σ k0 ((valueAt (w.getH ho) k0).getD default)).2)
          (w.getH h) with non_const_refs_given := false } ∧
    (mergeOp g0 w h ho t).2.1.getH ho = w.getH ho :=
  ⟨mergeOp_self g w h t, (mergeOp_g0 w h ho t hwf hm hmo hne hinvh hinvo).1,
   (mergeOp_g0 w h ho t hwf hm hmo hne hinvh hinvo).2.1,
   (mergeOp_g0 w h ho t hwf hm hmo hne hinvh hinvo).2.2⟩

/-- C7 witness: the spec example — a = {100 ↦ 1} merged with b of order
[100, 101] and values {100 ↦ 2, 101 ↦ 3} yields a with order [100, 101],
key 100 keeping value 1 and key 101 receiving b's value 3; b is unchanged. -/
theorem claim7_merge_semantics_witness :
    WF cexW2 ∧ (0 : Nat) ∈ ids cexW2 ∧ (1 : Nat) ∈ ids cexW2 ∧ (0 : Nat) ≠ 1 ∧
    Inv (cexW2.getH 0) ∧ Inv (cexW2.getH 1) ∧
    ((mergeOp g0 cexW2 0 1 0).1 = .ok () ∧
     view ((mergeOp g0 cexW2 0 1 0).2.1.getH 0) = [(100, some 1), (101, some 3)] ∧
     (mergeOp g0 cexW2 0 1 0).2.1.getH 1 = cexW2.getH 1) := by
  have hmg := claim7_merge_semantics g0 cexW2 0 1 0 cexW2_wf (by decide) (by decide)
    (by decide) cexW2_inv0 cexW2_inv1
  refine ⟨cexW2_wf, by decide, by decide, by decide, cexW2_inv0, cexW2_inv1,
          hmg.2.1, ?_, hmg.2.2.2⟩
  rw [hmg.2.2.1]
  decide

/-- C8: the structural invariant — equal sizes of the order sequence and the
index, every index entry resolving to an order slot holding its key, no two
index entries sharing a slot — holds of the initial Shared State, is
preserved by every public operation (mutators, copy construction, copy
assignment and all queries), and is preserved by cloning. -/
theorem claim8_shared_state_invariant [Inhabited V] (g : Oracle) (w : World K V)
    (h : Nat) (op : AnyOp K V) (t : Nat) (hwf : WF w) (hmem : h ∈ ids w)
    (hi : ∀ a, Inv (w.store a)) :
    (∀ a, Inv ((applyAny g w h op t).store a)) ∧
    (∀ a, Inv ((soloWorld (emptyStruct : MapStruct K V)).store a)) ∧
    (∀ σ : MapStruct K V, Inv σ →
      sizeS σ = σ.mappings.length ∧
      (∀ e ∈ σ.mappings, (e.2.1, e.1) ∈ σ.insertions) ∧
      (∀ e1 ∈ σ.mappings, ∀ e2 ∈ σ.mappings, e1.2.1 = e2.2.1 → e1 = e2) ∧
      Inv (cloneStruct σ)) := by
  refine ⟨?_, fun a => soloWorld_inv inv_emptyStruct a, ?_⟩
  · rcases op with m | newh | srch | - | - | - | k | k
    · rcases m with ⟨k, v⟩ | k | k | k | o | -
      · exact (insertOp_spec g w h k v t hwf hmem).2.2.2.2.1 hi
      · exact (eraseOp_spec g w h k t hwf hmem).2.2.2.2.1 hi
      · exact (idxOp_spec g w h k t hwf hmem).2.2.2.2.1 hi
      · exact (atMutOp_spec g w h k t hwf hmem).2.2.2.2.1 hi
      · by_cases hoo : h = o
        · intro a
          rw [show applyAny g w h (AnyOp.mut (MutOp.mrg o)) t = (mergeOp g w h o t).2.1
                from rfl, hoo, mergeOp_self]
          exact hi a
        · exact (mergeOp_spec g w h o t hwf hmem hoo).2.2.2.2.1 hi
      · exact (clearOp_spec g w h t hwf hmem).2.2.2.2.1 hi
    · exact copyCtorOp_inv g w newh h t hi
    · exact assignOp_inv g w h srch t hi
    · exact hi
    · exact hi
    · exact hi
    · intro a
      rw [show applyAny g w h (AnyOp.qcontains k) t = (containsOp g w h k t).2.1 from rfl,
          containsOp_world]
      exact hi a
    · intro a
      rw [show applyAny g w h (AnyOp.qatC k) t = (atConstOp g w h k t).2.1 from rfl,
          atConstOp_world]
      exact hi a
  · intro σ hσ
    exact ⟨hσ.2.2.1, hσ.2.2.2.1,
           fun e1 h1 e2 h2 h12 => inv_slot_unique hσ h1 h2 h12,
           inv_cloneStruct hσ⟩

/-- C8 witness: a concrete insert through the single handle of the two-key
container keeps every stored Shared State invariant-satisfying. -/
theorem claim8_shared_state_invariant_witness :
    WF cexWorld ∧ (0 : Nat) ∈ ids cexWorld ∧
    (∀ a, Inv (cexWorld.store a)) ∧
    (∀ a, Inv ((applyAny g0 cexWorld 0 (AnyOp.mut (MutOp.ins 7 70)) 0).store a)) :=
  ⟨soloWorld_wf _, soloWorld_mem _, soloWorld_inv cexStruct_inv,
   (claim8_shared_state_invariant g0 cexWorld 0 (AnyOp.mut (MutOp.ins 7 70)) 0
      (soloWorld_wf _) (soloWorld_mem _) (soloWorld_inv cexStruct_inv)).1⟩

/-- C9: `size()`, `empty()`, obtaining and walking `begin()`..`end()`,
`contains(k)` and the read-only `at(k)` leave the world — the handle table,
every Shared State, and every escape flag — entirely unchanged: they never
clone and never mutate. -/
theorem claim9_queries_pure [Inhabited V] (g : Oracle) (w : World K V) (h : Nat)
    (k : K) (t : Nat) :
    (sizeOp w h).2 = w ∧ (emptyOp w h).2 = w ∧ (beginOp w h).2 = w ∧
    (containsOp g w h k t).2.1 = w ∧ (atConstOp g w h k t).2.1 = w :=
  ⟨rfl, rfl, rfl, containsOp_world g w h k t, atConstOp_world g w h k t⟩

/-- C10 counterexample: with the escape flag set, `merge` with the same
container object succeeds (it is the self-merge no-op) but does NOT reset
the flag, and a copy constructed afterwards therefore clones instead of
sharing — refuting the claim for `merge` in the self-merge case. -/
theorem claim10_flag_reset_cex :
    (cexWorldF.getH 0).non_const_refs_given = true ∧
    (mergeOp g0 cexWorldF 0 0 0).1 = .ok () ∧
    ((mergeOp g0 cexWorldF 0 0 0).2.1.getH 0).non_const_refs_given = true ∧
    (copyCtorOp g0 cexWorldF 1 0 0).1 = .ok () ∧
    (copyCtorOp g0 cexWorldF 1 0 0).2.1.addrOf 1 ≠
      (copyCtorOp g0 cexWorldF 1 0 0).2.1.addrOf 0 :=
  ⟨by decide, rfl, by decide, rfl, by decide⟩

/-- C10 (amended): every successful `insert`, `erase` and `clear`, and every
successful `merge` whose argument is a distinct handle, resets the escape
flag to false — even when the mutation happened in place — and a subsequent
copy of a handle whose flag is false shares the Shared State; `merge` with
the same container object is exempt: it succeeds without touching the
flag. -/
theorem claim10_flag_reset_amended [Inhabited V] (g : Oracle) (w : World K V)
    (h t : Nat) (hwf : WF w) (hmem : h ∈ ids w) (hinv : Inv (w.getH h)) :
    (∀ (k : K) (v : V) b, (insertOp g w h k v t).1 = .ok b →
      ((insertOp g w h k v t).2.1.getH h).non_const_refs_given = false) ∧
    (∀ (k : K), (eraseOp g w h k t).1 = .ok () →
      ((eraseOp g w h k t).2.1.getH h).non_const_refs_given = false) ∧
    ((clearOp g w h t).1 = .ok () →
      ((clearOp g w h t).2.1.getH h).non_const_refs_given = false) ∧
    (∀ ho, ho ≠ h → (mergeOp g w h ho t).1 = .ok () →
      ((mergeOp g w h ho t).2.1.getH h).non_const_refs_given = false) ∧
    (mergeOp g w h h t = (.ok (), w, t)) ∧
    (∀ (w2 : World K V) (newh : Nat), WF w2 → h ∈ ids w2 → newh ∉ ids w2 →
      (w2.getH h).non_const_refs_given = false →
      (copyCtorOp g w2 newh h t).1 = .ok () ∧
      (copyCtorOp g w2 newh h t).2.1.addrOf newh = w2.addrOf h) := by
  refine ⟨?_, ?_, ?_, ?_, mergeOp_self g w h t, ?_⟩
  · intro k v b hok
    obtain ⟨-, -, -, hchar⟩ := (insertOp_spec g w h k v t hwf hmem).2.2.2.2.2.2 b hok
    rw [(hchar hinv).2]
    exact structInsert_flag _ _ _
  · intro k hok
    obtain ⟨hcon, -, -, -, hchar⟩ := (eraseOp_spec g w h k t hwf hmem).2.2.2.2.2.2.2 hok
    have hp : (mfind (w.getH h).mappings k).isSome = true := hcon
    obtain ⟨p, hp2⟩ := Option.isSome_iff_exists.1 hp
    rw [hchar hinv]
    exact structErase_flag hp2
  · intro hok
    obtain ⟨-, -, -, hchar⟩ := (clearOp_spec g w h t hwf hmem).2.2.2.2.2.2 hok
    rw [hchar]
    rfl
  · intro ho hne hok
    exact (mergeOp_spec g w h ho t hwf hmem (fun hh => hne hh.symm)).2.2.2.2.2.2 hok
  · intro w2 newh hwf2 hm2 hnew2 hflag
    have hok : (copyCtorOp g w2 newh h t).1 = .ok () := by
      rw [copyCtorOp]
      dsimp only
      rw [if_neg (by rw [hflag]; simp)]
    exact ⟨hok, ((copyCtorOp_spec g w2 newh h t hwf2 hm2 hnew2).2 hok).2.2.2.2.1 hflag⟩

/-- C10 (amended) witness: on the flagged container, reinserting the present
key 0 succeeds and resets the escape flag even though no clone happened. -/
theorem claim10_flag_reset_amended_witness :
    WF cexWorldF ∧ (0 : Nat) ∈ ids cexWorldF ∧ Inv (cexWorldF.getH 0) ∧
    (insertOp g0 cexWorldF 0 0 5 0).1 = .ok false ∧
    ((insertOp g0 cexWorldF 0 0 5 0).2.1.getH 0).non_const_refs_given = false :=
  ⟨soloWorld_wf _, soloWorld_mem _, cexWorldF_inv0, rfl,
   (claim10_flag_reset_amended g0 cexWorldF 0 0 (soloWorld_wf _) (soloWorld_mem _)
      cexWorldF_inv0).1 0 5 false rfl⟩

end IOMap
